import Mathlib

/-!
Wormhole: address codec, segment parser and segment executor.

A shallow embedding of parts of `vishvananda/wormhole` (Go), followed by the
properties proved about them.

Modelling conventions.

* A Go `string` is a `List Char` (`Str`): the list of its Unicode code points.
  Every byte-level operation the embedded code performs (`HasPrefix`,
  `Contains`, `Split`, `LastIndex`, indexing and slicing) searches for or cuts
  at ASCII characters only, so on well-formed UTF-8 it agrees with the same
  operation on code points.
* A Go `int` is an `Int`; `strconv.Atoi` rejects what does not fit the 64 bit
  `int` of the platforms the daemon runs on.
* An `error` result is an `Option`: `none` is `nil`.
-/

namespace Wormhole

/-- A Go string, as the list of its code points. -/
abbrev Str := List Char

deriving instance DecidableEq for Except

/-! ## Go standard library functions used by the code -/

/-- Go `unicode.IsSpace`: the white space characters of Unicode. -/
def isSpace (c : Char) : Bool :=
  let n := c.toNat
  (9 ≤ n && n ≤ 13) || n == 0x20 || n == 0x85 || n == 0xA0 || n == 0x1680 ||
  (0x2000 ≤ n && n ≤ 0x200a) || n == 0x2028 || n == 0x2029 || n == 0x202f ||
  n == 0x205f || n == 0x3000

/-- Go `strings.TrimSpace`: drop leading and trailing white space. -/
def TrimSpace (s : Str) : Str :=
  ((s.dropWhile isSpace).reverse.dropWhile isSpace).reverse

/-- Go `strings.HasPrefix`. -/
def HasPrefix (s pre : Str) : Bool :=
  pre.isPrefixOf s

/-- Go `strings.TrimPrefix`. -/
def TrimPrefix (s pre : Str) : Str :=
  if HasPrefix s pre then s.drop pre.length else s

/-- Go `strings.Contains`: `sub` occurs in `s` as a contiguous block. -/
def Contains : Str → Str → Bool
  | [], sub => sub.isEmpty
  | c :: cs, sub => HasPrefix (c :: cs) sub || Contains cs sub

/-- Go `strings.Split(s, sep)` for a separator `sep` of one character: the pieces
of `s` between the occurrences of `sep`; `n` occurrences give `n + 1` pieces. -/
def Split : Str → Char → List Str
  | [], _ => [[]]
  | c :: cs, sep =>
    if c = sep then [] :: Split cs sep
    else match Split cs sep with
      | [] => [[c]]
      | p :: ps => (c :: p) :: ps

/-- Go `strings.LastIndex(s, sep)` for a separator of one character: the index of
its last occurrence, `none` for Go's `-1`. -/
def LastIndex : Str → Char → Option Nat
  | [], _ => none
  | c :: cs, sep =>
    match LastIndex cs sep with
    | some i => some (i + 1)
    | none => if c = sep then some 0 else none

/-- The number of bits of a Go `int`. -/
def intSize : Nat := 64

/-- The value of a decimal digit. -/
def digitVal (c : Char) : Nat := c.toNat - 48

/-- A decimal digit `0`..`9`. -/
def isDigit (c : Char) : Bool := 48 ≤ c.toNat && c.toNat ≤ 57

/-- The number written by a list of decimal digits. -/
def digitsVal (ds : Str) : Nat :=
  ds.foldl (fun acc c => acc * 10 + digitVal c) 0

/-- The digits of `strconv.Atoi`, after the sign: one or more decimal digits
whose value, with the sign, fits `int`. -/
def atoiDigits (neg : Bool) (ds : Str) : Option Int :=
  if ds.isEmpty then none
  else if ds.all isDigit then
    let v : Int := if neg then -(digitsVal ds : Int) else (digitsVal ds : Int)
    if -(2 : Int) ^ (intSize - 1) ≤ v ∧ v ≤ (2 : Int) ^ (intSize - 1) - 1 then some v else none
  else none

/-- Go `strconv.Atoi`: an optional sign followed by one or more decimal digits;
`none` (an error) for anything else and for a value that does not fit `int`. -/
def Atoi (s : Str) : Option Int :=
  match s with
  | '+' :: r => atoiDigits false r
  | '-' :: r => atoiDigits true r
  | _ => atoiDigits false s

/-- The format verb `%d` on an `int`. -/
def fmtInt (n : Int) : Str :=
  match n with
  | Int.ofNat m => Nat.toDigits 10 m
  | Int.negSucc m => '-' :: Nat.toDigits 10 (m + 1)

/-! ## utils/utils.go -/

/-- The places where `ParseUrl` assigns its `err` result. -/
inductive UrlError where
  /-- Message "Invalid segment protocol: %s". -/
  | invalidProtocol
  /-- Message "Namespace not supported in unix protocol". -/
  | unixNamespace
  /-- Message "Only one namespace is allowed". -/
  | multipleNamespaces
  /-- Message "Port not supported in unix protocol". -/
  | unixPort
  /-- Message "Only one port is allowed". -/
  | multiplePorts
  /-- Message "Invalid characters in hostname". -/
  | invalidHostname
  deriving DecidableEq, Repr

/-- The five results of `ParseUrl`. -/
structure UrlParts where
  proto : Str
  ns : Str
  hostname : Str
  port : Int
  err : Option UrlError
  deriving DecidableEq, Repr

/-- The test `n > 0 && url[0] == '[' && url[n] == ']'` with `n := len(url) - 1`. -/
def bracketed (url : Str) : Bool :=
  let n : Int := (url.length : Int) - 1
  decide (n > 0) && url.head? == some '[' && url.get? n.toNat == some ']'

/-- The slice `url[1:n]` with `n := len(url) - 1`. -/
def unbracket (url : Str) : Str :=
  (url.take (url.length - 1)).drop 1

/-- Lines 137 to 152 of `ParseUrl`, the `switch` on the scheme: the rest of the
URL and `proto`, or `none` for the early return with "Invalid segment
protocol". -/
def parseScheme (url : Str) : Option (Str × Str) :=
  if HasPrefix url "unix://".toList then some (TrimPrefix url "unix://".toList, "unix".toList)
  else if HasPrefix url "tcp://".toList then some (TrimPrefix url "tcp://".toList, "tcp".toList)
  else if HasPrefix url "udp://".toList then some (TrimPrefix url "udp://".toList, "udp".toList)
  else if Contains url "://".toList then none
  else some (url, [])

/-- Lines 153 to 163 of `ParseUrl`, the namespace: `ns`, the rest of the URL
and `err`. -/
def parseNs (proto url : Str) : Str × Str × Option UrlError :=
  if Contains url "@".toList then
    let err := if proto = "unix".toList then some UrlError.unixNamespace else none
    let nsParts := Split url '@'
    let err := if nsParts.length ≠ 2 then some UrlError.multipleNamespaces else err
    (nsParts.getD 0 [], nsParts.getD 1 [], err)
  else ([], url, none)

/-- Lines 175 to 181 of `ParseUrl`, the value of `port` after them.

The assignment `err = fmt.Errorf("Invalid value for port: %v", strPort)` of the
source stands in the `else` branch of `if p, err := strconv.Atoi(strPort); ...`,
where `err` is the variable declared by that `if`, not the result of the
function: it leaves the result `err` as it was, and so nothing is left of it
here. -/
def parsePortValue (strPort : Str) : Int :=
  if strPort.length ≠ 0 then
    match Atoi strPort with
    | some p => if p ≠ 0 then p else 0
    | none => 0
  else 0

/-- Lines 164 to 189 of `ParseUrl`, the host and the port: the host, `port`
and `err`. -/
def parseHostPort (proto url : Str) (err : Option UrlError) : Str × Int × Option UrlError :=
  if bracketed url then (unbracket url, 0, err)
  else
    match LastIndex url ':' with
    | none => (url, 0, err)
    | some i =>
      let err := if proto = "unix".toList then some UrlError.unixPort else err
      let strPort := url.drop (i + 1)
      let url := url.take i
      let port := parsePortValue strPort
      if bracketed url then (unbracket url, port, err)
      else if Contains url ":".toList then (url, port, some UrlError.multiplePorts)
      else (url, port, err)

/-- Lines 190 to 192 of `ParseUrl`, the test of the host name: `err`. -/
def checkHostname (proto url : Str) (err : Option UrlError) : Option UrlError :=
  if proto ≠ "unix".toList ∧ (Contains url "[".toList || Contains url "]".toList) then
    some UrlError.invalidHostname
  else err

/-- Go `ParseUrl` of utils.go, in the order of the source: white space, the
empty URL, the scheme, the namespace, host and port, the test of the host. -/
def ParseUrl (url : Str) : UrlParts :=
  let url := TrimSpace url
  if url.length = 0 then ⟨[], [], [], 0, none⟩
  else
    match parseScheme url with
    | none => ⟨[], [], [], 0, some .invalidProtocol⟩
    | some (url, proto) =>
      match parseNs proto url with
      | (ns, url, err) =>
        match parseHostPort proto url err with
        | (url, port, err) => ⟨proto, ns, url, port, checkHostname proto url err⟩

/-- The two errors of `ValidateAddr`. -/
inductive AddrError where
  /-- Message "Invalid bind address protocol: %s". -/
  | invalidProtocol
  /-- Message "Invalid bind address format: %s". -/
  | invalidFormat
  deriving DecidableEq, Repr

def DEFAULT_PORT : Int := 9999

def DEFAULT_HOST : Str := []

def DEFAULT_UNIX : Str := "/var/run/wormhole".toList

/-- Lines 83 to 98 of `ValidateAddr`, the `switch` on the scheme: `proto` and
the rest of the address, or `none` for the return with "Invalid bind address
protocol". -/
def addrScheme (addr : Str) : Option (Str × Str) :=
  if HasPrefix addr "unix://".toList then
    let addr := TrimPrefix addr "unix://".toList
    some ("unix".toList, if addr = [] then DEFAULT_UNIX else addr)
  else if HasPrefix addr "tcp://".toList then
    some ("tcp".toList, TrimPrefix addr "tcp://".toList)
  else if Contains addr "://".toList then none
  else some ("tcp".toList, addr)

/-- Lines 100 to 124 of `ValidateAddr`: host and port, and the address
returned. -/
def addrHostPort (proto addr : Str) : Except AddrError Str :=
  if proto ≠ "unix".toList ∧ Contains addr ":".toList then
    let hostParts := Split addr ':'
    if hostParts.length ≠ 2 then .error .invalidFormat
    else
      let host := if hostParts.getD 0 [] ≠ [] then hostParts.getD 0 [] else DEFAULT_HOST
      let port : Int :=
        match Atoi (hostParts.getD 1 []) with
        | some p => if p ≠ 0 then p else DEFAULT_PORT
        | none => DEFAULT_PORT
      .ok (proto ++ "://".toList ++ host ++ ":".toList ++ fmtInt port)
  else
    let host := addr
    if proto = "unix".toList then .ok (proto ++ "://".toList ++ host)
    else .ok (proto ++ "://".toList ++ host ++ ":".toList ++ fmtInt DEFAULT_PORT)

/-- Go `ValidateAddr` of utils.go. On an error the Go function returns the empty
string next to it. -/
def ValidateAddr (addr : Str) : Except AddrError Str :=
  match addrScheme addr with
  | none => .error .invalidProtocol
  | some (proto, addr) => addrHostPort proto addr

/-- Go `strings.SplitN(s, sep, 2)` when `sep` occurs in `s`: the text before and
after the first occurrence of `sep`; `none` when `sep` does not occur (the
result of `SplitN` has one element then). -/
def Cut : Str → Str → Option (Str × Str)
  | [], sep => if sep.isEmpty then some ([], []) else none
  | c :: cs, sep =>
    if HasPrefix (c :: cs) sep then some ([], (c :: cs).drop sep.length)
    else match Cut cs sep with
      | some (a, b) => some (c :: a, b)
      | none => none

/-- Go `ParseAddr` of utils.go: `res[0], res[1]` of `SplitN(host, "://", 2)`;
`none` is the index-out-of-range panic of `res[1]` when `host` has no "://". -/
def ParseAddr (host : Str) : Option (Str × Str) :=
  Cut host "://".toList

/-- A lowercase hexadecimal digit, for a value below 16. -/
def hexDigit (n : Nat) : Char :=
  if n < 10 then Char.ofNat (48 + n) else Char.ofNat (87 + n)

/-- The format verb `%x` on a byte slice: two lowercase digits per byte. -/
def fmtHex : List Nat → Str
  | [] => []
  | b :: bs => hexDigit (b / 16) :: hexDigit (b % 16) :: fmtHex bs

/-- Go `Uuid` of utils.go, as a function of the 16 bytes that `rand.Read` leaves
in `b`. -/
def Uuid (b : Fin 16 → Fin 256) : Str :=
  let b : List Nat := (List.ofFn b).map Fin.val
  let b := b.set 6 ((b.getD 6 0 &&& 0x0f) ||| 0x40)
  let b := b.set 8 ((b.getD 8 0 &&& 0x3f) ||| 0x80)
  fmtHex (b.take 4) ++ '-' :: fmtHex ((b.drop 4).take 2) ++ '-' :: fmtHex ((b.drop 6).take 2)
    ++ '-' :: fmtHex ((b.drop 8).take 2) ++ '-' :: fmtHex (b.drop 10)

/-! ## client/client.go -/

def NONE : Int := 0

def URL : Int := 1

def DOCKER_NS : Int := 2

def DOCKER_RUN : Int := 3

def CHILD : Int := 4

def CHAIN : Int := 5

def REMOTE : Int := 6

def TUNNEL : Int := 7

def UDPTUNNEL : Int := 8

/-- Go `SegmentCommand` of client.go; `Typ` is the field `Type`. -/
inductive SegmentCommand where
  | mk (Typ : Int) (Tail : Bool) (Arg : Str) (ChildInit ChildTrig : List SegmentCommand)
  deriving Repr

namespace SegmentCommand

def Typ : SegmentCommand → Int
  | mk t _ _ _ _ => t

def Tail : SegmentCommand → Bool
  | mk _ l _ _ _ => l

def Arg : SegmentCommand → Str
  | mk _ _ a _ _ => a

def ChildInit : SegmentCommand → List SegmentCommand
  | mk _ _ _ ci _ => ci

def ChildTrig : SegmentCommand → List SegmentCommand
  | mk _ _ _ _ ct => ct

/-- Go `AddInit` of client.go. -/
def AddInit (s c : SegmentCommand) : SegmentCommand :=
  match s with
  | mk t l a ci ct => mk t l a (ci ++ [c]) ct

/-- Go `AddTrig` of client.go. -/
def AddTrig (s c : SegmentCommand) : SegmentCommand :=
  match s with
  | mk t l a ci ct => mk t l a ci (ct ++ [c])

mutual
/-- Equality of commands is decidable. -/
def decEq : (a b : SegmentCommand) → Decidable (a = b)
  | mk t1 l1 a1 i1 r1, mk t2 l2 a2 i2 r2 =>
    if ht : t1 = t2 then
      if hl : l1 = l2 then
        if ha : a1 = a2 then
          match decEqList i1 i2 with
          | isTrue hi =>
            match decEqList r1 r2 with
            | isTrue hr => isTrue (by subst ht hl ha hi hr; rfl)
            | isFalse hr => isFalse (by intro h; injection h; contradiction)
          | isFalse hi => isFalse (by intro h; injection h; contradiction)
        else isFalse (by intro h; injection h; contradiction)
      else isFalse (by intro h; injection h; contradiction)
    else isFalse (by intro h; injection h; contradiction)
/-- Equality of command lists is decidable. -/
def decEqList : (as bs : List SegmentCommand) → Decidable (as = bs)
  | [], [] => isTrue rfl
  | [], _ :: _ => isFalse (by simp)
  | _ :: _, [] => isFalse (by simp)
  | a :: as, b :: bs =>
    match decEq a b with
    | isTrue h =>
      match decEqList as bs with
      | isTrue hs => isTrue (by subst h hs; rfl)
      | isFalse hs => isFalse (by intro h; injection h; contradiction)
    | isFalse h => isFalse (by intro h; injection h; contradiction)
end

instance : DecidableEq SegmentCommand := decEq

end SegmentCommand

/-! ## cli/cli.go -/

/-- One step of the pointer `cur` of `parseSegment`: into the last element of
`ChildInit` or of `ChildTrig`. -/
inductive Branch where
  | init
  | trig
  deriving DecidableEq, Repr

/-- Apply `f` to the last element of a list. -/
def modifyLast {α : Type} (f : α → α) : List α → List α
  | [] => []
  | [a] => [f a]
  | a :: b :: l => a :: modifyLast f (b :: l)

/-- Apply `f` to the command that a pointer reached from `c` by the steps of
the path designates. -/
def SegmentCommand.update (f : SegmentCommand → SegmentCommand) :
    List Branch → SegmentCommand → SegmentCommand
  | [], c => f c
  | .init :: p, .mk t l a ci ct => .mk t l a (modifyLast (SegmentCommand.update f p) ci) ct
  | .trig :: p, .mk t l a ci ct => .mk t l a ci (modifyLast (SegmentCommand.update f p) ct)

/-- The local variables of `parseSegment`. The pointer `cur` is the path from
`s` to the command it points to: `cur = &cur.ChildInit[len(cur.ChildInit)-1]`
extends the path by one step, and no list on the path grows afterwards. -/
structure ParseState where
  id : Str
  s : SegmentCommand
  cur : List Branch
  chain : Bool
  tail : Bool
  trigger : Bool
  deriving DecidableEq, Repr

/-- Go `parseUrl` of cli.go, applied to its argument `(*args)[0]`. The call of
`utils.ParseUrl` in the source only decides whether the usage text is printed:
`createFail` prints and returns. -/
def parseUrl (tail : Bool) (url : Str) : SegmentCommand :=
  .mk URL tail url [] []

/-- Go `parseDockerNs` of cli.go, applied to `(*args)[0]`. -/
def parseDockerNs (tail : Bool) (id : Str) : SegmentCommand :=
  .mk DOCKER_NS tail id [] []

/-- Go `parseDockerRun` of cli.go, applied to `(*args)[0]`. -/
def parseDockerRun (tail : Bool) (run : Str) : SegmentCommand :=
  .mk DOCKER_RUN tail run [] []

/-- Go `parseChild` of cli.go. -/
def parseChild : SegmentCommand :=
  .mk CHILD false [] [] []

/-- Go `parseChain` of cli.go. -/
def parseChain : SegmentCommand :=
  .mk CHAIN false [] [] []

/-- The `host` that `host, err := utils.ValidateAddr(...)` leaves: the empty
string next to an error. -/
def validatedHost (arg : Str) : Str :=
  match ValidateAddr arg with
  | .ok host => host
  | .error _ => []

/-- Go `parseRemote` of cli.go, applied to `(*args)[0]`. -/
def parseRemote (arg : Str) : SegmentCommand :=
  .mk REMOTE false (validatedHost arg) [] []

/-- Go `parseTunnel` of cli.go, applied to `(*args)[0]`. -/
def parseTunnel (arg : Str) : SegmentCommand :=
  .mk TUNNEL false (validatedHost arg) [] []

/-- Go `parseUdptunnel` of cli.go, applied to `(*args)[0]`. -/
def parseUdptunnel (arg : Str) : SegmentCommand :=
  .mk UDPTUNNEL false (validatedHost arg) [] []

/-- Lines 170 to 186 of `parseSegment`: add `action` at `cur`, to the trig list
when `trigger` is set and to the init list otherwise, and after a chaining
command move `cur` to the command just added. -/
def ParseState.add (st : ParseState) (action : SegmentCommand) : ParseState :=
  if st.trigger then
    let s := st.s.update (fun c => c.AddTrig action) st.cur
    if st.chain then
      { st with s := s, cur := st.cur ++ [.trig], chain := false, trigger := false, tail := false }
    else { st with s := s }
  else
    let s := st.s.update (fun c => c.AddInit action) st.cur
    if st.chain then
      { st with s := s, cur := st.cur ++ [.init], chain := false, trigger := false, tail := false }
    else { st with s := s }

/-- The loop of `parseSegment`. `none`: the process does not return from the
call, either by `log.Fatalf` for an unknown subcommand or by the panic of
`(*args)[0]` on an empty slice (`createFail` prints the usage and returns). -/
def parseSegmentLoop : List Str → ParseState → Option ParseState
  | [], st => some st
  | command :: args, st =>
    if command = "id".toList then
      match args with
      | [] => none
      | id :: args => parseSegmentLoop args { st with id := id }
    else if command = "url".toList then
      match args with
      | [] => none
      | a :: args => parseSegmentLoop args (st.add (parseUrl st.tail a))
    else if command = "docker-ns".toList then
      match args with
      | [] => none
      | a :: args => parseSegmentLoop args (st.add (parseDockerNs st.tail a))
    else if command = "docker-run".toList then
      match args with
      | [] => none
      | a :: args => parseSegmentLoop args (st.add (parseDockerRun st.tail a))
    else if command = "child".toList then
      parseSegmentLoop args ({ st with chain := true }.add parseChild)
    else if command = "chain".toList then
      parseSegmentLoop args ({ st with chain := true }.add parseChain)
    else if command = "remote".toList then
      match args with
      | [] => none
      | a :: args => parseSegmentLoop args ({ st with chain := true }.add (parseRemote a))
    else if command = "tunnel".toList then
      match args with
      | [] => none
      | a :: args => parseSegmentLoop args ({ st with chain := true }.add (parseTunnel a))
    else if command = "udptunnel".toList then
      match args with
      | [] => none
      | a :: args => parseSegmentLoop args ({ st with chain := true }.add (parseUdptunnel a))
    else if command = "tail".toList then
      parseSegmentLoop args { st with tail := true }
    else if command = "trigger".toList then
      parseSegmentLoop args { st with trigger := true, tail := true }
    else none

/-- Go `parseSegment` of cli.go; `uuid` is the value of `utils.Uuid()` that the
function starts from. The results are `id`, `s.ChildInit` and `s.ChildTrig`;
the error result of the source is always `nil`. -/
def parseSegment (uuid : Str) (args : List Str) :
    Option (Str × List SegmentCommand × List SegmentCommand) :=
  match parseSegmentLoop args ⟨uuid, .mk 0 false [] [] [], [], false, false, false⟩ with
  | none => none
  | some st => some (st.id, st.s.ChildInit, st.s.ChildTrig)

/-! ## server/segment.go

The collaborators of the executor that are no code of `src/` (network
namespaces, the docker command, the connections to peer daemons, the proxy)
and the tunnel manager are an environment `Env W`: each call maps a state `W`
of the outside world to its Go results and a new state. The peer daemons
reached over RPC are other processes: a call to them changes `W`, not the
registry `segments` of the daemon modelled here. -/

/-- A network namespace handle of package netns (a file descriptor). -/
abbrev NsHandle := Int

/-- Go `netns.None()`. -/
def NsNone : NsHandle := -1

/-- The error values met by the executor. -/
inductive Error where
  /-- An error of `utils.ParseUrl`. -/
  | url (e : UrlError)
  /-- Message "Command type %d recognized". -/
  | unknownCommand (t : Int)
  /-- Message "Segment %s already exists". -/
  | segmentExists (id : Str)
  /-- Message "Cannot proxy to self". -/
  | selfProxy
  /-- Message "IP %s is in use", of type `IPInUse`. -/
  | ipInUse (ip : Str)
  /-- Message "No ports available", of type `NoPortsAvailable`. -/
  | noPortsAvailable
  /-- The error `syscall.EEXIST`. -/
  | eexist
  /-- Message "Failed to find tunnel to dst %s". -/
  | noTunnel (dst : Str)
  /-- Messages "Failed to get links", "Failed to get addrs" and "Could not find
  address" of `getLink`. -/
  | noLink
  /-- An error returned by a collaborator. -/
  | external (code : Nat)
  deriving DecidableEq, Repr

/-- How a call ends: with a `nil` error, with an error, or in a panic. -/
inductive Outcome where
  | ok
  | fail (e : Error)
  | panic
  deriving DecidableEq, Repr

/-- The result of `err != nil` tests on a Go error value. -/
def Outcome.ofErr : Option Error → Outcome
  | none => .ok
  | some e => .fail e

structure ConnectionInfo where
  Proto : Str
  Ns : NsHandle
  Hostname : Str
  Port : Int
  deriving DecidableEq, Repr

/-- Modelled from the spec: the `Proxier` of package `pkg/proxy`, which is not
among the sources. What `NewProxier(s, hostname)` and `SetNs(ns)` store. -/
structure Proxier where
  Hostname : Str
  Ns : NsHandle
  deriving DecidableEq, Repr

structure Segment where
  Head : ConnectionInfo
  Tail : ConnectionInfo
  Init : List SegmentCommand
  Trig : List SegmentCommand
  ChildHost : Str
  ChildId : Str
  Proxy : Option Proxier
  DockerIds : List Str
  deriving DecidableEq, Repr

/-- A connection to a peer daemon, the `*client.Client` of client.go. -/
abbrev Conn := Nat

/-- Go `net.IP`, a slice of bytes: 4 bytes for the short form of an IPv4
address, 16 bytes otherwise, and no byte for `nil`. -/
abbrev IP := List Nat

/-- The first twelve bytes of an IPv4 address in its 16 byte form,
`v4InV6Prefix` of package net. -/
def v4InV6Prefix : List Nat := [0, 0, 0, 0, 0, 0, 0, 0, 0, 0, 0xff, 0xff]

/-- Go `IP.Equal` of package net: the same bytes, or an IPv4 address and the same
address in its 16 byte form. -/
def IP.Equal (ip x : IP) : Bool :=
  if ip.length = x.length then decide (ip = x)
  else if ip.length = 4 ∧ x.length = 16 then
    decide (x.take 12 = v4InV6Prefix) && decide (ip = x.drop 12)
  else if ip.length = 16 ∧ x.length = 4 then
    decide (ip.take 12 = v4InV6Prefix) && decide (ip.drop 12 = x)
  else false

/-- The fields of `net.TCPAddr` and of `net.UDPAddr`. -/
structure NetAddr where
  IP : IP
  Port : Int
  Zone : Str
  deriving DecidableEq, Repr

/-- The environment of the executor. -/
structure Env (W : Type) where
  /-- The 16 bytes `rand.Read` leaves in the buffer of `utils.Uuid`. -/
  randRead : W → (Fin 16 → Fin 256) × W
  /-- Go `netns.GetFromName(ns)`. -/
  GetFromName : Str → W → (NsHandle × Option Error) × W
  /-- Go `netns.GetFromDocker(id)`. -/
  GetFromDocker : Str → W → (NsHandle × Option Error) × W
  /-- Go `exec.Command("docker", args...).Output()`. -/
  dockerOutput : List Str → W → (Str × Option Error) × W
  /-- Go `tls.Dial(proto, address, opts.config)` wrapped in an RPC client. -/
  Dial : Str → Str → W → (Conn × Option Error) × W
  /-- Go `c.GetSrcIP(opts.src)` and the `String()` of the address it returns. -/
  GetSrcIP : Conn → W → (Str × Option Error) × W
  /-- Go `c.CreateSegment(id, init, trig)`: the segment is created by the peer. -/
  CreateSegment : Conn → Str → List SegmentCommand → List SegmentCommand → W →
    (Str × Option Error) × W
  /-- Go `createTunnel(host, udp)` of tunnel.go, which works on the tunnel
  registries and the kernel only, and the `String()` of the `dst` it returns. -/
  createTunnel : Str → Bool → W → (Str × Outcome) × W
  /-- Go `Proxier.AddService("segment", proto, port)`: the port bound. -/
  AddService : Proxier → Str → Int → W → (Int × Option Error) × W
  /-- Go `net.ResolveTCPAddr(network, address)`; `none` is an error. -/
  ResolveTCPAddr : Str → Str → W → Option NetAddr
  /-- Go `net.ResolveUDPAddr(network, address)`; `none` is an error. -/
  ResolveUDPAddr : Str → Str → W → Option NetAddr
  /-- The second half of `NsHandle.Equal` of package netns, for two handles that
  differ: whether `syscall.Fstat` finds the same device and inode behind both. -/
  sameFile : NsHandle → NsHandle → W → Bool

/-- The state of the daemon: the registry `segments` (a Go map, here the list
of its entries, newest first) and the world outside. -/
structure Daemon (W : Type) where
  segments : List (Str × Segment)
  world : W

/-- Go `getSegment` of segment.go. -/
def getSegment {W : Type} (d : Daemon W) (key : Str) : Option Segment :=
  d.segments.lookup key

/-- Go `addSegment` of segment.go: `segments[key] = segment`. -/
def addSegment {W : Type} (d : Daemon W) (key : Str) (segment : Segment) : Daemon W :=
  { d with segments := (key, segment) :: d.segments.filter (fun e => e.1 ≠ key) }

/-- Go `removeSegment` of segment.go: `delete(segments, key)`. -/
def removeSegment {W : Type} (d : Daemon W) (key : Str) : Daemon W :=
  { d with segments := d.segments.filter (fun e => e.1 ≠ key) }

/-- Go `NewSegment` of segment.go. -/
def NewSegment : Segment :=
  { Head := ⟨[], NsNone, [], 0⟩, Tail := ⟨[], NsNone, [], 0⟩, Init := [], Trig := [],
    ChildHost := [], ChildId := [], Proxy := none, DockerIds := [] }

/-- The end of the segment a command works on: `ci := &seg.Head`, or
`&seg.Tail` when `command.Tail` is set. -/
def Segment.ci (seg : Segment) (tail : Bool) : ConnectionInfo :=
  if tail then seg.Tail else seg.Head

/-- Store through the pointer `ci`. -/
def Segment.setCi (seg : Segment) (tail : Bool) (ci : ConnectionInfo) : Segment :=
  if tail then { seg with Tail := ci } else { seg with Head := ci }

/-- What a handler of one command leaves: its result, the command (handlers
get a pointer to the element of the slice and may change it), the segment and
the daemon. -/
structure Step (W : Type) where
  res : Outcome
  command : SegmentCommand
  seg : Segment
  daemon : Daemon W

/-- What a run over a slice of commands leaves: its result, the elements of the
slice, the segment and the daemon. -/
structure Exec (W : Type) where
  res : Outcome
  array : List SegmentCommand
  seg : Segment
  daemon : Daemon W

/-- Go `executeUrl` of segment.go. -/
def executeUrl {W : Type} (E : Env W) (command : SegmentCommand) (seg : Segment)
    (d : Daemon W) : Step W :=
  let ci := seg.ci command.Tail
  let u := ParseUrl command.Arg
  match u.err with
  | some e => ⟨.fail (.url e), command, seg, d⟩
  | none =>
    let ci := if u.proto ≠ [] then { ci with Proto := u.proto } else ci
    let r : Option Error × ConnectionInfo × W :=
      if u.ns ≠ [] then
        match E.GetFromName u.ns d.world with
        | ((h, err), w) => (err, { ci with Ns := h }, w)
      else (none, ci, d.world)
    match r with
    | (some e, ci, w) => ⟨.fail e, command, seg.setCi command.Tail ci, { d with world := w }⟩
    | (none, ci, w) =>
      let ci := if u.hostname ≠ [] then { ci with Hostname := u.hostname } else ci
      let ci := if u.port ≠ 0 then { ci with Port := u.port } else ci
      ⟨.ok, command, seg.setCi command.Tail ci, { d with world := w }⟩

/-- Go `executeDockerNs` of segment.go. -/
def executeDockerNs {W : Type} (E : Env W) (command : SegmentCommand) (seg : Segment)
    (d : Daemon W) : Step W :=
  let ci := seg.ci command.Tail
  match E.GetFromDocker command.Arg d.world with
  | ((h, err), w) =>
    ⟨Outcome.ofErr err, command, seg.setCi command.Tail { ci with Ns := h }, { d with world := w }⟩

/-- Go `strings.Fields`: the maximal blocks without white space; `cur` is the
block being read, in reverse. -/
def fieldsAux (cur : Str) : Str → List Str
  | [] => if cur.isEmpty then [] else [cur.reverse]
  | c :: cs =>
    if isSpace c then
      if cur.isEmpty then fieldsAux [] cs else cur.reverse :: fieldsAux [] cs
    else fieldsAux (c :: cur) cs

/-- Go `strings.Fields`. -/
def Fields (s : Str) : List Str :=
  fieldsAux [] s

/-- Go `executeDockerRun` of segment.go. -/
def executeDockerRun {W : Type} (E : Env W) (command : SegmentCommand) (seg : Segment)
    (d : Daemon W) : Step W :=
  let args := Fields command.Arg
  let args := ["run".toList, "-d".toList] ++ args
  match E.dockerOutput args d.world with
  | ((_, some e), w) => ⟨.fail e, command, seg, { d with world := w }⟩
  | ((out, none), w) =>
    let id := TrimSpace out
    let seg := { seg with DockerIds := seg.DockerIds ++ [id] }
    let ci := seg.ci command.Tail
    match E.GetFromDocker id w with
    | ((h, err), w) =>
      ⟨Outcome.ofErr err, command, seg.setCi command.Tail { ci with Ns := h }, { d with world := w }⟩

/-- Go `client.NewClient` of client.go; `none` is the panic of `utils.ParseAddr`. -/
def NewClient {W : Type} (E : Env W) (host : Str) (w : W) : Option ((Conn × Option Error) × W) :=
  match ParseAddr host with
  | none => none
  | some (proto, address) => some (E.Dial proto address w)

/-- The common end of `executeRemote` and `executeTunnel`: from the call of
`c.CreateSegment` on; `command` already carries the appended URL command. -/
def createRemoteSegment {W : Type} (E : Env W) (c : Conn) (command : SegmentCommand)
    (seg : Segment) (d : Daemon W) : Step W :=
  match E.randRead d.world with
  | (b, w) =>
    let id := Uuid b
    match E.CreateSegment c id command.ChildInit command.ChildTrig w with
    | ((_, some e), w) => ⟨.fail e, command, seg, { d with world := w }⟩
    | ((url, none), w) =>
      let u := ParseUrl url
      let seg := { seg with
        Tail := { seg.Tail with Proto := u.proto, Hostname := u.hostname, Port := u.port } }
      match u.err with
      | some e => ⟨.fail (.url e), command, seg, { d with world := w }⟩
      | none =>
        ⟨.ok, command, { seg with ChildHost := command.Arg, ChildId := id }, { d with world := w }⟩

/-- The command with `urlCommand` appended to its `ChildInit`. -/
def appendUrl (command : SegmentCommand) (dst : Str) : SegmentCommand :=
  command.AddInit (.mk URL false dst [] [])

/-- Go `executeRemote` of segment.go. -/
def executeRemote {W : Type} (E : Env W) (command : SegmentCommand) (seg : Segment)
    (d : Daemon W) : Step W :=
  match NewClient E command.Arg d.world with
  | none => ⟨.panic, command, seg, d⟩
  | some ((_, some e), w) => ⟨.fail e, command, seg, { d with world := w }⟩
  | some ((c, none), w) =>
    match E.GetSrcIP c w with
    | ((_, some e), w) => ⟨.fail e, command, seg, { d with world := w }⟩
    | ((dst, none), w) =>
      createRemoteSegment E c (appendUrl command dst) seg { d with world := w }

/-- Go `executeTunnel` of segment.go. -/
def executeTunnel {W : Type} (E : Env W) (command : SegmentCommand) (seg : Segment) (udp : Bool)
    (d : Daemon W) : Step W :=
  match E.createTunnel command.Arg udp d.world with
  | ((_, .panic), w) => ⟨.panic, command, seg, { d with world := w }⟩
  | ((_, .fail e), w) => ⟨.fail e, command, seg, { d with world := w }⟩
  | ((dst, .ok), w) =>
    let command := appendUrl command dst
    match NewClient E command.Arg w with
    | none => ⟨.panic, command, seg, { d with world := w }⟩
    | some ((_, some e), w) => ⟨.fail e, command, seg, { d with world := w }⟩
    | some ((c, none), w) => createRemoteSegment E c command seg { d with world := w }

/-- The start of `createSegmentLocal`, up to the call of `Initialize`: the test
for an existing segment, and the new segment with its head, `Init` and `Trig`. -/
def newSegmentFor (init trig : List SegmentCommand) (cinfo : Option ConnectionInfo) : Segment :=
  let s := NewSegment
  let s := match cinfo with
    | some ci => { s with Head := ci }
    | none => s
  { s with Init := init, Trig := trig }

/-- The end of `executeCommands` and of `Initialize`, from the return of the
loop over `s.Init` on: the loop leaves its slice as it is when a command
fails, `*commands = make([]client.SegmentCommand, 0)` empties it otherwise, and
then the head gets its defaults. -/
def finishInitialize {W : Type} (r : Exec W) : Outcome × Segment × Daemon W :=
  match r.res with
  | .ok =>
    let s := { r.seg with Init := [] }
    let s := if s.Head.Proto = [] then { s with Head := { s.Head with Proto := "tcp".toList } } else s
    let s :=
      if s.Head.Hostname = [] then { s with Head := { s.Head with Hostname := "127.0.0.1".toList } }
      else s
    (.ok, s, r.daemon)
  | res => (res, { r.seg with Init := r.array }, r.daemon)

/-- The end of `createSegmentLocal`, from the return of `Initialize` on. -/
def finishCreateSegmentLocal {W : Type} (E : Env W) (id : Str)
    (r : Outcome × Segment × Daemon W) : Outcome × Option ConnectionInfo × Daemon W :=
  match r with
  | (.ok, s, d) =>
    let proxy : Proxier := ⟨s.Head.Hostname, s.Head.Ns⟩
    let s := { s with Proxy := some proxy }
    match E.AddService proxy s.Head.Proto s.Head.Port d.world with
    | ((port, err), w) =>
      let s := { s with Head := { s.Head with Port := port } }
      let d := { d with world := w }
      match err with
      | some e => (.fail e, none, d)
      | none => (.ok, some s.Head, addSegment d id s)
  | (res, _, d) => (res, none, d)

/-- The end of `executeChild`, from the return of `createSegmentLocal` on.
The slice `command.ChildInit` was handed to the child segment and shares its
elements with the child's `Init`: `array` is what the child's run left. -/
def finishChild {W : Type} (command : SegmentCommand) (seg : Segment) (chain : Bool) (id : Str)
    (array : List SegmentCommand) (r : Outcome × Option ConnectionInfo × Daemon W) : Step W :=
  let command := SegmentCommand.mk command.Typ command.Tail command.Arg array command.ChildTrig
  match r with
  | (.ok, some cinfo, d) =>
    let seg := if chain then { seg with Tail := cinfo } else seg
    ⟨.ok, command, { seg with ChildId := id }, d⟩
  | (res, _, d) => ⟨res, command, seg, d⟩

mutual
/-- The body of the loop of `executeCommands`: the `switch` on the type of the
command. For `CHILD` and `CHAIN` it is `executeChild`, with the calls of
`createSegmentLocal`, `Initialize` and `executeCommands` on the child's
commands unfolded into their parts. -/
def executeCommand {W : Type} (E : Env W) : SegmentCommand → Segment → Daemon W → Step W
  | .mk t l a ci ct, seg, d =>
    if t = NONE then ⟨.ok, .mk t l a ci ct, seg, d⟩
    else if t = DOCKER_NS then executeDockerNs E (.mk t l a ci ct) seg d
    else if t = DOCKER_RUN then executeDockerRun E (.mk t l a ci ct) seg d
    else if t = CHILD ∨ t = CHAIN then
      match E.randRead d.world with
      | (b, w) =>
        let id := Uuid b
        let d : Daemon W := { d with world := w }
        match getSegment d id with
        | some _ => finishChild (.mk t l a ci ct) seg (t = CHAIN) id ci (.fail (.segmentExists id), none, d)
        | none =>
          let r := executeLoop E ci (newSegmentFor ci ct (some seg.Tail)) d
          finishChild (.mk t l a ci ct) seg (t = CHAIN) id r.array
            (finishCreateSegmentLocal E id (finishInitialize r))
    else if t = REMOTE then executeRemote E (.mk t l a ci ct) seg d
    else if t = TUNNEL then executeTunnel E (.mk t l a ci ct) seg false d
    else if t = UDPTUNNEL then executeTunnel E (.mk t l a ci ct) seg true d
    else if t = URL then executeUrl E (.mk t l a ci ct) seg d
    else ⟨.fail (.unknownCommand t), .mk t l a ci ct, seg, d⟩
/-- The loop `for i := 0; i < len(*commands); i++` of `executeCommands`, which
returns at the first command that fails. -/
def executeLoop {W : Type} (E : Env W) : List SegmentCommand → Segment → Daemon W → Exec W
  | [], seg, d => ⟨.ok, [], seg, d⟩
  | c :: cs, seg, d =>
    match executeCommand E c seg d with
    | ⟨.ok, c, seg, d⟩ =>
      match executeLoop E cs seg d with
      | ⟨res, cs, seg, d⟩ => ⟨res, c :: cs, seg, d⟩
    | ⟨res, c, seg, d⟩ => ⟨res, c :: cs, seg, d⟩
end

/-- Go `Initialize` of segment.go: `executeCommands(&s.Init, s)`, then the
defaults of the head. -/
def Initialize {W : Type} (E : Env W) (s : Segment) (d : Daemon W) : Outcome × Segment × Daemon W :=
  finishInitialize (executeLoop E s.Init s d)

/-- Go `createSegmentLocal` of segment.go. -/
def createSegmentLocal {W : Type} (E : Env W) (id : Str) (init trig : List SegmentCommand)
    (cinfo : Option ConnectionInfo) (d : Daemon W) : Outcome × Option ConnectionInfo × Daemon W :=
  match getSegment d id with
  | some _ => (.fail (.segmentExists id), none, d)
  | none => finishCreateSegmentLocal E id (Initialize E (newSegmentFor init trig cinfo) d)

/-- Go `createSegment` of segment.go: the URL of the head, or an error. -/
def createSegment {W : Type} (E : Env W) (id : Str) (init trig : List SegmentCommand)
    (d : Daemon W) : Outcome × Str × Daemon W :=
  match createSegmentLocal E id init trig none d with
  | (.ok, some cinfo, d) =>
    (.ok, cinfo.Proto ++ "://".toList ++ cinfo.Hostname ++ ":".toList ++ fmtInt cinfo.Port, d)
  | (res, _, d) => (res, [], d)

/-- The length `len(s)` of a Go string: the number of bytes of its UTF-8 form. -/
def byteLen (s : Str) : Nat :=
  (s.map Char.utf8Size).sum

/-- Go `net.JoinHostPort`: "host:port", and "[host]:port" for a host with a
colon, which is taken for a literal IPv6 address. -/
def JoinHostPort (host port : Str) : Str :=
  if host.contains ':' then "[".toList ++ host ++ "]:".toList ++ port
  else host ++ ":".toList ++ port

/-- Go `NsHandle.Equal` of package netns: the same handle, or two handles of the
same file. -/
def NsHandle.Equal {W : Type} (E : Env W) (ns other : NsHandle) (w : W) : Bool :=
  if ns = other then true else E.sameFile ns other w

/-- Go `hostEqual` of segment.go; `none` is the panic of `proto[:3]` on a proto
of less than three bytes. -/
def hostEqual {W : Type} (E : Env W) (proto h1 h2 : Str) (w : W) : Option Bool :=
  if h1 = h2 then some true
  else if byteLen proto < 3 then none
  else if proto.take 3 = "udp".toList then
    match E.ResolveUDPAddr proto h1 w with
    | none => some false
    | some a1 =>
      match E.ResolveUDPAddr proto h2 w with
      | none => some false
      | some a2 => some (a1.IP.Equal a2.IP && decide (a1.Zone = a2.Zone) && decide (a1.Port = a2.Port))
  else if proto.take 3 = "tcp".toList then
    match E.ResolveTCPAddr proto h1 w with
    | none => some false
    | some a1 =>
      match E.ResolveTCPAddr proto h2 w with
      | none => some false
      | some a2 => some (a1.IP.Equal a2.IP && decide (a1.Zone = a2.Zone) && decide (a1.Port = a2.Port))
  else some false

/-- The defaults of the tail in `Trigger`: the proto and the port of the head,
and the host name 127.0.0.1. -/
def tailDefaults (s : Segment) : Segment :=
  let s := if s.Tail.Proto = [] then { s with Tail := { s.Tail with Proto := s.Head.Proto } } else s
  let s :=
    if s.Tail.Hostname = [] then { s with Tail := { s.Tail with Hostname := "127.0.0.1".toList } }
    else s
  if s.Tail.Port = 0 then { s with Tail := { s.Tail with Port := s.Head.Port } } else s

/-- The end of `executeCommands` and of `Trigger`, from the return of the loop
over `s.Trig` on: the slice is kept when a command fails and emptied
otherwise; then the defaults of the tail and the test for a proxy to
itself. -/
def finishTrigger {W : Type} (E : Env W) (r : Exec W) : Outcome × Segment × Daemon W :=
  match r.res with
  | .ok =>
    let s := tailDefaults { r.seg with Trig := [] }
    let host1 := JoinHostPort s.Head.Hostname (fmtInt s.Head.Port)
    let host2 := JoinHostPort s.Tail.Hostname (fmtInt s.Tail.Port)
    match hostEqual E s.Head.Proto host1 host2 r.daemon.world with
    | none => (.panic, s, r.daemon)
    | some eq =>
      if eq && NsHandle.Equal E s.Head.Ns s.Tail.Ns r.daemon.world then
        (.fail .selfProxy, s, r.daemon)
      else (.ok, s, r.daemon)
  | res => (res, { r.seg with Trig := r.array }, r.daemon)

/-- Go `Trigger` of segment.go. -/
def Trigger {W : Type} (E : Env W) (s : Segment) (d : Daemon W) : Outcome × Segment × Daemon W :=
  finishTrigger E (executeLoop E s.Trig s d)

/-- What `NextEndpoint` returns: the namespace and the host of the tail, and the
error. -/
structure Endpoint where
  Ns : NsHandle
  host : Str
  err : Outcome
  deriving DecidableEq, Repr

/-- Go `NextEndpoint` of segment.go. -/
def NextEndpoint {W : Type} (E : Env W) (s : Segment) (d : Daemon W) :
    Endpoint × Segment × Daemon W :=
  match Trigger E s d with
  | (.ok, s, d) => (⟨s.Tail.Ns, JoinHostPort s.Tail.Hostname (fmtInt s.Tail.Port), .ok⟩, s, d)
  | (res, s, d) => (⟨NsNone, [], res⟩, s, d)

/-- A number in decimal digits. -/
def decimal (s : Str) : Option Nat :=
  if s ≠ [] ∧ s.all isDigit then some (digitsVal s) else none

/-- The address `net.ResolveTCPAddr` and `net.ResolveUDPAddr` return for a
literal "a.b.c.d:port" with four bytes and a port in decimal, which they parse
without a name server; `none` for any other text. -/
def literalAddr (address : Str) : Option NetAddr :=
  match Split address ':' with
  | [host, port] =>
    match (Split host '.').map decimal, decimal port with
    | [some a, some b, some c, some d], some p =>
      if [a, b, c, d].all (fun x => decide (x ≤ 255)) ∧ p ≤ 65535 then
        some ⟨v4InV6Prefix ++ [a, b, c, d], p, []⟩
      else none
    | _, _ => none
  | _ => none

/-- An environment without a world: no namespace, no docker, no peer, no name
server. -/
def Env.offline : Env Unit where
  randRead := fun w => (fun _ => 0, w)
  GetFromName := fun _ w => ((NsNone, some (.external 1)), w)
  GetFromDocker := fun _ w => ((NsNone, some (.external 2)), w)
  dockerOutput := fun _ w => (([], some (.external 3)), w)
  Dial := fun _ _ w => ((0, some (.external 4)), w)
  GetSrcIP := fun _ w => (([], some (.external 5)), w)
  CreateSegment := fun _ _ _ _ w => (([], some (.external 6)), w)
  createTunnel := fun _ _ w => (([], .fail (.external 7)), w)
  AddService := fun _ _ port w => ((port, none), w)
  ResolveTCPAddr := fun _ address _ => literalAddr address
  ResolveUDPAddr := fun _ address _ => literalAddr address
  sameFile := fun _ _ _ => false

/-- The segment `Segment{}` of the tests, with `Init` set. -/
def Segment.zero (init : List SegmentCommand) : Segment :=
  { Head := ⟨[], 0, [], 0⟩, Tail := ⟨[], 0, [], 0⟩, Init := init, Trig := [],
    ChildHost := [], ChildId := [], Proxy := none, DockerIds := [] }

/-! ## The URL grammar `[scheme://][ns@]host[:port]` -/

/-- A character of a namespace or host name: none of the separators of the
grammar and no white space. -/
def nameChar (c : Char) : Bool :=
  !(c == '@' || c == ':' || c == '[' || c == ']' || c == '/' || isSpace c)

/-- A character of the path of a unix URL. -/
def pathChar (c : Char) : Bool :=
  !(c == '@' || c == ':' || c == '[' || c == ']' || isSpace c)

/-- A character of a bracketed host, an IPv6 address. -/
def addrChar (c : Char) : Bool :=
  !(c == '@' || c == '[' || c == ']' || c == '/' || isSpace c)

/-- A URL of the grammar by its parts; `none` is an absent optional part.
`bracket` tells that the host is written between `[` and `]`, and `port` is
the text after the `:`. -/
structure UrlText where
  scheme : Option Str
  ns : Option Str
  bracket : Bool
  host : Str
  port : Option Str
  deriving DecidableEq, Repr

/-- The text of an optional scheme. -/
def schemeText : Option Str → Str
  | some p => p ++ "://".toList
  | none => []

/-- The text of an optional namespace. -/
def nsText : Option Str → Str
  | some n => n ++ "@".toList
  | none => []

/-- The text of a host, bracketed or not. -/
def hostText (bracket : Bool) (host : Str) : Str :=
  if bracket then '[' :: (host ++ "]".toList) else host

/-- The text of an optional port. -/
def portText : Option Str → Str
  | some ds => ':' :: ds
  | none => []

/-- The text of a URL. -/
def UrlText.render (t : UrlText) : Str :=
  schemeText t.scheme ++ (nsText t.ns ++ (hostText t.bracket t.host ++ portText t.port))

/-- The URLs of the grammar: the scheme is tcp, udp or unix; a unix URL has
neither namespace nor port; names are made of name characters; the port is
empty or a decimal number other than zero that fits an `int`. -/
def UrlText.wf (t : UrlText) : Bool :=
  (t.scheme == none || t.scheme == some "tcp".toList || t.scheme == some "udp".toList ||
    t.scheme == some "unix".toList) &&
  (t.scheme != some "unix".toList || (t.ns == none && t.port == none)) &&
  (match t.ns with
    | some n => n.all nameChar
    | none => true) &&
  (if t.bracket then t.host.all addrChar
    else if t.scheme == some "unix".toList then t.host.all pathChar
    else t.host.all nameChar) &&
  (match t.port with
    | some ds => ds.all isDigit && (ds.isEmpty || (digitsVal ds != 0 && digitsVal ds < 2 ^ (intSize - 1)))
    | none => true)

/-- The number an optional port stands for: the number its digits write, and
zero for an absent port. -/
def portNumber : Option Str → Int
  | some ds => (digitsVal ds : Int)
  | none => 0

/-- What the grammar says `ParseUrl` returns: each part that is present in its
field, the zero value for each absent part, and no error. -/
def UrlText.parts (t : UrlText) : UrlParts :=
  { proto := t.scheme.getD [], ns := t.ns.getD [], hostname := t.host,
    port := portNumber t.port, err := none }

/-- The rows of `TestParseUrl` in utils_test.go, which contain the rows of the
table of the specification: the URL and the results expected, without error. -/
def TestParseUrl : List (String × UrlParts) :=
  [("", ⟨[], [], [], 0, none⟩),
   (":40", ⟨[], [], [], 40, none⟩),
   ("foo", ⟨[], [], "foo".toList, 0, none⟩),
   ("foo:", ⟨[], [], "foo".toList, 0, none⟩),
   ("foo:40", ⟨[], [], "foo".toList, 40, none⟩),
   ("ns@", ⟨[], "ns".toList, [], 0, none⟩),
   ("ns@foo", ⟨[], "ns".toList, "foo".toList, 0, none⟩),
   ("ns@:40", ⟨[], "ns".toList, [], 40, none⟩),
   ("ns@foo:40", ⟨[], "ns".toList, "foo".toList, 40, none⟩),
   ("tcp://", ⟨"tcp".toList, [], [], 0, none⟩),
   ("udp://", ⟨"udp".toList, [], [], 0, none⟩),
   ("unix://", ⟨"unix".toList, [], [], 0, none⟩),
   ("tcp://foo", ⟨"tcp".toList, [], "foo".toList, 0, none⟩),
   ("tcp://:40", ⟨"tcp".toList, [], [], 40, none⟩),
   ("tcp://foo:40", ⟨"tcp".toList, [], "foo".toList, 40, none⟩),
   ("tcp://ns@", ⟨"tcp".toList, "ns".toList, [], 0, none⟩),
   ("tcp://ns@foo", ⟨"tcp".toList, "ns".toList, "foo".toList, 0, none⟩),
   ("tcp://ns@:40", ⟨"tcp".toList, "ns".toList, [], 40, none⟩),
   ("tcp://ns@foo:40", ⟨"tcp".toList, "ns".toList, "foo".toList, 40, none⟩),
   ("[::1]:40", ⟨[], [], "::1".toList, 40, none⟩)]


/-- The schemes of the grammar, and no scheme. -/
def knownScheme (scheme : Option Str) : Bool :=
  scheme == none || scheme == some "tcp".toList || scheme == some "udp".toList ||
    scheme == some "unix".toList

/-- A character of a host that may carry brackets: a name character, `[` or
`]`. -/
def hostChar (c : Char) : Bool :=
  !(c == '@' || c == ':' || c == '/' || isSpace c)

/-- The brackets wrap the whole host: it starts with `[`, ends with `]` and has
no bracket in between. -/
def wrapped (host : Str) : Bool :=
  decide (2 ≤ host.length) && host.head? == some '[' && host.getLast? == some ']' &&
    !((host.take (host.length - 1)).drop 1).contains '[' &&
    !((host.take (host.length - 1)).drop 1).contains ']'

/-- The kinds of malformed URLs exercised by `TestParseUrlErrors`. -/
inductive Malformed : Str → Prop where
  /-- More than one `@`. -/
  | manyNamespaces (url : Str) (h : 2 ≤ url.count '@') : Malformed url
  /-- An unknown scheme: white space at the ends apart, the URL contains "://"
  and starts with none of unix://, tcp:// and udp://. -/
  | unknownScheme (url : Str) (h : Contains (TrimSpace url) "://".toList = true)
      (h1 : HasPrefix (TrimSpace url) "unix://".toList = false)
      (h2 : HasPrefix (TrimSpace url) "tcp://".toList = false)
      (h3 : HasPrefix (TrimSpace url) "udp://".toList = false) : Malformed url
  /-- More than one `:` in a host and port without brackets. -/
  | manyPorts (scheme ns : Option Str) (hostport : Str) (hs : knownScheme scheme = true)
      (hn : ∀ n, ns = some n → n.all nameChar = true) (hh : hostport.all addrChar = true)
      (hc : 2 ≤ hostport.count ':') :
      Malformed (schemeText scheme ++ (nsText ns ++ hostport))
  /-- A unix URL with a namespace. -/
  | unixNamespace (rest : Str) (hsp : ∀ c ∈ rest, isSpace c = false) (h : '@' ∈ rest) :
      Malformed ("unix://".toList ++ rest)
  /-- A unix URL with a port, after a host without brackets. -/
  | unixPort (rest : Str) (hsp : ∀ c ∈ rest, isSpace c = false) (h : ':' ∈ rest)
      (hb : '[' ∉ rest) : Malformed ("unix://".toList ++ rest)
  /-- Brackets that do not wrap the whole host, in a URL that is not a unix
  one. -/
  | badBrackets (scheme ns : Option Str) (host : Str) (port : Option Str)
      (hs : knownScheme scheme = true) (hu : scheme ≠ some "unix".toList)
      (hn : ∀ n, ns = some n → n.all nameChar = true) (hh : host.all hostChar = true)
      (hb : '[' ∈ host ∨ ']' ∈ host) (hw : wrapped host = false)
      (hp : ∀ ds, port = some ds → ds.all isDigit = true) :
      Malformed (schemeText scheme ++ (nsText ns ++ (host ++ portText port)))

/-! ## Canonical bind addresses -/

/-- The port of a canonical address: the port given when it is a decimal
number other than zero, `DEFAULT_PORT` when it is missing, zero or
unparsable. -/
def canonicalPort : Option Str → Int
  | none => DEFAULT_PORT
  | some t =>
    match Atoi t with
    | some p => if p = 0 then DEFAULT_PORT else p
    | none => DEFAULT_PORT

/-- The relation `Canonical addr r`: `r` is the canonical address "unix://path" or
"tcp://host:port" of `addr`, with the defaults applied. Each address has one
form only: a unix address starts with unix://, a tcp address with tcp://, and
a bare address, which is a tcp address, contains no "://". -/
inductive Canonical : Str → Str → Prop where
  /-- An empty unix path becomes `DEFAULT_UNIX`. -/
  | unixDefault : Canonical "unix://".toList ("unix://".toList ++ DEFAULT_UNIX)
  /-- A unix path is kept. -/
  | unix (path : Str) (h : path ≠ []) :
      Canonical ("unix://".toList ++ path) ("unix://".toList ++ path)
  /-- An address tcp://host or tcp://host:port: the host is kept, also when it
  is empty, and the port is the canonical one. -/
  | tcp (host : Str) (port : Option Str) (hh : ':' ∉ host) (hp : ∀ t, port = some t → ':' ∉ t) :
      Canonical ("tcp://".toList ++ (host ++ portText port))
        ("tcp://".toList ++ (host ++ ':' :: fmtInt (canonicalPort port)))
  /-- An address host or host:port without scheme: the same as with tcp://. -/
  | bare (host : Str) (port : Option Str) (hh : ':' ∉ host) (hp : ∀ t, port = some t → ':' ∉ t)
      (hs : Contains (host ++ portText port) "://".toList = false) :
      Canonical (host ++ portText port)
        ("tcp://".toList ++ (host ++ ':' :: fmtInt (canonicalPort port)))

/-- The address has a scheme other than unix:// and tcp://: it contains "://"
without one of those prefixes. -/
def unknownScheme (addr : Str) : Prop :=
  HasPrefix addr "unix://".toList = false ∧ HasPrefix addr "tcp://".toList = false ∧
    Contains addr "://".toList = true

/-- A tcp or bare address whose part after the scheme contains more than one
`:`. -/
def manyColons (addr : Str) : Prop :=
  HasPrefix addr "unix://".toList = false ∧ 2 ≤ (TrimPrefix addr "tcp://".toList).count ':'


/-- A lowercase hexadecimal digit. -/
def isLowerHex (c : Char) : Bool :=
  "0123456789abcdef".toList.contains c


/-! ## The subcommands of `create` -/

/-- A subcommand that is no chaining one, with its argument. -/
inductive Simple where
  | id (x : Str)
  | url (x : Str)
  | dockerNs (x : Str)
  | dockerRun (x : Str)
  | tail
  | trigger
  deriving DecidableEq, Repr

/-- The arguments that write a simple subcommand. -/
def Simple.args : Simple → List Str
  | .id x => ["id".toList, x]
  | .url x => ["url".toList, x]
  | .dockerNs x => ["docker-ns".toList, x]
  | .dockerRun x => ["docker-run".toList, x]
  | .tail => ["tail".toList]
  | .trigger => ["trigger".toList]

/-- The arguments that write a list of simple subcommands. -/
def argsOf : List Simple → List Str
  | [] => []
  | t :: l => t.args ++ argsOf l

/-- The id after a list of simple subcommands: the last one given. -/
def lastId (id : Str) : List Simple → Str
  | [] => id
  | .id x :: l => lastId x l
  | _ :: l => lastId id l

/-- The commands of a list of simple subcommands, in order; `Tail` is set for
the commands after a `tail` or `trigger`, and for all when `tail` is set at the
start. -/
def commands (tail : Bool) : List Simple → List SegmentCommand
  | [] => []
  | .id _ :: l => commands tail l
  | .url x :: l => .mk URL tail x [] [] :: commands tail l
  | .dockerNs x :: l => .mk DOCKER_NS tail x [] [] :: commands tail l
  | .dockerRun x :: l => .mk DOCKER_RUN tail x [] [] :: commands tail l
  | .tail :: l => commands true l
  | .trigger :: l => commands true l

/-- A chaining subcommand, with its argument. -/
inductive Chaining where
  | child
  | chain
  | remote (host : Str)
  | tunnel (host : Str)
  | udptunnel (host : Str)
  deriving DecidableEq, Repr

/-- The arguments that write a chaining subcommand. -/
def Chaining.args : Chaining → List Str
  | .child => ["child".toList]
  | .chain => ["chain".toList]
  | .remote h => ["remote".toList, h]
  | .tunnel h => ["tunnel".toList, h]
  | .udptunnel h => ["udptunnel".toList, h]

/-- The command of a chaining subcommand with the lists `ci` and `ct` as its
`ChildInit` and `ChildTrig`: `Tail` is not set, and the argument of remote,
tunnel and udptunnel is the host as validated by `ValidateAddr`. -/
def Chaining.command (ch : Chaining) (ci ct : List SegmentCommand) : SegmentCommand :=
  match ch with
  | .child => .mk CHILD false [] ci ct
  | .chain => .mk CHAIN false [] ci ct
  | .remote h => .mk REMOTE false (validatedHost h) ci ct
  | .tunnel h => .mk TUNNEL false (validatedHost h) ci ct
  | .udptunnel h => .mk UDPTUNNEL false (validatedHost h) ci ct

/-- The command `c` with the child lists of `n`. -/
def graft (c n : SegmentCommand) : SegmentCommand :=
  .mk c.Typ c.Tail c.Arg n.ChildInit n.ChildTrig

/-- The state of `parseSegment` that works at the path `p` of `s` as the state
`st` works at its root. -/
def embed (p : List Branch) (s : SegmentCommand) (st : ParseState) : ParseState :=
  { st with s := s.update (fun c => graft c st.s) p, cur := p ++ st.cur }


/-- The subcommands of `create`, the case labels of the `switch` of
`parseSegment`. -/
inductive Word where
  | id
  | url
  | dockerNs
  | dockerRun
  | child
  | chain
  | remote
  | tunnel
  | udptunnel
  | tail
  | trigger
  deriving DecidableEq, Repr

/-- The subcommand an argument names, `none` for an unknown one. -/
def decode (command : Str) : Option Word :=
  if command = "id".toList then some .id
  else if command = "url".toList then some .url
  else if command = "docker-ns".toList then some .dockerNs
  else if command = "docker-run".toList then some .dockerRun
  else if command = "child".toList then some .child
  else if command = "chain".toList then some .chain
  else if command = "remote".toList then some .remote
  else if command = "tunnel".toList then some .tunnel
  else if command = "udptunnel".toList then some .udptunnel
  else if command = "tail".toList then some .tail
  else if command = "trigger".toList then some .trigger
  else none

/-- The state after a simple subcommand or a chaining subcommand with its
argument `a`, when it has one. -/
def Word.apply (w : Word) (a : Str) (st : ParseState) : ParseState :=
  match w with
  | .id => { st with id := a }
  | .url => st.add (parseUrl st.tail a)
  | .dockerNs => st.add (parseDockerNs st.tail a)
  | .dockerRun => st.add (parseDockerRun st.tail a)
  | .child => { st with chain := true }.add parseChild
  | .chain => { st with chain := true }.add parseChain
  | .remote => { st with chain := true }.add (parseRemote a)
  | .tunnel => { st with chain := true }.add (parseTunnel a)
  | .udptunnel => { st with chain := true }.add (parseUdptunnel a)
  | .tail => { st with tail := true }
  | .trigger => { st with trigger := true, tail := true }

/-- The subcommands that take an argument. -/
def Word.hasArg : Word → Bool
  | .child | .chain | .tail | .trigger => false
  | _ => true

/-- One iteration of the loop of `parseSegment`: the arguments left and the
state after the subcommand `w`; `none` when its argument is missing. -/
def Word.step (w : Word) (args : List Str) (st : ParseState) : Option (List Str × ParseState) :=
  if w.hasArg then
    match args with
    | [] => none
    | a :: rest => some (rest, w.apply a st)
  else some (args, w.apply [] st)

/-- The state `parseSegment` starts from, with `id` for the value of
`utils.Uuid()`. -/
def ParseState.fresh (id : Str) : ParseState :=
  ⟨id, .mk 0 false [] [] [], [], false, false, false⟩

/-- The state at the top level, where `cur` is `&s`, with the lists `init` and
`trig` collected so far. -/
def ParseState.top (id : Str) (init trig : List SegmentCommand) (tail trigger : Bool) :
    ParseState :=
  ⟨id, .mk 0 false [] init trig, [], false, tail, trigger⟩


/-! ## Statements on the executor -/

/-- The results of `ParseUrl` on the URL commands of a list that work on the
head, in the order of the list. -/
def headUrls (commands : List SegmentCommand) : List UrlParts :=
  (commands.filter (fun c => c.Typ = URL ∧ c.Tail = false)).map (fun c => ParseUrl c.Arg)

/-- The value of the last element of a list that gives one. -/
def lastGiven {α β : Type} (f : α → Option β) (l : List α) : Option β :=
  (l.reverse.filterMap f).head?

/-- The proto a URL sets, if any. -/
def UrlParts.setsProto (u : UrlParts) : Option Str :=
  if u.proto ≠ [] then some u.proto else none

/-- The host name a URL sets, if any. -/
def UrlParts.setsHostname (u : UrlParts) : Option Str :=
  if u.hostname ≠ [] then some u.hostname else none

/-- The port a URL sets, if any. -/
def UrlParts.setsPort (u : UrlParts) : Option Int :=
  if u.port ≠ 0 then some u.port else none

/-- Proto, host name and port of the head of a segment. -/
def headFields (s : Segment) : Str × Str × Int :=
  (s.Head.Proto, s.Head.Hostname, s.Head.Port)

/-- The fields after a URL: those it sets, and the others as they were. -/
def UrlParts.over (u : UrlParts) (f : Str × Str × Int) : Str × Str × Int :=
  (u.setsProto.getD f.1, u.setsHostname.getD f.2.1, u.setsPort.getD f.2.2)


/-! ## server/tunnel.go: the pools of addresses and ports

The function `IP.String` of package net is a parameter `String` of what calls
it: all that is used of it is that it maps an address to a text. -/

/-- The element `usedIPs[key]` of the Go map `usedIPs`, a list of its entries:
`false` for a key without entry. -/
def usedIP (usedIPs : List (Str × Bool)) (key : Str) : Bool :=
  (usedIPs.lookup key).getD false

/-- Go `reserveIP` of tunnel.go: the error and the map `usedIPs` after the
call. -/
def reserveIP (String : IP → Str) (ip : IP) (usedIPs : List (Str × Bool)) :
    Option Error × List (Str × Bool) :=
  let ipStr := String ip
  let exists_ := usedIP usedIPs ipStr
  if exists_ then (some (.ipInUse ipStr), usedIPs)
  else (none, (ipStr, true) :: usedIPs.filter (fun e => e.1 ≠ ipStr))

/-- Go `unreserveIP` of tunnel.go: `delete(usedIPs, ip.String())`. -/
def unreserveIP (String : IP → Str) (ip : IP) (usedIPs : List (Str × Bool)) :
    List (Str × Bool) :=
  usedIPs.filter (fun e => e.1 ≠ String ip)

/-- Go `allocatePort` of tunnel.go: the port, the error and the slice
`unusedPorts` after the call. -/
def allocatePort (unusedPorts : List Int) : (Int × Option Error) × List Int :=
  match unusedPorts with
  | [] => ((0, some .noPortsAvailable), [])
  | port :: rest => ((port, none), rest)

/-- Go `releasePort` of tunnel.go. -/
def releasePort (port : Int) (unusedPorts : List Int) : List Int :=
  unusedPorts ++ [port]

/-- The body of the loop `for p := opts.udpStartPort; p <= opts.udpEndPort; p++`
of `initTunnels`, run `n` times from `p` on. -/
def appendPorts : Nat → Int → List Int → List Int
  | 0, _, unusedPorts => unusedPorts
  | n + 1, p, unusedPorts => appendPorts n (p + 1) (unusedPorts ++ [p])

/-- The loop of `initTunnels` that fills `unusedPorts`. It runs
`udpEndPort - udpStartPort + 1` times when that is positive; `none`: with the
largest `int` as the last port `p <= opts.udpEndPort` holds for every `p`, and
the loop does not end. -/
def initUnusedPorts (udpStartPort udpEndPort : Int) (unusedPorts : List Int) :
    Option (List Int) :=
  if udpStartPort ≤ udpEndPort ∧ udpEndPort = 2 ^ (intSize - 1) - 1 then none
  else some (appendPorts (udpEndPort + 1 - udpStartPort).toNat udpStartPort unusedPorts)

/-- Go `net.IPNet`: the address of a network and its mask, in bytes. -/
structure IPNet where
  IP : IP
  Mask : List Nat
  deriving DecidableEq, Repr

/-- The loop `for v&0x80 != 0 { n++; v <<= 1 }` of `simpleMaskLength` on a byte
`v`: the number of its leading one bits and what is left of `v`. -/
def leadingOnes : Nat → Nat → Nat × Nat
  | 0, v => (0, v)
  | fuel + 1, v =>
    if v &&& 0x80 ≠ 0 then ((leadingOnes fuel ((v <<< 1) % 256)).1 + 1, (leadingOnes fuel ((v <<< 1) % 256)).2)
    else (0, v)

/-- Go `simpleMaskLength` of package net: the number of leading one bits of a
mask made of ones followed by zeros, `none` (the result -1) for another mask. -/
def simpleMaskLength : List Nat → Option Nat
  | [] => some 0
  | v :: rest =>
    if v = 0xff then (simpleMaskLength rest).map (fun n => n + 8)
    else if (leadingOnes 8 v).2 ≠ 0 then none
    else if rest.all (fun b => decide (b = 0)) then some (leadingOnes 8 v).1
    else none

/-- Go `IPMask.Size` of package net: the number of leading ones and the number
of bits of the mask, and `0, 0` for a mask that is not ones followed by
zeros. -/
def IPMask.Size (m : List Nat) : Int × Int :=
  match simpleMaskLength m with
  | some ones => (ones, (m.length : Int) * 8)
  | none => (0, 0)

/-- Go `IP.To4` of package net: the four bytes of an IPv4 address, `none` for
`nil`. -/
def IP.To4 (ip : IP) : Option IP :=
  if ip.length = 4 then some ip
  else if ip.length = 16 ∧ ip.take 12 = v4InV6Prefix then some (ip.drop 12)
  else none

/-- Go `networkNumberAndMask` of package net; `none` is the result `nil, nil`. -/
def networkNumberAndMask (n : IPNet) : Option (IP × List Nat) :=
  let ip? : Option IP :=
    match n.IP.To4 with
    | some ip => some ip
    | none => if n.IP.length ≠ 16 then none else some n.IP
  match ip? with
  | none => none
  | some ip =>
    if n.Mask.length = 4 then
      if ip.length ≠ 4 then none else some (ip, n.Mask)
    else if n.Mask.length = 16 then
      if ip.length = 4 then some (ip, n.Mask.drop 12) else some (ip, n.Mask)
    else none

/-- Go `IPNet.Contains` of package net: the address and the network number
agree on the bits of the mask. -/
def IPNet.Contains (n : IPNet) (ip : Wormhole.IP) : Bool :=
  match networkNumberAndMask n with
  | none => (ip.To4.getD ip).length = 0
  | some (nn, m) =>
    let ip := ip.To4.getD ip
    if ip.length ≠ nn.length then false
    else (List.zip (List.zip nn ip) m).all (fun e => e.1.1 &&& e.2 == e.1.2 &&& e.2)

/-- The number a slice of bytes stands for, the first byte being the
highest. -/
def IP.toNat (ip : IP) : Nat :=
  ip.foldl (fun n b => n * 256 + b) 0

/-- The `len` lowest bytes of a number, the highest first. -/
def IP.ofNat : Nat → Nat → IP
  | 0, _ => []
  | len + 1, n => IP.ofNat len (n / 256) ++ [n % 256]

/-- Modelled from the spec: `netaddr.IPAdd` of pkg/netaddr, which is not among
the sources. The specification forms addresses as `cidr.base + 2·value + 1`
and `first + 1`: the address that lies `n` above `ip`, in as many bytes. -/
def IPAdd (ip : IP) (n : Nat) : IP :=
  IP.ofNat ip.length (ip.toNat + n)

/-- The value `int64(1 << uint64(n))`: the shift count is `n` as a `uint64`, a
count of 64 or more gives 0 and the count 63 the least `int64`. -/
def shiftOne (n : Int) : Int :=
  let count := (n % 2 ^ 64).toNat
  if 64 ≤ count then 0
  else if count = 63 then -(2 ^ 63)
  else 2 ^ count

/-- Go `randomIPPair` of tunnel.go. `randInt max` is the result of
`rand.Int(rand.Reader, big.NewInt(max))` for a positive `max`, a number below
`max` or `none` for an error. The results are `first`, `second` and whether
`err` is set; `none` is the panic of `rand.Int` on a `max` that is not
positive. -/
def randomIPPair (cidr : IPNet) (randInt : Int → Option Nat) : Option (IP × IP × Bool) :=
  let (ones, total) := IPMask.Size cidr.Mask
  let max := shiftOne (total - ones - 1)
  if max ≤ 0 then none
  else
    match randInt max with
    | none => some ([], [], true)
    | some value =>
      let first := IPAdd cidr.IP ((value * 2 + 1) % 2 ^ 64)
      let second := IPAdd first 1
      some (first, second, false)


/-! ## Statements on `Trigger` and `NextEndpoint` -/

/-- The calls of `NextEndpoint` for `n` connections to the head, one after the
other: the results in their order, the segment and the daemon after the last
call. -/
def NextEndpoints {W : Type} (E : Env W) : Nat → Segment → Daemon W →
    List Endpoint × Segment × Daemon W
  | 0, s, d => ([], s, d)
  | n + 1, s, d =>
    match NextEndpoint E s d with
    | (e, s, d) =>
      match NextEndpoints E n s d with
      | (es, s, d) => (e :: es, s, d)

/-- An environment whose world is the number of calls of `netns.GetFromDocker`
so far; each call finds the namespace 7. There is no peer and no name
server. -/
def Env.counting : Env Nat where
  randRead := fun w => (fun _ => 0, w)
  GetFromName := fun _ w => ((NsNone, some (.external 1)), w)
  GetFromDocker := fun _ w => ((7, none), w + 1)
  dockerOutput := fun _ w => (([], some (.external 3)), w)
  Dial := fun _ _ w => ((0, some (.external 4)), w)
  GetSrcIP := fun _ w => (([], some (.external 5)), w)
  CreateSegment := fun _ _ _ _ w => (([], some (.external 6)), w)
  createTunnel := fun _ _ w => (([], .fail (.external 7)), w)
  AddService := fun _ _ port w => ((port, none), w)
  ResolveTCPAddr := fun _ address _ => literalAddr address
  ResolveUDPAddr := fun _ address _ => literalAddr address
  sameFile := fun _ _ _ => false


/-! ## Statements on the registry of segments -/

/-- The registry of `d'` holds every entry of the registry of `d`, and each
identifier that it maps otherwise was free in `d` and is one that `utils.Uuid`
returns in the environment. -/
def Daemon.grows {W : Type} (E : Env W) (d d' : Daemon W) : Prop :=
  ∀ key : Str, getSegment d' key = getSegment d key ∨
    (getSegment d key = none ∧ ∃ w : W, key = Uuid (E.randRead w).1)


/-! ## Statements on the pools of addresses and ports -/

/-- A call on the pool of ports: `allocatePort()` or `releasePort(port)`. -/
inductive PortOp where
  | allocate
  | release (port : Int)
  deriving DecidableEq, Repr

/-- A sequence of calls on the pool of ports, from the slice `unusedPorts`: the
ports that the calls of `allocatePort` returned without error, in their order,
and the slice after the last call. -/
def runPorts : List PortOp → List Int → List Int × List Int
  | [], unusedPorts => ([], unusedPorts)
  | .allocate :: ops, unusedPorts =>
    match allocatePort unusedPorts with
    | ((port, none), rest) => (port :: (runPorts ops rest).1, (runPorts ops rest).2)
    | ((_, some _), rest) => runPorts ops rest
  | .release port :: ops, unusedPorts => runPorts ops (releasePort port unusedPorts)

/-- The ports released by a sequence of calls, in their order. -/
def releasedPorts : List PortOp → List Int
  | [] => []
  | .allocate :: ops => releasedPorts ops
  | .release port :: ops => port :: releasedPorts ops

/-- The four bytes of an IPv4 address in decimal, with dots. -/
def dotted (ip : IP) : Str :=
  ".".toList.intercalate (ip.map (fun b => fmtInt b))


/-! ## Statements on the proto of a head -/

/-- One of the three protos that `ParseUrl` returns when a URL names one. -/
def knownProto (proto : Str) : Bool :=
  proto == "tcp".toList || proto == "udp".toList || proto == "unix".toList


/-! ## client/client.go and package netlink: tunnels, policies and states -/

/-- Go `Tunnel` of client.go. The keys are slices of bytes, the addresses
`net.IP`; a `nil` slice is the empty list. -/
structure Tunnel where
  Reqid : Int
  AuthKey : List Nat
  EncKey : List Nat
  Src : IP
  Dst : IP
  SrcPort : Int
  DstPort : Int
  deriving DecidableEq, Repr

/-- The zero value `client.Tunnel{}`. -/
def Tunnel.zero : Tunnel := ⟨0, [], [], [], [], 0, 0⟩

/-- Go `bytes.Equal`: the same bytes; a `nil` slice equals an empty one. -/
def bytesEqual (a b : List Nat) : Bool :=
  decide (a = b)

/-- Go `Tunnel.Equal` of client.go. -/
def Tunnel.Equal (t o : Tunnel) : Bool :=
  decide (t.Reqid = o.Reqid) && bytesEqual t.AuthKey o.AuthKey && bytesEqual t.EncKey o.EncKey &&
    IP.Equal t.Src o.Src && IP.Equal t.Dst o.Dst && decide (t.SrcPort = o.SrcPort) &&
    decide (t.DstPort = o.DstPort)

/-- The directions `XFRM_DIR_IN`, `XFRM_DIR_OUT` and `XFRM_DIR_FWD` of package
netlink. -/
inductive Dir where
  | XFRM_DIR_IN
  | XFRM_DIR_OUT
  | XFRM_DIR_FWD
  deriving DecidableEq, Repr

/-- The constant `XFRM_PROTO_ESP` of package netlink, `syscall.IPPROTO_ESP`. -/
def XFRM_PROTO_ESP : Nat := 50

/-- The constant `XFRM_MODE_TUNNEL` of package netlink. -/
def XFRM_MODE_TUNNEL : Nat := 1

/-- The constant `XFRM_ENCAP_ESPINUDP` of package netlink. -/
def XFRM_ENCAP_ESPINUDP : Nat := 2

/-- The constant `SCOPE_LINK` of package netlink, `syscall.RT_SCOPE_LINK`. -/
def SCOPE_LINK : Nat := 253

/-- The fields of `netlink.XfrmPolicyTmpl`. -/
structure XfrmPolicyTmpl where
  Dst : IP
  Src : IP
  Proto : Nat
  Mode : Nat
  Reqid : Int
  deriving DecidableEq, Repr

/-- The fields of `netlink.XfrmPolicy` that the daemon sets or reads. -/
structure XfrmPolicy where
  Dst : IPNet
  Src : IPNet
  Dir : Dir
  Tmpls : List XfrmPolicyTmpl
  deriving DecidableEq, Repr

/-- The fields of `netlink.XfrmStateAlgo` that the daemon sets or reads. -/
structure XfrmStateAlgo where
  Name : Str
  Key : List Nat
  deriving DecidableEq, Repr

/-- The fields of `netlink.XfrmStateEncap` that the daemon sets or reads; `Typ`
is the field `Type`. -/
structure XfrmStateEncap where
  Typ : Nat
  SrcPort : Int
  DstPort : Int
  deriving DecidableEq, Repr

/-- The fields of `netlink.XfrmState`; `none` is a `nil` pointer. -/
structure XfrmState where
  Dst : IP
  Src : IP
  Proto : Nat
  Mode : Nat
  Spi : Int
  Reqid : Int
  ReplayWindow : Int
  Auth : Option XfrmStateAlgo
  Crypt : Option XfrmStateAlgo
  Encap : Option XfrmStateEncap
  deriving DecidableEq, Repr

/-- A network device, `netlink.Link`. -/
abbrev Link := Nat

/-- The fields of `netlink.Route` that the daemon sets or reads; `none` is a
`nil` pointer `Dst`. -/
structure Route where
  Link : Link
  Scope : Nat
  Dst : Option IPNet
  Src : IP
  deriving DecidableEq, Repr

/-- Go `netlink.NewIPNet`: the network of the single address `ip`, with a mask
of 32 ones for an IPv4 address and of 128 ones otherwise. -/
def NewIPNet (ip : IP) : IPNet :=
  if (IP.To4 ip).isSome then ⟨ip, List.replicate 4 0xff⟩ else ⟨ip, List.replicate 16 0xff⟩

/-- Go `getPolicies` of tunnel.go. -/
def getPolicies (reqid : Int) (src dst : IP) (srcNet dstNet : IPNet) : List XfrmPolicy :=
  let policies : List XfrmPolicy := []
  let out : XfrmPolicy := { Src := srcNet, Dst := dstNet, Dir := .XFRM_DIR_OUT, Tmpls := [] }
  let otmpl : XfrmPolicyTmpl :=
    { Src := src, Dst := dst, Proto := XFRM_PROTO_ESP, Mode := XFRM_MODE_TUNNEL, Reqid := reqid }
  let out := { out with Tmpls := out.Tmpls ++ [otmpl] }
  let policies := policies ++ [out]
  let in_ : XfrmPolicy := { Src := dstNet, Dst := srcNet, Dir := .XFRM_DIR_IN, Tmpls := [] }
  let itmpl : XfrmPolicyTmpl :=
    { Src := dst, Dst := src, Proto := XFRM_PROTO_ESP, Mode := XFRM_MODE_TUNNEL, Reqid := reqid }
  let in_ := { in_ with Tmpls := in_.Tmpls ++ [itmpl] }
  policies ++ [in_]

/-- Go `getStates` of tunnel.go. -/
def getStates (reqid : Int) (src dst : IP) (srcPort dstPort : Int) (authKey encKey : List Nat) :
    List XfrmState :=
  let states : List XfrmState := []
  let out : XfrmState :=
    { Src := src, Dst := dst, Proto := XFRM_PROTO_ESP, Mode := XFRM_MODE_TUNNEL, Spi := reqid,
      Reqid := reqid, ReplayWindow := 32,
      Auth := some { Name := "hmac(sha256)".toList, Key := authKey },
      Crypt := some { Name := "cbc(aes)".toList, Key := encKey },
      Encap := none }
  let out :=
    if srcPort ≠ 0 ∧ dstPort ≠ 0 then
      { out with
        Encap := some ⟨XFRM_ENCAP_ESPINUDP, srcPort, dstPort⟩ }
    else out
  let states := states ++ [out]
  let in_ : XfrmState :=
    { Src := dst, Dst := src, Proto := XFRM_PROTO_ESP, Mode := XFRM_MODE_TUNNEL, Spi := reqid,
      Reqid := reqid, ReplayWindow := 32,
      Auth := some { Name := "hmac(sha256)".toList, Key := authKey },
      Crypt := some { Name := "cbc(aes)".toList, Key := encKey },
      Encap := none }
  let in_ :=
    if srcPort ≠ 0 ∧ dstPort ≠ 0 then
      { in_ with
        Encap := some ⟨XFRM_ENCAP_ESPINUDP, dstPort, srcPort⟩ }
    else in_
  states ++ [in_]


/-! ## server/tunnel.go: the tunnel manager

What the tunnel manager calls outside of the daemon (the random source, the
peer daemon over RPC, the kernel through package netlink, the sockets of the
encap listeners) is an environment `Sys W` over a state `W` of that outside. -/

/-- The fields of `opts` that the tunnel manager reads. -/
structure Options where
  src : IP
  external : IP
  cidr : IPNet
  deriving DecidableEq, Repr

/-- The environment of the tunnel manager. An error result `none` is `nil`. -/
structure Sys (W : Type) where
  /-- Go `IP.String` of package net. -/
  String : IP → Str
  /-- Go `rand.Int(rand.Reader, big.NewInt(max))` for a positive `max`: a number
  below `max`, or `none` for an error. -/
  randInt : Int → W → Option Nat
  /-- The 32 bytes that `rand.Read` leaves in the buffer of `randomKey`. -/
  randBytes : W → List Nat
  /-- The state of the outside after a read of the random source. -/
  randNext : W → W
  /-- Go `tls.Dial(proto, address, opts.config)` wrapped in an RPC client. -/
  Dial : Str → Str → W → (Conn × Option Error) × W
  /-- Go `c.Close()`. -/
  Close : Conn → W → W
  /-- Go `c.GetSrcIP(dst)`. -/
  GetSrcIP : Conn → IP → W → (IP × Option Error) × W
  /-- Go `c.BuildTunnel(dst, tunnel)`; `none` is a `nil` tunnel. -/
  BuildTunnel : Conn → IP → Tunnel → W → (IP × Option Tunnel × Option Error) × W
  /-- Go `c.DestroyTunnel(dst)`. -/
  DestroyTunnel : Conn → IP → W → (IP × Option Error) × W
  /-- Go `netlink.LinkByName(name)`. -/
  LinkByName : Str → W → Link × Option Error
  /-- Go `netlink.LinkList()`. -/
  LinkList : W → List Link × Option Error
  /-- Go `netlink.AddrList(link, netlink.FAMILY_ALL)`: the networks of the
  addresses. -/
  AddrList : Link → W → List IPNet × Option Error
  /-- Go `netlink.AddrAdd(link, &netlink.Addr{IPNet: net})`. -/
  AddrAdd : Link → IPNet → W → Option Error × W
  /-- Go `netlink.AddrDel(link, &netlink.Addr{IPNet: net})`. -/
  AddrDel : Link → IPNet → W → Option Error × W
  /-- Go `netlink.RouteAdd(route)`. -/
  RouteAdd : Route → W → Option Error × W
  /-- Go `netlink.RouteDel(route)`. -/
  RouteDel : Route → W → Option Error × W
  /-- Go `netlink.RouteList(nil, netlink.FAMILY_ALL)`. -/
  RouteList : W → List Route × Option Error
  /-- Go `netlink.XfrmPolicyAdd(&policy)`. -/
  XfrmPolicyAdd : XfrmPolicy → W → Option Error × W
  /-- Go `netlink.XfrmPolicyDel(&policy)`. -/
  XfrmPolicyDel : XfrmPolicy → W → Option Error × W
  /-- Go `netlink.XfrmPolicyList(netlink.FAMILY_ALL)`. -/
  XfrmPolicyList : W → List XfrmPolicy × Option Error
  /-- Go `netlink.XfrmStateAdd(&state)`. -/
  XfrmStateAdd : XfrmState → W → Option Error × W
  /-- Go `netlink.XfrmStateDel(&state)`. -/
  XfrmStateDel : XfrmState → W → Option Error × W
  /-- Go `netlink.XfrmStateList(netlink.FAMILY_ALL)`. -/
  XfrmStateList : W → List XfrmState × Option Error
  /-- Go `createEncapListener(ip, port)` of tunnel.go, which works on a socket
  only: the socket, 0 next to an error. -/
  createEncapListener : IP → Int → W → (Int × Option Error) × W
  /-- Go `deleteEncapListener(socket)` of tunnel.go. -/
  deleteEncapListener : Int → W → W

/-- The package variables of tunnel.go (the maps `tunnels`, `listeners` and
`usedIPs` as lists of their entries, the slice `unusedPorts`) and the state of
the outside. -/
structure Tunnels (W : Type) where
  tunnels : List (Str × Tunnel)
  listeners : List (Str × Int)
  usedIPs : List (Str × Bool)
  unusedPorts : List Int
  world : W

/-- Go `getTunnel` of tunnel.go; `none` is `nil`. -/
def getTunnel {W : Type} (ts : Tunnels W) (key : Str) : Option Tunnel :=
  ts.tunnels.lookup key

/-- Go `getListener` of tunnel.go. -/
def getListener {W : Type} (ts : Tunnels W) (key : Str) : Int :=
  (ts.listeners.lookup key).getD 0

/-- Go `addTunnel` of tunnel.go. -/
def addTunnel {W : Type} (ts : Tunnels W) (key : Str) (tunnel : Tunnel) (listener : Int) :
    Tunnels W :=
  { ts with
    tunnels := (key, tunnel) :: ts.tunnels.filter (fun e => e.1 ≠ key),
    listeners := (key, listener) :: ts.listeners.filter (fun e => e.1 ≠ key) }

/-- Go `removeTunnel` of tunnel.go. -/
def removeTunnel {W : Type} (ts : Tunnels W) (key : Str) : Tunnels W :=
  { ts with
    tunnels := ts.tunnels.filter (fun e => e.1 ≠ key),
    listeners := ts.listeners.filter (fun e => e.1 ≠ key) }

/-- The results `(net.IP, *client.Tunnel, error)` of `buildTunnel` and of
`buildTunnelLocal`. -/
abbrev TunnelReply := IP × Option Tunnel × Option Error

/-- The loop over `links` of `getLink`. -/
def getLinkLoop {W : Type} (E : Sys W) (ip : IP) (w : W) : List Link → Link × Option Error
  | [] => (0, some .noLink)
  | link :: links =>
    match E.AddrList link w with
    | (_, some _) => (0, some .noLink)
    | (addrs, none) =>
      if addrs.any (fun addr => IP.Equal addr.IP ip) then (link, none)
      else getLinkLoop E ip w links

/-- Go `getLink` of tunnel.go. -/
def getLink {W : Type} (E : Sys W) (ip : IP) (w : W) : Link × Option Error :=
  match E.LinkList w with
  | (_, some _) => (0, some .noLink)
  | (links, none) => getLinkLoop E ip w links

/-- The loop over the policies of `buildTunnelLocal`: a policy that exists
already is skipped, another error ends the loop. -/
def addPolicies {W : Type} (E : Sys W) : List XfrmPolicy → W → Option Error × W
  | [], w => (none, w)
  | policy :: policies, w =>
    match E.XfrmPolicyAdd policy w with
    | (none, w) => addPolicies E policies w
    | (some err, w) => if err = .eexist then addPolicies E policies w else (some err, w)

/-- The loop over the states of `buildTunnelLocal`. -/
def addStates {W : Type} (E : Sys W) : List XfrmState → W → Option Error × W
  | [], w => (none, w)
  | state :: states, w =>
    match E.XfrmStateAdd state w with
    | (none, w) => addStates E states w
    | (some err, w) => if err = .eexist then addStates E states w else (some err, w)

/-- Go `buildTunnelLocal` of tunnel.go. -/
def buildTunnelLocal {W : Type} (E : Sys W) (opts : Options) (dst : IP) (tunnel : Tunnel)
    (ts : Tunnels W) : TunnelReply × Tunnels W :=
  let r : (Int × Option Error) × W :=
    if tunnel.SrcPort ≠ 0 then E.createEncapListener tunnel.Src tunnel.SrcPort ts.world
    else ((0, none), ts.world)
  match r with
  | ((_, some err), w) => (([], none, some err), { ts with world := w })
  | ((socket, none), w) =>
    let ts := addTunnel { ts with world := w } (E.String dst) tunnel socket
    let src := opts.src
    let srcNet := NewIPNet tunnel.Src
    let dstNet := NewIPNet tunnel.Dst
    match E.LinkByName "lo".toList ts.world with
    | (_, some err) => (([], none, some err), ts)
    | (lo, none) =>
      match E.AddrAdd lo srcNet ts.world with
      | (some err, w) => (([], none, some err), { ts with world := w })
      | (none, w) =>
        match getLink E src w with
        | (_, some err) => (([], none, some err), { ts with world := w })
        | (link, none) =>
          let route : Route :=
            { Scope := SCOPE_LINK, Src := tunnel.Src, Dst := some dstNet, Link := link }
          match E.RouteAdd route w with
          | (some err, w) => (([], none, some err), { ts with world := w })
          | (none, w) =>
            match addPolicies E (getPolicies tunnel.Reqid src dst srcNet dstNet) w with
            | (some err, w) => (([], none, some err), { ts with world := w })
            | (none, w) =>
              match addStates E (getStates tunnel.Reqid src dst tunnel.SrcPort tunnel.DstPort
                tunnel.AuthKey tunnel.EncKey) w with
              | (some err, w) => (([], none, some err), { ts with world := w })
              | (none, w) => ((opts.external, some tunnel, none), { ts with world := w })

/-- Go `buildTunnel` of tunnel.go. -/
def buildTunnel {W : Type} (E : Sys W) (opts : Options) (dst : IP) (tunnel : Tunnel)
    (ts : Tunnels W) : TunnelReply × Tunnels W :=
  match getTunnel ts (E.String dst) with
  | some exists_ => ((opts.external, some exists_, none), ts)
  | none =>
    let r : (Tunnel × Option Error) × List Int :=
      if tunnel.DstPort ≠ 0 then
        match allocatePort ts.unusedPorts with
        | ((port, err), rest) => (({ tunnel with SrcPort := port }, err), rest)
      else ((tunnel, none), ts.unusedPorts)
    match r with
    | ((_, some err), ports) => (([], none, some err), { ts with unusedPorts := ports })
    | ((tunnel, none), ports) =>
      let ts := { ts with unusedPorts := ports }
      match reserveIP E.String tunnel.Dst ts.usedIPs with
      | (some err, used) => (([], none, some err), { ts with usedIPs := used })
      | (none, used) =>
        match reserveIP E.String tunnel.Src used with
        | (some err, used) =>
          (([], none, some err), { ts with usedIPs := unreserveIP E.String tunnel.Dst used })
        | (none, used) => buildTunnelLocal E opts dst tunnel { ts with usedIPs := used }

/-- The loop over the states of `destroyTunnel`: an error is logged only. -/
def delStates {W : Type} (E : Sys W) : List XfrmState → W → W
  | [], w => w
  | state :: states, w => delStates E states (E.XfrmStateDel state w).2

/-- The loop over the policies of `destroyTunnel`: an error is logged only. -/
def delPolicies {W : Type} (E : Sys W) : List XfrmPolicy → W → W
  | [], w => w
  | policy :: policies, w => delPolicies E policies (E.XfrmPolicyDel policy w).2

/-- Go `destroyTunnel` of tunnel.go. -/
def destroyTunnel {W : Type} (E : Sys W) (opts : Options) (dst : IP) (ts : Tunnels W) :
    (IP × Option Error) × Tunnels W :=
  let key := E.String dst
  match getTunnel ts key with
  | none => (([], some (.noTunnel key)), ts)
  | some tunnel =>
    let src := opts.external
    let srcNet := NewIPNet tunnel.Src
    let dstNet := NewIPNet tunnel.Dst
    let w := delStates E (getStates tunnel.Reqid src dst 0 0 [] []) ts.world
    let w := delPolicies E (getPolicies tunnel.Reqid src dst srcNet dstNet) w
    let w :=
      match getLink E src w with
      | (_, some _) => w
      | (link, none) =>
        (E.RouteDel { Scope := SCOPE_LINK, Src := tunnel.Src, Dst := some dstNet, Link := link }
          w).2
    let w :=
      match E.LinkByName "lo".toList w with
      | (_, some _) => w
      | (lo, none) => (E.AddrDel lo srcNet w).2
    let ts := { ts with world := w }
    let ts :=
      if tunnel.SrcPort ≠ 0 then
        { ts with
          world := E.deleteEncapListener (getListener ts key) ts.world,
          unusedPorts := releasePort tunnel.SrcPort ts.unusedPorts }
      else ts
    let ts := { ts with usedIPs := unreserveIP E.String tunnel.Src ts.usedIPs }
    let ts := { ts with usedIPs := unreserveIP E.String tunnel.Dst ts.usedIPs }
    ((src, none), removeTunnel ts key)


/-- The loop over `routes` of `discoverTunnels`: the `Dst.IP` of the first route
whose `Src` is the address, `nil` (the empty list) without such a route;
`none` is the panic of `route.Dst.IP` on a route without `Dst`. -/
def routeDst (src : IP) : List Route → Option IP
  | [] => some []
  | route :: routes =>
    if route.Src = [] ∨ IP.Equal route.Src src = false then routeDst src routes
    else
      match route.Dst with
      | none => none
      | some dst => some dst.IP

/-- The loop over `policies` of `discoverTunnels`: the `Dst` of the first
template of the first policy to the address that has a template, `nil`
without such a policy. -/
def policyDst (tunnelDst : IP) : List XfrmPolicy → IP
  | [] => []
  | policy :: policies =>
    if IP.Equal policy.Dst.IP tunnelDst = false then policyDst tunnelDst policies
    else
      match policy.Tmpls with
      | [] => policyDst tunnelDst policies
      | tmpl :: _ => tmpl.Dst

/-- The loop over `states` of `discoverTunnels`, which fills `tunnel` from the
first state to `dst` that has both keys and registers it. -/
def discoverStates {W : Type} (E : Sys W) (dst : IP) :
    List XfrmState → Tunnel → Tunnels W → Tunnels W
  | [], _, ts => ts
  | state :: states, tunnel, ts =>
    if IP.Equal state.Dst dst = false then discoverStates E dst states tunnel ts
    else
      let tunnel := { tunnel with Reqid := state.Reqid }
      match state.Auth with
      | none => discoverStates E dst states tunnel ts
      | some auth =>
        let tunnel := { tunnel with AuthKey := auth.Key }
        match state.Crypt with
        | none => discoverStates E dst states tunnel ts
        | some crypt =>
          let tunnel := { tunnel with EncKey := crypt.Key }
          let tunnel : Tunnel :=
            match state.Encap with
            | some encap =>
              let tunnel := { tunnel with SrcPort := encap.SrcPort }
              { tunnel with SrcPort := encap.DstPort }
            | none => tunnel
          let r : Int × W :=
            if tunnel.SrcPort ≠ 0 then
              match E.createEncapListener tunnel.Src tunnel.SrcPort ts.world with
              | ((socket, _), w) => (socket, w)
            else (0, ts.world)
          addTunnel { ts with world := r.2 } (E.String dst) tunnel r.1

/-- The body of the loop over `addrs` of `discoverTunnels`; `none` is a
panic. -/
def discoverAddr {W : Type} (E : Sys W) (opts : Options) (routes : List Route)
    (policies : List XfrmPolicy) (states : List XfrmState) (addr : IPNet) (ts : Tunnels W) :
    Option (Tunnels W) :=
  if opts.cidr.Contains addr.IP then
    let tunnel := { Tunnel.zero with Src := addr.IP }
    let ts := { ts with usedIPs := (reserveIP E.String tunnel.Src ts.usedIPs).2 }
    match routeDst tunnel.Src routes with
    | none => none
    | some d =>
      let tunnel := { tunnel with Dst := d }
      if tunnel.Dst = [] then some ts
      else
        let ts := { ts with usedIPs := (reserveIP E.String tunnel.Dst ts.usedIPs).2 }
        let dst := policyDst tunnel.Dst policies
        if dst = [] then some ts
        else some (discoverStates E dst states tunnel ts)
  else some ts

/-- The loop over `addrs` of `discoverTunnels`. -/
def discoverAddrs {W : Type} (E : Sys W) (opts : Options) (routes : List Route)
    (policies : List XfrmPolicy) (states : List XfrmState) :
    List IPNet → Tunnels W → Option (Tunnels W)
  | [], ts => some ts
  | addr :: addrs, ts =>
    match discoverAddr E opts routes policies states addr ts with
    | none => none
    | some ts => discoverAddrs E opts routes policies states addrs ts

/-- Go `discoverTunnels` of tunnel.go; `none` is a panic. -/
def discoverTunnels {W : Type} (E : Sys W) (opts : Options) (ts : Tunnels W) :
    Option (Tunnels W) :=
  match E.LinkByName "lo".toList ts.world with
  | (_, some _) => some ts
  | (lo, none) =>
    match E.AddrList lo ts.world with
    | (_, some _) => some ts
    | (addrs, none) =>
      match E.RouteList ts.world with
      | (_, some _) => some ts
      | (routes, none) =>
        match E.XfrmPolicyList ts.world with
        | (_, some _) => some ts
        | (policies, none) =>
          match E.XfrmStateList ts.world with
          | (_, some _) => some ts
          | (states, none) => discoverAddrs E opts routes policies states addrs ts

/-- Lines 272 to 280 of `createTunnel`: the record for the peer when a tunnel
to it exists already. The last two assignments of the source both have
`tunnel.SrcPort` on the left. -/
def mirrorExisting (exists_ : Tunnel) : Tunnel :=
  let tunnel := Tunnel.zero
  let tunnel := { tunnel with Reqid := exists_.Reqid }
  let tunnel := { tunnel with Src := exists_.Dst }
  let tunnel := { tunnel with Dst := exists_.Src }
  let tunnel := { tunnel with AuthKey := exists_.AuthKey }
  let tunnel := { tunnel with EncKey := exists_.EncKey }
  let tunnel := { tunnel with SrcPort := exists_.DstPort }
  { tunnel with SrcPort := exists_.SrcPort }

/-- Go `randomKey` of tunnel.go: the key and the state of the outside after the
read. -/
def randomKey {W : Type} (E : Sys W) (w : W) : List Nat × W :=
  (E.randBytes w, E.randNext w)

/-- The error that `rand.Int` or `rand.Read` returns. -/
def randError : Error := .external 0

/-- Lines 282 to 301 of `createTunnel`: a new record, with an encap port for
`udp`, two keys and a reqid. -/
def newTunnel {W : Type} (E : Sys W) (udp : Bool) (ts : Tunnels W) :
    (Tunnel × Option Error) × Tunnels W :=
  let tunnel := Tunnel.zero
  let r : (Tunnel × Option Error) × List Int :=
    if udp then
      match allocatePort ts.unusedPorts with
      | ((port, err), rest) => (({ tunnel with DstPort := port }, err), rest)
    else ((tunnel, none), ts.unusedPorts)
  match r with
  | ((tunnel, some err), ports) => ((tunnel, some err), { ts with unusedPorts := ports })
  | ((tunnel, none), ports) =>
    let ts := { ts with unusedPorts := ports }
    match randomKey E ts.world with
    | (authKey, w) =>
      match randomKey E w with
      | (encKey, w) =>
        let tunnel := { tunnel with AuthKey := authKey, EncKey := encKey }
        match E.randInt 4294967295 w with
        | none => ((tunnel, some randError), { ts with world := E.randNext w })
        | some bigreq =>
          (({ tunnel with Reqid := (bigreq : Int) + 1 }, none), { ts with world := E.randNext w })

/-- The type assertion `_, ok := err.(IPInUse)` of `createTunnel` on an error
that is not `nil`. `IPInUse` is declared `type IPInUse error`, an interface
type with the method set of `error`: the assertion holds for every error
value, whatever made it (over RPC it is an `rpc.ServerError`). -/
def isIPInUse (_err : Error) : Bool :=
  true

/-- The inner loop of `createTunnel`, which draws pairs of addresses until both
are free; the fuel bounds the number of draws, `none` is a loop that has not
ended in that many. -/
def selectPair {W : Type} (E : Sys W) (opts : Options) :
    Nat → Tunnel → Tunnels W → Option (Outcome × Tunnel × Tunnels W)
  | 0, _, _ => none
  | fuel + 1, tunnel, ts =>
    match randomIPPair opts.cidr (fun max => E.randInt max ts.world) with
    | none => some (.panic, tunnel, ts)
    | some (first, second, true) =>
      some (.fail randError, { tunnel with Dst := first, Src := second },
        { ts with world := E.randNext ts.world })
    | some (first, second, false) =>
      let tunnel := { tunnel with Dst := first, Src := second }
      let ts := { ts with world := E.randNext ts.world }
      match reserveIP E.String tunnel.Dst ts.usedIPs with
      | (some _, _) => selectPair E opts fuel tunnel ts
      | (none, used) =>
        match reserveIP E.String tunnel.Src used with
        | (some _, used) =>
          selectPair E opts fuel tunnel
            { ts with usedIPs := unreserveIP E.String tunnel.Dst used }
        | (none, used) => some (.ok, tunnel, { ts with usedIPs := used })

/-- The loop "while tail not created" of `createTunnel`: the result, `tunnel`,
`exists`, `dst` and the package variables when it ends; the fuel bounds the
number of rounds, `none` is a loop that has not ended in that many. -/
def tunnelLoop {W : Type} (E : Sys W) (opts : Options) (c : Conn) :
    Nat → Tunnel → Option Tunnel → IP → Tunnels W →
      Option (Outcome × Tunnel × Option Tunnel × IP × Tunnels W)
  | 0, _, _, _, _ => none
  | fuel + 1, tunnel, exists_, dst, ts =>
    let sel : Option (Outcome × Tunnel × Tunnels W) :=
      if tunnel.Src = [] then selectPair E opts (fuel + 1) tunnel ts
      else some (.ok, tunnel, ts)
    match sel with
    | none => none
    | some (.ok, tunnel, ts) =>
      match E.BuildTunnel c opts.external tunnel ts.world with
      | ((dst, _, some err), w) =>
        let ts := { ts with world := w }
        if isIPInUse err then
          let ts := { ts with usedIPs := unreserveIP E.String tunnel.Dst ts.usedIPs }
          let ts := { ts with usedIPs := unreserveIP E.String tunnel.Src ts.usedIPs }
          let tunnel := { tunnel with Src := [] }
          match exists_ with
          | some _ => tunnelLoop E opts c fuel tunnel none dst (destroyTunnel E opts dst ts).2
          | none => tunnelLoop E opts c fuel tunnel none dst ts
        else
          some (.fail err, tunnel, exists_, dst,
            { ts with world := (E.DestroyTunnel c opts.external ts.world).2 })
      | ((dst, none, none), w) => some (.panic, tunnel, exists_, dst, { ts with world := w })
      | ((dst, some out, none), w) =>
        let ts := { ts with world := w }
        if exists_.isSome ∧ Tunnel.Equal out tunnel = false then
          tunnelLoop E opts c fuel tunnel exists_ dst
            { ts with world := (E.DestroyTunnel c opts.external ts.world).2 }
        else some (.ok, out, exists_, dst, ts)
    | some (res, tunnel, ts) => some (res, tunnel, exists_, dst, ts)

/-- The end of `createTunnel`, after the loop: the two ends are swapped into
the local view, and without an existing tunnel the local half is built. With
the deferred `c.Close()`. -/
def finishCreateTunnel {W : Type} (E : Sys W) (opts : Options) (c : Conn) (tunnel : Tunnel)
    (exists_ : Option Tunnel) (dst : IP) (ts : Tunnels W) : Outcome × IP × IP × Tunnels W :=
  let tunnel := { tunnel with Src := tunnel.Dst, Dst := tunnel.Src }
  let tunnel := { tunnel with SrcPort := tunnel.DstPort, DstPort := tunnel.SrcPort }
  match exists_ with
  | some _ => (.ok, tunnel.Src, tunnel.Dst, { ts with world := E.Close c ts.world })
  | none =>
    match buildTunnelLocal E opts dst tunnel ts with
    | ((_, _, some err), ts) =>
      let ts := { ts with world := (E.DestroyTunnel c opts.external ts.world).2 }
      let ts := (destroyTunnel E opts dst ts).2
      (.fail err, [], [], { ts with world := E.Close c ts.world })
    | ((_, none, none), ts) => (.panic, [], [], { ts with world := E.Close c ts.world })
    | ((_, some tunnel, none), ts) =>
      (.ok, tunnel.Src, tunnel.Dst, { ts with world := E.Close c ts.world })

/-- Go `createTunnel` of tunnel.go, with the fuel of its loops: the error and
the addresses `Src` and `Dst` it returns; `none` is a loop that has not ended.
`Outcome.panic` is the panic of `utils.ParseAddr` on a host without "://", of
`rand.Int` and of a `nil` tunnel from the peer. -/
def createTunnelRun {W : Type} (E : Sys W) (opts : Options) (fuel : Nat) (host : Str)
    (udp : Bool) (ts : Tunnels W) : Option (Outcome × IP × IP × Tunnels W) :=
  match ParseAddr host with
  | none => some (.panic, [], [], ts)
  | some (proto, address) =>
    match E.Dial proto address ts.world with
    | ((_, some err), w) => some (.fail err, [], [], { ts with world := w })
    | ((c, none), w) =>
      match E.GetSrcIP c [] w with
      | ((dst, _), w) =>
        let ts := { ts with world := w }
        let exists_ := getTunnel ts (E.String dst)
        let start : (Tunnel × Option Error) × Tunnels W :=
          match exists_ with
          | some e => ((mirrorExisting e, none), ts)
          | none => newTunnel E udp ts
        match start with
        | ((_, some err), ts) => some (.fail err, [], [], { ts with world := E.Close c ts.world })
        | ((tunnel, none), ts) =>
          match tunnelLoop E opts c fuel tunnel exists_ dst ts with
          | none => none
          | some (.ok, tunnel, exists_, dst, ts) =>
            some (finishCreateTunnel E opts c tunnel exists_ dst ts)
          | some (res, _, _, _, ts) =>
            some (res, [], [], { ts with world := E.Close c ts.world })


/-! ## A machine for the tunnel manager -/

/-- A state of the outside of the tunnel manager: the tables of the kernel
(the addresses of the loopback device, the routes, the XFRM policies and
states), the numbers that the random source will give, the errors that the
calls of `BuildTunnel` to come will return at the peer (`none`: the peer
accepts), the records the peer has received, and the number of calls of
`DestroyTunnel` it has received. -/
structure Machine where
  addrs : List IPNet
  routes : List Route
  policies : List XfrmPolicy
  states : List XfrmState
  draws : List Nat
  replies : List (Option Error)
  sent : List Tunnel
  destroyed : Nat
  deriving DecidableEq, Repr

/-- A machine with empty tables, the numbers to draw and the replies of the
peer. -/
def Machine.init (draws : List Nat) (replies : List (Option Error)) : Machine :=
  ⟨[], [], [], [], draws, replies, [], 0⟩

/-- An environment on a machine. The daemon has the address `host` on the
device 2 and the loopback device 1; the kernel keeps its tables in the order
of the requests, takes every new entry and answers `EEXIST` to one it has; the
peer has the address `peer`, accepts a record as it is unless the next reply
is an error, and counts the calls of `DestroyTunnel`; each read of the random
source takes the next number of `draws`. -/
def Sys.machine (host peer : IP) : Sys Machine where
  String := dotted
  randInt := fun max w =>
    match w.draws with
    | [] => none
    | v :: _ => if (v : Int) < max then some v else none
  randBytes := fun _ => List.replicate 32 0
  randNext := fun w => { w with draws := w.draws.tail }
  Dial := fun _ _ w => ((1, none), w)
  Close := fun _ w => w
  GetSrcIP := fun _ _ w => ((peer, none), w)
  BuildTunnel := fun _ _ tunnel w =>
    match w.replies with
    | some err :: rest =>
      (([], none, some err), { w with replies := rest, sent := w.sent ++ [tunnel] })
    | _ => ((peer, some tunnel, none),
        { w with replies := w.replies.tail, sent := w.sent ++ [tunnel] })
  DestroyTunnel := fun _ _ w => ((peer, none), { w with destroyed := w.destroyed + 1 })
  LinkByName := fun _ _ => (1, none)
  LinkList := fun _ => ([1, 2], none)
  AddrList := fun link w =>
    if link = 1 then (⟨[127, 0, 0, 1], [255, 0, 0, 0]⟩ :: w.addrs, none)
    else ([⟨host, [255, 255, 255, 0]⟩], none)
  AddrAdd := fun _ net w => (none, { w with addrs := w.addrs ++ [net] })
  AddrDel := fun _ net w => (none, { w with addrs := w.addrs.erase net })
  RouteAdd := fun route w => (none, { w with routes := w.routes ++ [route] })
  RouteDel := fun route w => (none, { w with routes := w.routes.erase route })
  RouteList := fun w => (w.routes, none)
  XfrmPolicyAdd := fun policy w =>
    if policy ∈ w.policies then (some .eexist, w)
    else (none, { w with policies := w.policies ++ [policy] })
  XfrmPolicyDel := fun policy w => (none, { w with policies := w.policies.erase policy })
  XfrmPolicyList := fun w => (w.policies, none)
  XfrmStateAdd := fun state w =>
    if state ∈ w.states then (some .eexist, w)
    else (none, { w with states := w.states ++ [state] })
  XfrmStateDel := fun state w => (none, { w with states := w.states.erase state })
  XfrmStateList := fun w => (w.states, none)
  createEncapListener := fun _ _ w => ((3, none), w)
  deleteEncapListener := fun _ w => w

/-- The options of a daemon with the address `host` and the overlay range
100.64.0.0/14. -/
def Options.of (host : IP) : Options :=
  ⟨host, host, ⟨[100, 64, 0, 0], [255, 252, 0, 0]⟩⟩

/-- The package variables of a daemon that has just started on a machine, with
the ports 4600 and 4601 in the pool. -/
def Tunnels.fresh (w : Machine) : Tunnels Machine :=
  ⟨[], [], [], [4600, 4601], w⟩

/-- The environment of the evaluations: the daemon at 192.168.0.1 and its peer
at 192.168.0.2. -/
def Sys.lab : Sys Machine :=
  Sys.machine [192, 168, 0, 1] [192, 168, 0, 2]

/-- The options of the daemon of the evaluations. -/
def Options.lab : Options :=
  Options.of [192, 168, 0, 1]

/-- The address of the peer of the evaluations, as `createTunnel` takes it. -/
def labPeerUrl : Str :=
  "tcp://192.168.0.2:9999".toList

/-- A tunnel between the overlay addresses 100.64.0.2 and 100.64.0.1 with the
reqid 9 and keys of one byte, with the encap ports given. -/
def labTunnel (srcPort dstPort : Int) : Tunnel :=
  ⟨9, [1], [2], [100, 64, 0, 2], [100, 64, 0, 1], srcPort, dstPort⟩

/-- The package variables of a daemon that has the tunnel `t` to the peer of
the evaluations and both overlay addresses of it reserved. -/
def Tunnels.having (t : Tunnel) (w : Machine) : Tunnels Machine :=
  ⟨[(dotted [192, 168, 0, 2], t)], [], [(dotted t.Src, true), (dotted t.Dst, true)],
    [4600, 4601], w⟩

/-- The package variables of a daemon without tunnel that has the overlay
address `ip` reserved and the ports 4600 and 4601 in the pool. -/
def Tunnels.reserved (ip : IP) (w : Machine) : Tunnels Machine :=
  ⟨[], [], [(dotted ip, true)], [4600, 4601], w⟩


/-! ## Lemmas on the string functions -/

theorem HasPrefix_iff (s p : Str) : HasPrefix s p = true ↔ p <+: s := by
  simp [HasPrefix]

theorem Contains_iff (s p : Str) : Contains s p = true ↔ p <:+: s := by
  induction s with
  | nil => cases p <;> simp [Contains]
  | cons c cs ih =>
    rw [Contains, Bool.or_eq_true, ih, HasPrefix_iff, List.infix_cons_iff]

theorem Contains_single (s : Str) (c : Char) : Contains s [c] = true ↔ c ∈ s := by
  induction s with
  | nil => simp [Contains]
  | cons x xs ih =>
    rw [Contains, Bool.or_eq_true, ih]
    simp [HasPrefix, List.isPrefixOf]

theorem Contains_single_false (s : Str) (c : Char) : Contains s [c] = false ↔ c ∉ s := by
  rw [← Contains_single]; simp

theorem not_Contains_of_not_mem (s p : Str) (c : Char) (hp : c ∈ p) (hs : c ∉ s) :
    Contains s p = false := by
  rw [← Bool.not_eq_true, Contains_iff]
  intro h
  exact hs (h.subset hp)

theorem TrimSpace_eq_self (s : Str) (h : ∀ c ∈ s, isSpace c = false) : TrimSpace s = s := by
  have h1 : ∀ l : Str, (∀ c ∈ l, isSpace c = false) → l.dropWhile isSpace = l := by
    intro l hl
    cases l with
    | nil => rfl
    | cons a l => simp [List.dropWhile, hl a (by simp)]
  unfold TrimSpace
  rw [h1 s h, h1 s.reverse (by simpa using h), List.reverse_reverse]

theorem Split_of_not_mem (s : Str) (sep : Char) (h : sep ∉ s) : Split s sep = [s] := by
  induction s with
  | nil => rfl
  | cons c cs ih =>
    simp only [List.mem_cons, not_or] at h
    have hc : c ≠ sep := fun e => h.1 e.symm
    simp [Split, hc, ih h.2]

theorem Split_append (a b : Str) (sep : Char) (h : sep ∉ a) :
    Split (a ++ sep :: b) sep = a :: Split b sep := by
  induction a with
  | nil => simp [Split]
  | cons c cs ih =>
    simp only [List.mem_cons, not_or] at h
    have hc : c ≠ sep := fun e => h.1 e.symm
    simp [Split, hc, ih h.2]

theorem length_Split (s : Str) (sep : Char) : (Split s sep).length = s.count sep + 1 := by
  induction s with
  | nil => rfl
  | cons c cs ih =>
    by_cases hc : c = sep
    · subst hc; simp [Split, ih]
    · have hc2 : (c == sep) = false := by simpa using hc
      cases hs : Split cs sep with
      | nil => rw [hs] at ih; simp at ih
      | cons p ps =>
        rw [hs] at ih
        simp only [Split, hc, if_false, hs, List.length_cons]
        rw [List.count_cons, hc2]
        simpa using ih

theorem LastIndex_of_not_mem (s : Str) (sep : Char) (h : sep ∉ s) : LastIndex s sep = none := by
  induction s with
  | nil => rfl
  | cons c cs ih =>
    simp only [List.mem_cons, not_or] at h
    have hc : c ≠ sep := fun e => h.1 e.symm
    simp [LastIndex, hc, ih h.2]

theorem LastIndex_append (a b : Str) (sep : Char) (h : sep ∉ b) :
    LastIndex (a ++ sep :: b) sep = some a.length := by
  induction a with
  | nil => simp [LastIndex, LastIndex_of_not_mem b sep h]
  | cons c cs ih => simp [LastIndex, ih]

theorem bracketed_eq (url : Str) :
    bracketed url = (decide (2 ≤ url.length) && url.head? == some '[' && url.getLast? == some ']') := by
  unfold bracketed
  have h1 : ((url.length : Int) - 1).toNat = url.length - 1 := by omega
  have h2 : decide ((url.length : Int) - 1 > 0) = decide (2 ≤ url.length) := by
    apply decide_eq_decide.mpr; omega
  simp only [h1, h2, List.getLast?_eq_getElem?, List.get?_eq_getElem?]

theorem bracketed_wrap (h : Str) : bracketed ('[' :: (h ++ [']'])) = true := by
  have e : ('[' :: (h ++ [']'])).getLast? = some ']' := by
    rw [← List.cons_append, List.getLast?_concat]
  simp [bracketed_eq, e]

theorem unbracket_wrap (h : Str) : unbracket ('[' :: (h ++ [']'])) = h := by
  simp [unbracket]

theorem bracketed_of_head (url : Str) (h : url.head? ≠ some '[') : bracketed url = false := by
  simp [bracketed_eq, h]

theorem bracketed_of_last (url : Str) (h : url.getLast? ≠ some ']') : bracketed url = false := by
  simp [bracketed_eq, h]

theorem bracketed_of_not_mem (url : Str) (h : '[' ∉ url) : bracketed url = false := by
  apply bracketed_of_head
  cases url with
  | nil => simp
  | cons c cs =>
    simp only [List.mem_cons, not_or] at h
    simpa using fun e => h.1 e.symm

theorem isDigit_ne_sign (c : Char) (h : isDigit c = true) : c ≠ '+' ∧ c ≠ '-' := by
  constructor <;> (intro e; subst e; revert h; decide)

theorem Atoi_digits (ds : Str) (hne : ds ≠ []) (hd : ds.all isDigit = true)
    (hv : digitsVal ds < 2 ^ (intSize - 1)) : Atoi ds = some (digitsVal ds : Int) := by
  cases ds with
  | nil => exact absurd rfl hne
  | cons c cs =>
    have hc : isDigit c = true := by
      simp only [List.all_cons, Bool.and_eq_true] at hd; exact hd.1
    obtain ⟨h1, h2⟩ := isDigit_ne_sign c hc
    have hv2 : ((digitsVal (c :: cs) : Nat) : Int) ≤ 2 ^ (intSize - 1) - 1 := by
      have : ((digitsVal (c :: cs) : Nat) : Int) < ((2 ^ (intSize - 1) : Nat) : Int) := by
        exact_mod_cast hv
      have h3 : ((2 ^ (intSize - 1) : Nat) : Int) = 2 ^ (intSize - 1) := by norm_cast
      omega
    have hv3 : -(2 : Int) ^ (intSize - 1) ≤ ((digitsVal (c :: cs) : Nat) : Int) := by
      have : (0 : Int) ≤ (2 : Int) ^ (intSize - 1) := by positivity
      have : (0 : Int) ≤ ((digitsVal (c :: cs) : Nat) : Int) := by positivity
      omega
    unfold Atoi
    split
    · rename_i heq; simp at heq; exact absurd heq.1 h1
    · rename_i heq; simp at heq; exact absurd heq.1 h2
    · simp [atoiDigits, hd, hv2, hv3]


theorem not_mem_of_all (p : Char → Bool) (l : Str) (h : l.all p = true) (c : Char)
    (hc : p c = false) : c ∉ l := by
  intro hm
  rw [List.all_eq_true] at h
  rw [h c hm] at hc
  exact Bool.noConfusion hc

theorem no_space_of_all (p : Char → Bool) (l : Str) (h : l.all p = true)
    (hp : ∀ c, p c = true → isSpace c = false) : ∀ c ∈ l, isSpace c = false := by
  intro c hm
  rw [List.all_eq_true] at h
  exact hp c (h c hm)

theorem nameChar_space (c : Char) (h : nameChar c = true) : isSpace c = false := by
  simp only [nameChar, Bool.not_eq_true', Bool.or_eq_false_iff] at h
  exact h.2

theorem pathChar_space (c : Char) (h : pathChar c = true) : isSpace c = false := by
  simp only [pathChar, Bool.not_eq_true', Bool.or_eq_false_iff] at h
  exact h.2

theorem addrChar_space (c : Char) (h : addrChar c = true) : isSpace c = false := by
  simp only [addrChar, Bool.not_eq_true', Bool.or_eq_false_iff] at h
  exact h.2

theorem isDigit_space (c : Char) (h : isDigit c = true) : isSpace c = false := by
  simp only [isDigit, Bool.and_eq_true, decide_eq_true_eq] at h
  simp only [isSpace, Bool.or_eq_false_iff, Bool.and_eq_false_iff, decide_eq_false_iff_not,
    beq_eq_false_iff_ne]
  omega


theorem bracketed_append_cons (a b : Str) (c : Char) (h : ']' ∉ c :: b) :
    bracketed (a ++ c :: b) = false := by
  apply bracketed_of_last
  rw [List.getLast?_append_cons]
  intro e
  exact h (List.mem_of_getLast?_eq_some e)

theorem parsePortValue_digits (ds : Str) (hd : ds.all isDigit = true)
    (hv : ds.isEmpty = true ∨ (digitsVal ds ≠ 0 ∧ digitsVal ds < 2 ^ (intSize - 1))) :
    parsePortValue ds = (digitsVal ds : Int) := by
  unfold parsePortValue
  cases ds with
  | nil => simp [digitsVal]
  | cons c cs =>
    obtain hv | ⟨h0, hv⟩ := hv
    · simp at hv
    · rw [Atoi_digits (c :: cs) (by simp) hd hv]
      have h0' : ((digitsVal (c :: cs) : Nat) : Int) ≠ 0 := by exact_mod_cast h0
      simp [h0']

theorem parseNs_some (proto n rest : Str) (hp : proto ≠ "unix".toList) (hn : '@' ∉ n)
    (hr : '@' ∉ rest) : parseNs proto (n ++ '@' :: rest) = (n, rest, none) := by
  have hc : Contains (n ++ '@' :: rest) ['@'] = true :=
    (Contains_single (n ++ '@' :: rest) '@').mpr (by simp)
  have hp' : proto ≠ ['u', 'n', 'i', 'x'] := by simpa using hp
  unfold parseNs
  simp [hc, Split_append n rest '@' hn, Split_of_not_mem rest '@' hr, hp']

theorem parseNs_none (proto rest : Str) (hr : '@' ∉ rest) :
    parseNs proto rest = ([], rest, none) := by
  have hc : Contains rest ['@'] = false := (Contains_single_false rest '@').mpr hr
  unfold parseNs
  simp [hc]

theorem parseHostPort_plain (proto host : Str) (err : Option UrlError) (h1 : '[' ∉ host)
    (h2 : ':' ∉ host) : parseHostPort proto host err = (host, 0, err) := by
  unfold parseHostPort
  simp [bracketed_of_not_mem host h1, LastIndex_of_not_mem host ':' h2]

theorem parseHostPort_wrap (proto host : Str) (err : Option UrlError) :
    parseHostPort proto ('[' :: (host ++ [']'])) err = (host, 0, err) := by
  unfold parseHostPort
  simp [bracketed_wrap, unbracket_wrap]

theorem parseHostPort_plain_port (proto host ds : Str) (err : Option UrlError)
    (hp : proto ≠ "unix".toList) (h1 : '[' ∉ host) (h2 : ':' ∉ host) (h3 : ':' ∉ ds)
    (h4 : ']' ∉ ds) :
    parseHostPort proto (host ++ ':' :: ds) err = (host, parsePortValue ds, err) := by
  have hb : bracketed (host ++ ':' :: ds) = false :=
    bracketed_append_cons host ds ':' (by simp [h4])
  have hc : Contains host [':'] = false := (Contains_single_false host ':').mpr h2
  have hp' : proto ≠ ['u', 'n', 'i', 'x'] := by simpa using hp
  unfold parseHostPort
  simp [hb, LastIndex_append host ds ':' h3, bracketed_of_not_mem host h1, hc, hp']

theorem parseHostPort_wrap_port (proto host ds : Str) (err : Option UrlError)
    (hp : proto ≠ "unix".toList) (h3 : ':' ∉ ds) (h4 : ']' ∉ ds) :
    parseHostPort proto (('[' :: (host ++ [']'])) ++ ':' :: ds) err =
      (host, parsePortValue ds, err) := by
  have hb : bracketed (('[' :: (host ++ [']'])) ++ ':' :: ds) = false :=
    bracketed_append_cons _ ds ':' (by simp [h4])
  have hp' : proto ≠ ['u', 'n', 'i', 'x'] := by simpa using hp
  have ht : (('[' :: (host ++ [']'])) ++ ':' :: ds).take ('[' :: (host ++ [']'])).length =
      '[' :: (host ++ [']']) := List.take_left' rfl
  have hd : (('[' :: (host ++ [']'])) ++ ':' :: ds).drop (('[' :: (host ++ [']'])).length + 1) =
      ds := by
    rw [← List.drop_drop, List.drop_left' rfl]; rfl
  unfold parseHostPort
  rw [hb, LastIndex_append _ ds ':' h3]
  simp only [ht, hd, bracketed_wrap, unbracket_wrap]
  simp [hp']

theorem checkHostname_ok (proto host : Str) (err : Option UrlError) (h1 : '[' ∉ host)
    (h2 : ']' ∉ host) : checkHostname proto host err = err := by
  have c1 : Contains host ['['] = false := (Contains_single_false host '[').mpr h1
  have c2 : Contains host [']'] = false := (Contains_single_false host ']').mpr h2
  simp [checkHostname, c1, c2]

theorem HasPrefix_of_not_mem (s p : Str) (c : Char) (hp : c ∈ p) (hs : c ∉ s) :
    HasPrefix s p = false := by
  rw [← Bool.not_eq_true, HasPrefix_iff]
  intro h
  exact hs (h.subset hp)

theorem parseScheme_unix (rest : Str) :
    parseScheme ("unix://".toList ++ rest) = some (rest, "unix".toList) := by
  simp [parseScheme, HasPrefix, TrimPrefix, List.isPrefixOf]

theorem parseScheme_tcp (rest : Str) :
    parseScheme ("tcp://".toList ++ rest) = some (rest, "tcp".toList) := by
  simp [parseScheme, HasPrefix, TrimPrefix, List.isPrefixOf]

theorem parseScheme_udp (rest : Str) :
    parseScheme ("udp://".toList ++ rest) = some (rest, "udp".toList) := by
  simp [parseScheme, HasPrefix, TrimPrefix, List.isPrefixOf]

theorem parseScheme_bare (url : Str) (h : '/' ∉ url) : parseScheme url = some (url, []) := by
  have h1 : HasPrefix url ['u', 'n', 'i', 'x', ':', '/', '/'] = false :=
    HasPrefix_of_not_mem url _ '/' (by simp) h
  have h2 : HasPrefix url ['t', 'c', 'p', ':', '/', '/'] = false :=
    HasPrefix_of_not_mem url _ '/' (by simp) h
  have h3 : HasPrefix url ['u', 'd', 'p', ':', '/', '/'] = false :=
    HasPrefix_of_not_mem url _ '/' (by simp) h
  have h4 : Contains url [':', '/', '/'] = false :=
    not_Contains_of_not_mem url _ '/' (by simp) h
  simp [parseScheme, h1, h2, h3, h4]

theorem ParseUrl_of_scheme (url u rest proto : Str) (ht : TrimSpace url = u) (hne : u ≠ [])
    (hs : parseScheme u = some (rest, proto)) :
    ParseUrl url =
      ⟨proto, (parseNs proto rest).1,
        (parseHostPort proto (parseNs proto rest).2.1 (parseNs proto rest).2.2).1,
        (parseHostPort proto (parseNs proto rest).2.1 (parseNs proto rest).2.2).2.1,
        checkHostname proto
          (parseHostPort proto (parseNs proto rest).2.1 (parseNs proto rest).2.2).1
          (parseHostPort proto (parseNs proto rest).2.1 (parseNs proto rest).2.2).2.2⟩ := by
  unfold ParseUrl
  simp only [ht, hs]
  rw [if_neg (by simpa using hne)]

theorem ParseUrl_of_no_scheme (url u : Str) (ht : TrimSpace url = u) (hne : u ≠ [])
    (hs : parseScheme u = none) : ParseUrl url = ⟨[], [], [], 0, some .invalidProtocol⟩ := by
  unfold ParseUrl
  simp only [ht, hs]
  rw [if_neg (by simpa using hne)]

theorem parseHostPort_text (proto : Str) (b : Bool) (host : Str) (port : Option Str)
    (err : Option UrlError) (hu : proto = "unix".toList → port = none)
    (h2 : '[' ∉ host) (h4 : b = false → ':' ∉ host)
    (hp : ∀ ds, port = some ds → ds.all isDigit = true) :
    parseHostPort proto (hostText b host ++ portText port) err =
      (host, (port.elim 0 parsePortValue), err) := by
  cases port with
  | none =>
    cases b with
    | false => simpa [hostText, portText] using parseHostPort_plain proto host err h2 (h4 rfl)
    | true => simpa [hostText, portText] using parseHostPort_wrap proto host err
  | some ds =>
    have hpu : proto ≠ "unix".toList := fun e => Option.noConfusion (hu e)
    have d1 : ':' ∉ ds := not_mem_of_all isDigit ds (hp ds rfl) ':' (by decide)
    have d2 : ']' ∉ ds := not_mem_of_all isDigit ds (hp ds rfl) ']' (by decide)
    cases b with
    | false =>
      simpa [hostText, portText] using
        parseHostPort_plain_port proto host ds err hpu h2 (h4 rfl) d1 d2
    | true =>
      simpa [hostText, portText] using parseHostPort_wrap_port proto host ds err hpu d1 d2

theorem parseNs_text (proto : Str) (ns : Option Str) (rest : Str)
    (hu : proto = "unix".toList → ns = none) (hn : ∀ n, ns = some n → '@' ∉ n)
    (hr : '@' ∉ rest) : parseNs proto (nsText ns ++ rest) = (ns.getD [], rest, none) := by
  cases ns with
  | none => simpa [nsText] using parseNs_none proto rest hr
  | some n =>
    have hpu : proto ≠ "unix".toList := fun e => Option.noConfusion (hu e)
    simpa [nsText] using parseNs_some proto n rest hpu (hn n rfl) hr


theorem mem_hostText (c : Char) (b : Bool) (host : Str) (h : c ∈ hostText b host) :
    c = '[' ∨ c = ']' ∨ c ∈ host := by
  cases b with
  | false => exact Or.inr (Or.inr h)
  | true =>
    simp only [hostText, if_true, List.mem_cons, List.mem_append] at h
    simp only [String.toList, List.mem_singleton] at h
    tauto

theorem mem_portText (c : Char) (port : Option Str) (h : c ∈ portText port) :
    c = ':' ∨ ∃ ds, port = some ds ∧ c ∈ ds := by
  cases port with
  | none => simp [portText] at h
  | some ds =>
    simp only [portText, List.mem_cons] at h
    rcases h with h | h
    · exact Or.inl h
    · exact Or.inr ⟨ds, rfl, h⟩

theorem mem_nsText (c : Char) (ns : Option Str) (h : c ∈ nsText ns) :
    c = '@' ∨ ∃ n, ns = some n ∧ c ∈ n := by
  cases ns with
  | none => simp [nsText] at h
  | some n =>
    simp only [nsText, List.mem_append] at h
    rcases h with h | h
    · exact Or.inr ⟨n, rfl, h⟩
    · simp only [String.toList, List.mem_singleton] at h
      exact Or.inl h

/-- The body of a URL of the grammar, the text after the scheme, is parsed
into its parts. -/
theorem parse_body (proto : Str) (ns : Option Str) (b : Bool) (host : Str) (port : Option Str)
    (hu : proto = "unix".toList → ns = none ∧ port = none)
    (hn : ∀ n, ns = some n → '@' ∉ n)
    (h1 : '@' ∉ host) (h2 : '[' ∉ host) (h3 : ']' ∉ host) (h4 : b = false → ':' ∉ host)
    (hp : ∀ ds, port = some ds → ds.all isDigit = true ∧
      (ds.isEmpty = true ∨ (digitsVal ds ≠ 0 ∧ digitsVal ds < 2 ^ (intSize - 1)))) :
    (⟨proto, (parseNs proto (nsText ns ++ (hostText b host ++ portText port))).1,
        (parseHostPort proto (parseNs proto (nsText ns ++ (hostText b host ++ portText port))).2.1
          (parseNs proto (nsText ns ++ (hostText b host ++ portText port))).2.2).1,
        (parseHostPort proto (parseNs proto (nsText ns ++ (hostText b host ++ portText port))).2.1
          (parseNs proto (nsText ns ++ (hostText b host ++ portText port))).2.2).2.1,
        checkHostname proto
          (parseHostPort proto (parseNs proto (nsText ns ++ (hostText b host ++ portText port))).2.1
            (parseNs proto (nsText ns ++ (hostText b host ++ portText port))).2.2).1
          (parseHostPort proto (parseNs proto (nsText ns ++ (hostText b host ++ portText port))).2.1
            (parseNs proto (nsText ns ++ (hostText b host ++ portText port))).2.2).2.2⟩ : UrlParts) =
      ⟨proto, ns.getD [], host, portNumber port, none⟩ := by
  have hr : '@' ∉ hostText b host ++ portText port := by
    intro hm
    rcases List.mem_append.mp hm with hm | hm
    · rcases mem_hostText _ _ _ hm with e | e | e
      · exact absurd e (by decide)
      · exact absurd e (by decide)
      · exact h1 e
    · rcases mem_portText _ _ hm with e | ⟨ds, e, hd⟩
      · exact absurd e (by decide)
      · exact not_mem_of_all isDigit ds (hp ds e).1 '@' (by decide) hd
  rw [parseNs_text proto ns _ (fun e => (hu e).1) hn hr]
  simp only
  rw [parseHostPort_text proto b host port none (fun e => (hu e).2) h2 h4 (fun ds e => (hp ds e).1)]
  simp only
  rw [checkHostname_ok proto host none h2 h3]
  cases port with
  | none => rfl
  | some ds =>
    simp only [Option.elim, portNumber, parsePortValue_digits ds (hp ds rfl).1 (hp ds rfl).2]


theorem ParseUrl_of_bare (url : Str) (ht : TrimSpace url = url)
    (hs : parseScheme url = some (url, [])) :
    ParseUrl url =
      ⟨[], (parseNs [] url).1,
        (parseHostPort [] (parseNs [] url).2.1 (parseNs [] url).2.2).1,
        (parseHostPort [] (parseNs [] url).2.1 (parseNs [] url).2.2).2.1,
        checkHostname []
          (parseHostPort [] (parseNs [] url).2.1 (parseNs [] url).2.2).1
          (parseHostPort [] (parseNs [] url).2.1 (parseNs [] url).2.2).2.2⟩ := by
  cases url with
  | nil => decide
  | cons c cs => exact ParseUrl_of_scheme (c :: cs) (c :: cs) (c :: cs) [] ht (by simp) hs

/-- The facts on the characters of the host that `UrlText.wf` gives. -/
theorem host_facts (scheme : Option Str) (b : Bool) (host : Str)
    (h : (if b then host.all addrChar
      else if scheme == some "unix".toList then host.all pathChar
      else host.all nameChar) = true) :
    '@' ∉ host ∧ '[' ∉ host ∧ ']' ∉ host ∧ (b = false → ':' ∉ host) ∧
      (∀ c ∈ host, isSpace c = false) ∧ (scheme ≠ some "unix".toList → '/' ∉ host) := by
  cases b with
  | true =>
    simp only [if_true] at h
    exact ⟨not_mem_of_all _ _ h _ (by decide), not_mem_of_all _ _ h _ (by decide),
      not_mem_of_all _ _ h _ (by decide), fun e => Bool.noConfusion e,
      no_space_of_all _ _ h addrChar_space, fun _ => not_mem_of_all _ _ h _ (by decide)⟩
  | false =>
    by_cases hs : scheme = some "unix".toList
    · simp only [hs, beq_self_eq_true, if_true, Bool.false_eq_true, if_false] at h
      exact ⟨not_mem_of_all _ _ h _ (by decide), not_mem_of_all _ _ h _ (by decide),
        not_mem_of_all _ _ h _ (by decide), fun _ => not_mem_of_all _ _ h _ (by decide),
        no_space_of_all _ _ h pathChar_space, fun e => absurd hs e⟩
    · have hs' : (scheme == some "unix".toList) = false := by simpa using hs
      simp only [hs', Bool.false_eq_true, if_false] at h
      exact ⟨not_mem_of_all _ _ h _ (by decide), not_mem_of_all _ _ h _ (by decide),
        not_mem_of_all _ _ h _ (by decide), fun _ => not_mem_of_all _ _ h _ (by decide),
        no_space_of_all _ _ h nameChar_space, fun _ => not_mem_of_all _ _ h _ (by decide)⟩


theorem body_forall (q : Char → Prop) (ns : Option Str) (b : Bool) (host : Str)
    (port : Option Str) (q1 : q '@') (q2 : q '[') (q3 : q ']') (q4 : q ':')
    (qn : ∀ n, ns = some n → ∀ c ∈ n, q c) (qh : ∀ c ∈ host, q c)
    (qp : ∀ ds, port = some ds → ∀ c ∈ ds, q c) :
    ∀ c ∈ nsText ns ++ (hostText b host ++ portText port), q c := by
  intro c hm
  rcases List.mem_append.mp hm with hm | hm
  · rcases mem_nsText _ _ hm with e | ⟨n, e, hc⟩
    · exact e ▸ q1
    · exact qn n e c hc
  · rcases List.mem_append.mp hm with hm | hm
    · rcases mem_hostText _ _ _ hm with e | e | e
      · exact e ▸ q2
      · exact e ▸ q3
      · exact qh c e
    · rcases mem_portText _ _ hm with e | ⟨ds, e, hd⟩
      · exact e ▸ q4
      · exact qp ds e c hd

theorem all_imp (p : Char → Bool) (q : Char → Prop) (l : Str) (h : l.all p = true)
    (hpq : ∀ c, p c = true → q c) : ∀ c ∈ l, q c := by
  intro c hm
  rw [List.all_eq_true] at h
  exact hpq c (h c hm)

theorem nameChar_slash (c : Char) (h : nameChar c = true) : c ≠ '/' := by
  intro e; subst e; revert h; decide

theorem isDigit_slash (c : Char) (h : isDigit c = true) : c ≠ '/' := by
  intro e; subst e; revert h; decide

/-- The function `ParseUrl` on the URLs of the grammar. -/
theorem ParseUrl_render (t : UrlText) (hwf : t.wf = true) : ParseUrl t.render = t.parts := by
  obtain ⟨scheme, ns, b, host, port⟩ := t
  simp only [UrlText.wf, Bool.and_eq_true] at hwf
  obtain ⟨⟨⟨⟨hs, hunix⟩, hns⟩, hhost⟩, hport⟩ := hwf
  simp only [Bool.or_eq_true, beq_iff_eq] at hs
  simp only [Bool.or_eq_true, Bool.and_eq_true, bne_iff_ne, ne_eq, beq_iff_eq,
    Bool.not_eq_true', beq_eq_false_iff_ne] at hunix
  obtain ⟨h1, h2, h3, h4, hsp, hsl⟩ := host_facts scheme b host hhost
  have hn : ∀ n, ns = some n → n.all nameChar = true := by
    intro n e; subst e; exact hns
  have hp : ∀ ds, port = some ds → ds.all isDigit = true ∧
      (ds.isEmpty = true ∨ (digitsVal ds ≠ 0 ∧ digitsVal ds < 2 ^ (intSize - 1))) := by
    intro ds e; subst e
    simp only [Bool.and_eq_true, Bool.or_eq_true, bne_iff_ne, ne_eq, decide_eq_true_eq] at hport
    exact hport
  have hn1 : ∀ n, ns = some n → '@' ∉ n :=
    fun n e => not_mem_of_all _ _ (hn n e) _ (by decide)
  have hspace : ∀ c ∈ nsText ns ++ (hostText b host ++ portText port), isSpace c = false :=
    body_forall (fun c => isSpace c = false) ns b host port (by decide) (by decide) (by decide)
      (by decide) (fun n e => no_space_of_all _ _ (hn n e) nameChar_space) hsp
      (fun ds e => no_space_of_all _ _ (hp ds e).1 isDigit_space)
  have hbody : ∀ proto : Str, scheme.getD [] = proto →
      (proto = "unix".toList → scheme = some "unix".toList) →
      (⟨proto, (parseNs proto (nsText ns ++ (hostText b host ++ portText port))).1,
        (parseHostPort proto (parseNs proto (nsText ns ++ (hostText b host ++ portText port))).2.1
          (parseNs proto (nsText ns ++ (hostText b host ++ portText port))).2.2).1,
        (parseHostPort proto (parseNs proto (nsText ns ++ (hostText b host ++ portText port))).2.1
          (parseNs proto (nsText ns ++ (hostText b host ++ portText port))).2.2).2.1,
        checkHostname proto
          (parseHostPort proto (parseNs proto (nsText ns ++ (hostText b host ++ portText port))).2.1
            (parseNs proto (nsText ns ++ (hostText b host ++ portText port))).2.2).1
          (parseHostPort proto (parseNs proto (nsText ns ++ (hostText b host ++ portText port))).2.1
            (parseNs proto (nsText ns ++ (hostText b host ++ portText port))).2.2).2.2⟩ : UrlParts) =
      UrlText.parts ⟨scheme, ns, b, host, port⟩ := by
    intro proto e hu
    have hu' : proto = "unix".toList → ns = none ∧ port = none := by
      intro e'
      rcases hunix with h | h
      · exact absurd (hu e') h
      · exact h
    rw [parse_body proto ns b host port hu' hn1 h1 h2 h3 h4 hp]
    subst e
    rfl
  have htrim : ∀ pre : Str, (∀ c ∈ pre, isSpace c = false) →
      TrimSpace (pre ++ (nsText ns ++ (hostText b host ++ portText port))) =
        pre ++ (nsText ns ++ (hostText b host ++ portText port)) := by
    intro pre hpre
    apply TrimSpace_eq_self
    intro c hc
    rcases List.mem_append.mp hc with hc | hc
    · exact hpre c hc
    · exact hspace c hc
  rcases hs with ((hs | hs) | hs) | hs
  · subst hs
    have hsl' : ∀ c ∈ nsText ns ++ (hostText b host ++ portText port), c ≠ '/' :=
      body_forall (fun c => c ≠ '/') ns b host port (by decide) (by decide) (by decide)
        (by decide) (fun n e => all_imp _ _ n (hn n e) nameChar_slash)
        (fun c hc e => hsl (by simp) (e ▸ hc))
        (fun ds e => all_imp _ _ ds (hp ds e).1 isDigit_slash)
    have hns : '/' ∉ nsText ns ++ (hostText b host ++ portText port) :=
      fun hm => hsl' _ hm rfl
    show ParseUrl ([] ++ (nsText ns ++ (hostText b host ++ portText port))) = _
    rw [List.nil_append,
      ParseUrl_of_bare _ (by simpa using htrim [] (by simp)) (parseScheme_bare _ hns)]
    exact hbody [] rfl (fun e => absurd e (by decide))
  · subst hs
    show ParseUrl ("tcp://".toList ++ (nsText ns ++ (hostText b host ++ portText port))) = _
    rw [ParseUrl_of_scheme _ _ _ _ (htrim "tcp://".toList (by decide)) (by simp)
      (parseScheme_tcp _)]
    exact hbody "tcp".toList rfl (fun e => absurd e (by decide))
  · subst hs
    show ParseUrl ("udp://".toList ++ (nsText ns ++ (hostText b host ++ portText port))) = _
    rw [ParseUrl_of_scheme _ _ _ _ (htrim "udp://".toList (by decide)) (by simp)
      (parseScheme_udp _)]
    exact hbody "udp".toList rfl (fun e => absurd e (by decide))
  · subst hs
    show ParseUrl ("unix://".toList ++ (nsText ns ++ (hostText b host ++ portText port))) = _
    rw [ParseUrl_of_scheme _ _ _ _ (htrim "unix://".toList (by decide)) (by simp)
      (parseScheme_unix _)]
    exact hbody "unix".toList rfl (fun _ => rfl)


/-- C1. `ParseUrl` returns no error and exactly the expected proto, ns,
hostname and port for every row of `TestParseUrl`, which contain the rows of
the table ("" gives all zero, ":40" port 40, "foo", "foo:", "foo:40",
"ns@foo:40", "tcp://ns@foo:40", "[::1]:40"); and for every URL of the grammar
`[scheme://][ns@]host[:port]` each optional part that is present is returned
in its field and each absent part as its zero value, without error. -/
theorem ParseUrl_table_and_grammar :
    (∀ row ∈ TestParseUrl, ParseUrl row.1.toList = row.2) ∧
    (∀ t : UrlText, t.wf = true → ParseUrl t.render = t.parts) :=
  ⟨by decide, ParseUrl_render⟩

/-- The grammar part of C1 at "tcp://ns@foo:40" and at "[::1]:40". -/
theorem ParseUrl_table_and_grammar_witness :
    ParseUrl "tcp://ns@foo:40".toList = ⟨"tcp".toList, "ns".toList, "foo".toList, 40, none⟩ ∧
    ParseUrl "[::1]:40".toList = ⟨[], [], "::1".toList, 40, none⟩ :=
  ⟨ParseUrl_table_and_grammar.2
      ⟨some "tcp".toList, some "ns".toList, false, "foo".toList, some "40".toList⟩ (by decide),
    ParseUrl_table_and_grammar.2 ⟨none, none, true, "::1".toList, some "40".toList⟩ (by decide)⟩


theorem parseHostPort_err (proto u : Str) (err : Option UrlError) (h : err ≠ none) :
    (parseHostPort proto u err).2.2 ≠ none := by
  unfold parseHostPort
  split
  · exact h
  · split
    · exact h
    · simp only
      split <;> split <;> try split
      all_goals first | exact h | simp

theorem checkHostname_err (proto u : Str) (err : Option UrlError) (h : err ≠ none) :
    checkHostname proto u err ≠ none := by
  unfold checkHostname
  split
  · simp
  · exact h

/-- An error set by the namespace stage, or by the host and port stage, is
returned. -/
theorem ParseUrl_err_of_stage (url u rest proto : Str) (ht : TrimSpace url = u) (hne : u ≠ [])
    (hs : parseScheme u = some (rest, proto))
    (h : (parseNs proto rest).2.2 ≠ none ∨
      (parseHostPort proto (parseNs proto rest).2.1 (parseNs proto rest).2.2).2.2 ≠ none) :
    (ParseUrl url).err ≠ none := by
  rw [ParseUrl_of_scheme url u rest proto ht hne hs]
  apply checkHostname_err
  rcases h with h | h
  · exact parseHostPort_err _ _ _ h
  · exact h


theorem count_dropWhile_space (c : Char) (hc : isSpace c = false) (l : Str) :
    (l.dropWhile isSpace).count c = l.count c := by
  induction l with
  | nil => rfl
  | cons a l ih =>
    by_cases ha : isSpace a = true
    · have hac : (a == c) = false := by
        rw [beq_eq_false_iff_ne]
        intro e; subst e; rw [ha] at hc; exact Bool.noConfusion hc
      rw [List.dropWhile_cons_of_pos ha, ih, List.count_cons, hac]
      simp
    · rw [List.dropWhile_cons_of_neg ha]

theorem count_TrimSpace (c : Char) (hc : isSpace c = false) (s : Str) :
    (TrimSpace s).count c = s.count c := by
  unfold TrimSpace
  rw [List.count_reverse, count_dropWhile_space c hc, List.count_reverse,
    count_dropWhile_space c hc]

theorem TrimPrefix_count (u p : Str) (c : Char) (hp : c ∉ p) (h : HasPrefix u p = true) :
    (TrimPrefix u p).count c = u.count c := by
  obtain ⟨t, rfl⟩ := (HasPrefix_iff u p).mp h
  simp only [TrimPrefix, h, if_true, List.drop_left, List.count_append]
  rw [List.count_eq_zero_of_not_mem hp, Nat.zero_add]

theorem parseScheme_count (u rest proto : Str) (h : parseScheme u = some (rest, proto)) :
    rest.count '@' = u.count '@' := by
  unfold parseScheme at h
  split at h
  · rename_i hp
    simp only [Option.some.injEq, Prod.mk.injEq] at h
    rw [← h.1]; exact TrimPrefix_count u _ '@' (by decide) hp
  · split at h
    · rename_i hp
      simp only [Option.some.injEq, Prod.mk.injEq] at h
      rw [← h.1]; exact TrimPrefix_count u _ '@' (by decide) hp
    · split at h
      · rename_i hp
        simp only [Option.some.injEq, Prod.mk.injEq] at h
        rw [← h.1]; exact TrimPrefix_count u _ '@' (by decide) hp
      · split at h
        · exact Option.noConfusion h
        · simp only [Option.some.injEq, Prod.mk.injEq] at h
          rw [← h.1]

theorem parseNs_many (proto rest : Str) (h : 2 ≤ rest.count '@') :
    (parseNs proto rest).2.2 ≠ none := by
  have hm : '@' ∈ rest := List.count_pos_iff.mp (by omega)
  have hc : Contains rest ['@'] = true := (Contains_single rest '@').mpr hm
  have hl : (Split rest '@').length ≠ 2 := by rw [length_Split]; omega
  unfold parseNs
  simp [hc, hl]

theorem parseNs_unix (rest : Str) (h : '@' ∈ rest) :
    (parseNs "unix".toList rest).2.2 ≠ none := by
  have hc : Contains rest ['@'] = true := (Contains_single rest '@').mpr h
  unfold parseNs
  simp only [String.toList, hc, if_true]
  split <;> simp

/-- C2, more than one `@`. -/
theorem ParseUrl_manyNamespaces (url : Str) (h : 2 ≤ url.count '@') :
    (ParseUrl url).err ≠ none := by
  have hu : 2 ≤ (TrimSpace url).count '@' := by
    rw [count_TrimSpace '@' (by decide)]; exact h
  have hne : TrimSpace url ≠ [] := by
    intro e; rw [e] at hu; simp at hu
  cases hs : parseScheme (TrimSpace url) with
  | none => rw [ParseUrl_of_no_scheme url _ rfl hne hs]; simp
  | some r =>
    obtain ⟨rest, proto⟩ := r
    apply ParseUrl_err_of_stage url _ rest proto rfl hne hs
    left
    apply parseNs_many
    rw [parseScheme_count _ _ _ hs]; exact hu

/-- C2, an unknown scheme. -/
theorem ParseUrl_unknownScheme (url : Str) (h : Contains (TrimSpace url) "://".toList = true)
    (h1 : HasPrefix (TrimSpace url) "unix://".toList = false)
    (h2 : HasPrefix (TrimSpace url) "tcp://".toList = false)
    (h3 : HasPrefix (TrimSpace url) "udp://".toList = false) : (ParseUrl url).err ≠ none := by
  have hne : TrimSpace url ≠ [] := by
    intro e; rw [e] at h; revert h; decide
  have hs : parseScheme (TrimSpace url) = none := by
    unfold parseScheme
    rw [h1, h2, h3, h]
    rfl
  rw [ParseUrl_of_no_scheme url _ rfl hne hs]; simp


theorem last_occurrence (s : Str) (c : Char) (h : c ∈ s) : ∃ a b, s = a ++ c :: b ∧ c ∉ b := by
  induction s with
  | nil => simp at h
  | cons x xs ih =>
    by_cases hx : c ∈ xs
    · obtain ⟨a, b, e, hb⟩ := ih hx
      exact ⟨x :: a, b, by rw [e]; rfl, hb⟩
    · have hxc : c = x := by
        rcases List.mem_cons.mp h with e | e
        · exact e
        · exact absurd e hx
      exact ⟨[], xs, by rw [hxc]; rfl, hx⟩

theorem parseHostPort_split (proto a b : Str) (err : Option UrlError) (hb : ':' ∉ b)
    (hbr : bracketed (a ++ ':' :: b) = false) :
    parseHostPort proto (a ++ ':' :: b) err =
      if bracketed a = true then
        (unbracket a, parsePortValue b, if proto = "unix".toList then some .unixPort else err)
      else if Contains a [':'] = true then (a, parsePortValue b, some .multiplePorts)
      else (a, parsePortValue b, if proto = "unix".toList then some .unixPort else err) := by
  have ht : (a ++ ':' :: b).take a.length = a := List.take_left' rfl
  have hd : (a ++ ':' :: b).drop (a.length + 1) = b := by
    rw [← List.drop_drop, List.drop_left' rfl]; rfl
  unfold parseHostPort
  rw [hbr, LastIndex_append a b ':' hb]
  simp only [ht, hd, Bool.false_eq_true, if_false, String.toList]

theorem parseHostPort_many (proto hp : Str) (err : Option UrlError) (hb : '[' ∉ hp)
    (hc : 2 ≤ hp.count ':') : (parseHostPort proto hp err).2.2 ≠ none := by
  have hm : ':' ∈ hp := List.count_pos_iff.mp (by omega)
  obtain ⟨a, b, e, hnb⟩ := last_occurrence hp ':' hm
  subst e
  have hca : ':' ∈ a := by
    rw [List.count_append, List.count_cons_self, List.count_eq_zero_of_not_mem hnb] at hc
    exact List.count_pos_iff.mp (by omega)
  have hba : '[' ∉ a := fun h => hb (List.mem_append_left _ h)
  rw [parseHostPort_split proto a b err hnb (bracketed_of_not_mem _ hb),
    bracketed_of_not_mem a hba, (Contains_single a ':').mpr hca]
  simp

theorem parseHostPort_unix (rest : Str) (err : Option UrlError) (hb : '[' ∉ rest)
    (h : ':' ∈ rest) : (parseHostPort "unix".toList rest err).2.2 ≠ none := by
  obtain ⟨a, b, e, hnb⟩ := last_occurrence rest ':' h
  subst e
  have hba : '[' ∉ a := fun h => hb (List.mem_append_left _ h)
  rw [parseHostPort_split _ a b err hnb (bracketed_of_not_mem _ hb), bracketed_of_not_mem a hba]
  simp only [Bool.false_eq_true, if_false, if_true]
  split <;> simp

theorem parseNs_rest (proto : Str) (ns : Option Str) (rest : Str)
    (hn : ∀ n, ns = some n → '@' ∉ n) (hr : '@' ∉ rest) :
    (parseNs proto (nsText ns ++ rest)).2.1 = rest := by
  cases ns with
  | none => simp [nsText, parseNs_none proto rest hr]
  | some n =>
    have hc : Contains (n ++ '@' :: rest) ['@'] = true :=
      (Contains_single (n ++ '@' :: rest) '@').mpr (by simp)
    have e : nsText (some n) ++ rest = n ++ '@' :: rest := by simp [nsText]
    rw [e]
    unfold parseNs
    simp [hc, Split_append n rest '@' (hn n rfl), Split_of_not_mem rest '@' hr]


theorem knownScheme_cases (scheme : Option Str) (h : knownScheme scheme = true) :
    scheme = none ∨ scheme = some "tcp".toList ∨ scheme = some "udp".toList ∨
      scheme = some "unix".toList := by
  simp only [knownScheme, Bool.or_eq_true, beq_iff_eq] at h
  tauto

theorem parseScheme_text (scheme : Option Str) (body : Str) (hs : knownScheme scheme = true)
    (hsl : scheme = none → '/' ∉ body) :
    parseScheme (schemeText scheme ++ body) = some (body, scheme.getD []) := by
  rcases knownScheme_cases scheme hs with h | h | h | h
  · subst h; exact parseScheme_bare body (hsl rfl)
  · subst h; exact parseScheme_tcp body
  · subst h; exact parseScheme_udp body
  · subst h; exact parseScheme_unix body

theorem TrimSpace_text (scheme : Option Str) (body : Str) (hs : knownScheme scheme = true)
    (hsp : ∀ c ∈ body, isSpace c = false) :
    TrimSpace (schemeText scheme ++ body) = schemeText scheme ++ body := by
  have hpre : ∀ c ∈ schemeText scheme, isSpace c = false := by
    rcases knownScheme_cases scheme hs with h | h | h | h <;> subst h <;> decide
  apply TrimSpace_eq_self
  intro c hc
  rcases List.mem_append.mp hc with hc | hc
  · exact hpre c hc
  · exact hsp c hc

theorem ns_body_forall (q : Char → Prop) (ns : Option Str) (rest : Str) (q1 : q '@')
    (qn : ∀ n, ns = some n → ∀ c ∈ n, q c) (qr : ∀ c ∈ rest, q c) :
    ∀ c ∈ nsText ns ++ rest, q c := by
  intro c hm
  rcases List.mem_append.mp hm with hm | hm
  · rcases mem_nsText _ _ hm with e | ⟨n, e, hc⟩
    · exact e ▸ q1
    · exact qn n e c hc
  · exact qr c hm

theorem addrChar_slash (c : Char) (h : addrChar c = true) : c ≠ '/' := by
  intro e; subst e; revert h; decide

/-- C2, more than one `:` in a host and port without brackets. -/
theorem ParseUrl_manyPorts (scheme ns : Option Str) (hostport : Str)
    (hs : knownScheme scheme = true) (hn : ∀ n, ns = some n → n.all nameChar = true)
    (hh : hostport.all addrChar = true) (hc : 2 ≤ hostport.count ':') :
    (ParseUrl (schemeText scheme ++ (nsText ns ++ hostport))).err ≠ none := by
  have hsp : ∀ c ∈ nsText ns ++ hostport, isSpace c = false :=
    ns_body_forall (fun c => isSpace c = false) ns hostport (by decide)
      (fun n e => no_space_of_all _ _ (hn n e) nameChar_space)
      (no_space_of_all _ _ hh addrChar_space)
  have hsl : '/' ∉ nsText ns ++ hostport := fun hm =>
    ns_body_forall (fun c => c ≠ '/') ns hostport (by decide)
      (fun n e => all_imp _ _ n (hn n e) nameChar_slash)
      (all_imp _ _ hostport hh addrChar_slash) _ hm rfl
  have hne : schemeText scheme ++ (nsText ns ++ hostport) ≠ [] := by
    intro e
    have e2 := (List.append_eq_nil.mp (List.append_eq_nil.mp e).2).2
    rw [e2] at hc; simp at hc
  apply ParseUrl_err_of_stage _ _ _ _ (TrimSpace_text scheme _ hs hsp) hne
    (parseScheme_text scheme _ hs (fun _ => hsl))
  right
  rw [parseNs_rest _ ns hostport (fun n e => not_mem_of_all _ _ (hn n e) _ (by decide))
    (not_mem_of_all _ _ hh _ (by decide))]
  exact parseHostPort_many _ _ _ (not_mem_of_all _ _ hh _ (by decide)) hc

theorem TrimSpace_unix (rest : Str) (hsp : ∀ c ∈ rest, isSpace c = false) :
    TrimSpace ("unix://".toList ++ rest) = "unix://".toList ++ rest :=
  TrimSpace_text (some "unix".toList) rest (by decide) hsp

/-- C2, a unix URL with a namespace. -/
theorem ParseUrl_unixNamespace (rest : Str) (hsp : ∀ c ∈ rest, isSpace c = false)
    (h : '@' ∈ rest) : (ParseUrl ("unix://".toList ++ rest)).err ≠ none := by
  apply ParseUrl_err_of_stage _ _ _ _ (TrimSpace_unix rest hsp) (by simp) (parseScheme_unix rest)
  left
  exact parseNs_unix rest h

/-- C2, a unix URL with a port. -/
theorem ParseUrl_unixPort (rest : Str) (hsp : ∀ c ∈ rest, isSpace c = false) (h : ':' ∈ rest)
    (hb : '[' ∉ rest) : (ParseUrl ("unix://".toList ++ rest)).err ≠ none := by
  by_cases ha : '@' ∈ rest
  · exact ParseUrl_unixNamespace rest hsp ha
  · apply ParseUrl_err_of_stage _ _ _ _ (TrimSpace_unix rest hsp) (by simp)
      (parseScheme_unix rest)
    right
    rw [parseNs_none _ rest ha]
    exact parseHostPort_unix rest none hb h


theorem hostChar_space (c : Char) (h : hostChar c = true) : isSpace c = false := by
  simp only [hostChar, Bool.not_eq_true', Bool.or_eq_false_iff] at h
  exact h.2

theorem hostChar_slash (c : Char) (h : hostChar c = true) : c ≠ '/' := by
  intro e; subst e; revert h; decide

theorem port_forall (q : Char → Prop) (port : Option Str) (q4 : q ':')
    (qp : ∀ ds, port = some ds → ∀ c ∈ ds, q c) : ∀ c ∈ portText port, q c := by
  intro c hm
  rcases mem_portText _ _ hm with e | ⟨ds, e, hd⟩
  · exact e ▸ q4
  · exact qp ds e c hd

theorem append_forall (q : Char → Prop) (a b : Str) (qa : ∀ c ∈ a, q c) (qb : ∀ c ∈ b, q c) :
    ∀ c ∈ a ++ b, q c := by
  intro c hm
  rcases List.mem_append.mp hm with hm | hm
  · exact qa c hm
  · exact qb c hm

theorem parseHostPort_host (proto host : Str) (port : Option Str) (err : Option UrlError)
    (h : ':' ∉ host) (hp : ∀ ds, port = some ds → ds.all isDigit = true) :
    (parseHostPort proto (host ++ portText port) err).1 =
      if bracketed host = true then unbracket host else host := by
  cases port with
  | none =>
    simp only [portText, List.append_nil]
    unfold parseHostPort
    by_cases hb : bracketed host = true
    · simp [hb]
    · simp [hb, LastIndex_of_not_mem host ':' h]
  | some ds =>
    have d1 : ':' ∉ ds := not_mem_of_all isDigit ds (hp ds rfl) ':' (by decide)
    have d2 : ']' ∉ ds := not_mem_of_all isDigit ds (hp ds rfl) ']' (by decide)
    simp only [portText]
    rw [parseHostPort_split proto host ds err d1
      (bracketed_append_cons host ds ':' (by simp [d2])),
      (Contains_single_false host ':').mpr h]
    by_cases hb : bracketed host = true
    · simp [hb]
    · simp [hb]

theorem checkHostname_bad (proto host : Str) (err : Option UrlError)
    (hp : proto ≠ "unix".toList) (hb : '[' ∈ host ∨ ']' ∈ host) :
    checkHostname proto host err = some .invalidHostname := by
  have hc : (Contains host ['['] || Contains host [']']) = true := by
    rw [Bool.or_eq_true, Contains_single, Contains_single]; exact hb
  unfold checkHostname
  rw [if_pos ⟨hp, hc⟩]

theorem unbracket_bad (host : Str) (hb : bracketed host = true) (hw : wrapped host = false) :
    '[' ∈ unbracket host ∨ ']' ∈ unbracket host := by
  rw [bracketed_eq] at hb
  unfold wrapped at hw
  rw [hb] at hw
  simp only [Bool.true_and, Bool.and_eq_false_iff, Bool.not_eq_false'] at hw
  simpa [unbracket] using hw

/-- C2, brackets that do not wrap the whole host. -/
theorem ParseUrl_badBrackets (scheme ns : Option Str) (host : Str) (port : Option Str)
    (hs : knownScheme scheme = true) (hu : scheme ≠ some "unix".toList)
    (hn : ∀ n, ns = some n → n.all nameChar = true) (hh : host.all hostChar = true)
    (hb : '[' ∈ host ∨ ']' ∈ host) (hw : wrapped host = false)
    (hp : ∀ ds, port = some ds → ds.all isDigit = true) :
    (ParseUrl (schemeText scheme ++ (nsText ns ++ (host ++ portText port)))).err ≠ none := by
  have hsp : ∀ c ∈ nsText ns ++ (host ++ portText port), isSpace c = false :=
    ns_body_forall (fun c => isSpace c = false) ns _ (by decide)
      (fun n e => no_space_of_all _ _ (hn n e) nameChar_space)
      (append_forall _ _ _ (no_space_of_all _ _ hh hostChar_space)
        (port_forall _ port (by decide) (fun ds e => no_space_of_all _ _ (hp ds e) isDigit_space)))
  have hsl : '/' ∉ nsText ns ++ (host ++ portText port) := fun hm =>
    ns_body_forall (fun c => c ≠ '/') ns _ (by decide)
      (fun n e => all_imp _ _ n (hn n e) nameChar_slash)
      (append_forall _ _ _ (all_imp _ _ host hh hostChar_slash)
        (port_forall _ port (by decide) (fun ds e => all_imp _ _ ds (hp ds e) isDigit_slash)))
      _ hm rfl
  have hat : '@' ∉ host ++ portText port := fun hm =>
    append_forall (fun c => c ≠ '@') _ _ (all_imp _ _ host hh (fun c h e => by
        subst e; revert h; decide))
      (port_forall _ port (by decide) (fun ds e => all_imp _ _ ds (hp ds e) (fun c h e => by
        subst e; revert h; decide))) _ hm rfl
  have hne : schemeText scheme ++ (nsText ns ++ (host ++ portText port)) ≠ [] := by
    intro e
    have e2 := (List.append_eq_nil.mp (List.append_eq_nil.mp (List.append_eq_nil.mp e).2).2).1
    rw [e2] at hb; simp at hb
  have hproto : scheme.getD [] ≠ "unix".toList := by
    rcases knownScheme_cases scheme hs with h | h | h | h
    · subst h; decide
    · subst h; decide
    · subst h; decide
    · exact absurd h hu
  rw [ParseUrl_of_scheme _ _ _ _ (TrimSpace_text scheme _ hs hsp) hne
    (parseScheme_text scheme _ hs (fun _ => hsl))]
  simp only
  rw [parseNs_rest _ ns _ (fun n e => not_mem_of_all _ _ (hn n e) _ (by decide)) hat,
    parseHostPort_host _ host port _ (not_mem_of_all _ _ hh _ (by decide)) hp]
  rw [checkHostname_bad _ _ _ hproto]
  · simp
  · by_cases hbr : bracketed host = true
    · rw [if_pos hbr]; exact unbracket_bad host hbr hw
    · rw [if_neg hbr]; exact hb

/-- C2. `ParseUrl` returns a non-nil error for every malformed URL of the
kinds exercised by `TestParseUrlErrors`: more than one `@`, an unknown scheme,
more than one unbracketed `:`, a unix URL with a namespace or a port, and
brackets that do not wrap the whole host. -/
theorem ParseUrl_malformed (url : Str) (h : Malformed url) : (ParseUrl url).err ≠ none := by
  cases h with
  | manyNamespaces _ h => exact ParseUrl_manyNamespaces url h
  | unknownScheme _ h h1 h2 h3 => exact ParseUrl_unknownScheme url h h1 h2 h3
  | manyPorts scheme ns hostport hs hn hh hc => exact ParseUrl_manyPorts scheme ns hostport hs hn hh hc
  | unixNamespace rest hsp h => exact ParseUrl_unixNamespace rest hsp h
  | unixPort rest hsp h hb => exact ParseUrl_unixPort rest hsp h hb
  | badBrackets scheme ns host port hs hu hn hh hb hw hp =>
    exact ParseUrl_badBrackets scheme ns host port hs hu hn hh hb hw hp


/-- C2 at the URLs of `TestParseUrlErrors`, and at the "unix://with@namespace"
of the specification, which the test spells "unix://with@namepace". -/
theorem ParseUrl_malformed_witness :
    (ParseUrl "multiple@namespace@foo".toList).err ≠ none ∧
    (ParseUrl "invalid://host".toList).err ≠ none ∧
    (ParseUrl "multiple:ports:foo".toList).err ≠ none ∧
    (ParseUrl "unix://with@namepace".toList).err ≠ none ∧
    (ParseUrl "unix://with@namespace".toList).err ≠ none ∧
    (ParseUrl "unix://with:port".toList).err ≠ none ∧
    (ParseUrl "::1:40".toList).err ≠ none ∧
    (ParseUrl "[bad]bracketing".toList).err ≠ none :=
  ⟨ParseUrl_malformed _ (.manyNamespaces _ (by decide)),
    ParseUrl_malformed _ (.unknownScheme _ (by decide) (by decide) (by decide) (by decide)),
    ParseUrl_malformed _
      (.manyPorts none none "multiple:ports:foo".toList (by decide) (fun _ e => nomatch e)
        (by decide) (by decide)),
    ParseUrl_malformed _ (.unixNamespace "with@namepace".toList (by decide) (by decide)),
    ParseUrl_malformed _ (.unixNamespace "with@namespace".toList (by decide) (by decide)),
    ParseUrl_malformed _ (.unixPort "with:port".toList (by decide) (by decide) (by decide)),
    ParseUrl_malformed _
      (.manyPorts none none "::1:40".toList (by decide) (fun _ e => nomatch e) (by decide)
        (by decide)),
    ParseUrl_malformed _
      (.badBrackets none none "[bad]bracketing".toList none (by decide) (by decide)
        (fun _ e => nomatch e) (by decide) (by decide) (by decide) (fun _ e => nomatch e))⟩

/-- C3, the code at "foo:0", "foo:abc" and ":0": the text after the last `:` is
not empty and is no decimal integer other than zero, and `ParseUrl` returns no
error, with port 0. -/
theorem ParseUrl_invalid_port_no_error :
    ParseUrl "foo:0".toList = ⟨[], [], "foo".toList, 0, none⟩ ∧
    ParseUrl "foo:abc".toList = ⟨[], [], "foo".toList, 0, none⟩ ∧
    ParseUrl "tcp://ns@foo:0".toList = ⟨"tcp".toList, "ns".toList, "foo".toList, 0, none⟩ := by
  decide


theorem TrimPrefix_append (p t : Str) : TrimPrefix (p ++ t) p = t := by
  have h : HasPrefix (p ++ t) p = true := (HasPrefix_iff _ _).mpr (List.prefix_append p t)
  rw [TrimPrefix, if_pos h, List.drop_left]

theorem TrimPrefix_of_not (s p : Str) (h : HasPrefix s p = false) : TrimPrefix s p = s := by
  rw [TrimPrefix, if_neg (by simp [h])]

theorem Split_two (s : Str) (sep : Char) (h : (Split s sep).length = 2) :
    ∃ a b, s = a ++ sep :: b ∧ sep ∉ a ∧ sep ∉ b := by
  rw [length_Split] at h
  have hm : sep ∈ s := List.count_pos_iff.mp (by omega)
  obtain ⟨a, b, e, ha⟩ := List.eq_append_cons_of_mem hm
  refine ⟨a, b, e, ha, ?_⟩
  rw [e, List.count_append, List.count_cons_self, List.count_eq_zero_of_not_mem ha] at h
  exact fun hb => by
    have := List.count_pos_iff.mpr hb
    omega

theorem addrHostPort_unix (path : Str) :
    addrHostPort "unix".toList path = .ok ("unix://".toList ++ path) := by
  simp [addrHostPort]

theorem addrHostPort_tcp_plain (host : Str) (h : ':' ∉ host) :
    addrHostPort "tcp".toList host =
      .ok ("tcp://".toList ++ (host ++ ':' :: fmtInt (canonicalPort none))) := by
  have hc : Contains host [':'] = false := (Contains_single_false host ':').mpr h
  simp [addrHostPort, hc, canonicalPort]

theorem addrHostPort_tcp_port (host t : Str) (h : ':' ∉ host) (ht : ':' ∉ t) :
    addrHostPort "tcp".toList (host ++ ':' :: t) =
      .ok ("tcp://".toList ++ (host ++ ':' :: fmtInt (canonicalPort (some t)))) := by
  have hc : Contains (host ++ ':' :: t) [':'] = true :=
    (Contains_single _ ':').mpr (by simp)
  have hhost : (if host = [] then [] else host) = host := by
    split
    · rename_i e; exact e.symm
    · rfl
  unfold addrHostPort
  simp only [String.toList, hc, Split_append host t ':' h, Split_of_not_mem t ':' ht]
  simp [DEFAULT_HOST, hhost, canonicalPort]

theorem addrHostPort_tcp_many (rest : Str) (h : 2 ≤ rest.count ':') :
    addrHostPort "tcp".toList rest = .error .invalidFormat := by
  have hm : ':' ∈ rest := List.count_pos_iff.mp (by omega)
  have hc : Contains rest [':'] = true := (Contains_single _ ':').mpr hm
  have hl : (Split rest ':').length ≠ 2 := by rw [length_Split]; omega
  unfold addrHostPort
  simp [hc, hl]

/-- The host and port stage on a tcp address: an error for more than one `:`,
else the canonical address. -/
theorem addrHostPort_tcp (rest : Str) :
    (2 ≤ rest.count ':' ∧ addrHostPort "tcp".toList rest = .error .invalidFormat) ∨
    (rest.count ':' < 2 ∧ ∃ host port, rest = host ++ portText port ∧ ':' ∉ host ∧
      (∀ t, port = some t → ':' ∉ t) ∧
      addrHostPort "tcp".toList rest =
        .ok ("tcp://".toList ++ (host ++ ':' :: fmtInt (canonicalPort port)))) := by
  by_cases h2 : 2 ≤ rest.count ':'
  · exact Or.inl ⟨h2, addrHostPort_tcp_many rest h2⟩
  · right
    refine ⟨by omega, ?_⟩
    by_cases hm : ':' ∈ rest
    · have h1 : (Split rest ':').length = 2 := by
        rw [length_Split]
        have := List.count_pos_iff.mpr hm
        omega
      obtain ⟨a, b, e, ha, hb⟩ := Split_two rest ':' h1
      refine ⟨a, some b, by simpa [portText] using e, ha, ?_, ?_⟩
      · intro t et; cases et; exact hb
      · rw [e]; exact addrHostPort_tcp_port a b ha hb
    · refine ⟨rest, none, by simp [portText], hm, ?_, ?_⟩
      · intro t et; cases et
      · exact addrHostPort_tcp_plain rest hm

/-- The scheme stage of `ValidateAddr`, by cases. -/
theorem addrScheme_cases (addr : Str) :
    (∃ path, addr = "unix://".toList ++ path ∧ HasPrefix addr "unix://".toList = true ∧
      addrScheme addr = some ("unix".toList, if path = [] then DEFAULT_UNIX else path)) ∨
    (∃ rest, addr = "tcp://".toList ++ rest ∧ HasPrefix addr "unix://".toList = false ∧
      TrimPrefix addr "tcp://".toList = rest ∧ addrScheme addr = some ("tcp".toList, rest)) ∨
    (HasPrefix addr "unix://".toList = false ∧ HasPrefix addr "tcp://".toList = false ∧
      Contains addr "://".toList = true ∧ addrScheme addr = none) ∨
    (HasPrefix addr "unix://".toList = false ∧ HasPrefix addr "tcp://".toList = false ∧
      Contains addr "://".toList = false ∧ TrimPrefix addr "tcp://".toList = addr ∧
      addrScheme addr = some ("tcp".toList, addr)) := by
  by_cases h1 : HasPrefix addr "unix://".toList = true
  · left
    obtain ⟨t, rfl⟩ := (HasPrefix_iff _ _).mp h1
    have e : TrimPrefix ("unix://".toList ++ t) "unix://".toList = t := TrimPrefix_append _ t
    refine ⟨t, rfl, h1, ?_⟩
    unfold addrScheme
    rw [if_pos h1]
    simp only [e]
  · right
    have h1' : HasPrefix addr "unix://".toList = false := by simpa using h1
    by_cases h2 : HasPrefix addr "tcp://".toList = true
    · left
      obtain ⟨t, rfl⟩ := (HasPrefix_iff _ _).mp h2
      have e : TrimPrefix ("tcp://".toList ++ t) "tcp://".toList = t := TrimPrefix_append _ t
      refine ⟨t, rfl, h1', e, ?_⟩
      unfold addrScheme
      rw [if_neg h1, if_pos h2, e]
    · right
      have h2' : HasPrefix addr "tcp://".toList = false := by simpa using h2
      by_cases h3 : Contains addr "://".toList = true
      · left
        refine ⟨h1', h2', h3, ?_⟩
        unfold addrScheme
        rw [if_neg h1, if_neg h2, if_pos h3]
      · right
        have h3' : Contains addr "://".toList = false := by simpa using h3
        refine ⟨h1', h2', h3', TrimPrefix_of_not _ _ h2', ?_⟩
        · unfold addrScheme
          rw [if_neg h1, if_neg h2, if_neg h3]


/-- The function `ValidateAddr` by the cases of its address: the canonical address of a
unix address, of a tcp or bare address with at most one `:`, and the two
errors. -/
theorem ValidateAddr_cases (addr : Str) :
    (∃ path, addr = "unix://".toList ++ path ∧ HasPrefix addr "unix://".toList = true ∧
      ValidateAddr addr = .ok ("unix://".toList ++ if path = [] then DEFAULT_UNIX else path)) ∨
    (∃ pre rest, addr = pre ++ rest ∧ (pre = "tcp://".toList ∨ pre = []) ∧
      HasPrefix addr "unix://".toList = false ∧ TrimPrefix addr "tcp://".toList = rest ∧
      (pre = [] → Contains addr "://".toList = false) ∧
      ((2 ≤ rest.count ':' ∧ ValidateAddr addr = .error .invalidFormat) ∨
       (rest.count ':' < 2 ∧ ∃ host port, rest = host ++ portText port ∧ ':' ∉ host ∧
          (∀ t, port = some t → ':' ∉ t) ∧
          ValidateAddr addr =
            .ok ("tcp://".toList ++ (host ++ ':' :: fmtInt (canonicalPort port)))))) ∨
    (HasPrefix addr "unix://".toList = false ∧ HasPrefix addr "tcp://".toList = false ∧
      Contains addr "://".toList = true ∧ ValidateAddr addr = .error .invalidProtocol) := by
  rcases addrScheme_cases addr with ⟨path, e, h1, hs⟩ | ⟨rest, e, h1, ht, hs⟩ | ⟨h1, h2, h3, hs⟩ |
    ⟨h1, h2, h3, ht, hs⟩
  · left
    refine ⟨path, e, h1, ?_⟩
    unfold ValidateAddr
    rw [hs]
    exact addrHostPort_unix _
  · right; left
    refine ⟨"tcp://".toList, rest, e, Or.inl rfl, h1, ht, fun e => absurd e (by decide), ?_⟩
    unfold ValidateAddr
    rw [hs]
    exact addrHostPort_tcp rest
  · right; right
    refine ⟨h1, h2, h3, ?_⟩
    unfold ValidateAddr
    rw [hs]
  · right; left
    refine ⟨[], addr, rfl, Or.inr rfl, h1, ht, fun _ => h3, ?_⟩
    unfold ValidateAddr
    rw [hs]
    exact addrHostPort_tcp addr

/-- C5. `ValidateAddr` returns an error exactly when the address has a scheme
other than unix:// or tcp:// (it contains "://" without one of those prefixes)
or when, for a tcp or bare address, the part after the scheme contains more
than one `:`; every other input succeeds. -/
theorem ValidateAddr_error_iff (addr : Str) :
    ((∃ e, ValidateAddr addr = .error e) ↔ (unknownScheme addr ∨ manyColons addr)) ∧
    ((∃ r, ValidateAddr addr = .ok r) ↔ ¬(unknownScheme addr ∨ manyColons addr)) := by
  unfold unknownScheme manyColons
  rcases ValidateAddr_cases addr with ⟨path, e, h1, hv⟩ |
    ⟨pre, rest, e, hpre, h1, ht, hc, ⟨h2, hv⟩ | ⟨h2, host, port, er, hh, hp, hv⟩⟩ |
    ⟨h1, h2, h3, hv⟩
  · have hno : ¬((HasPrefix addr "unix://".toList = false ∧
        HasPrefix addr "tcp://".toList = false ∧ Contains addr "://".toList = true) ∨
        (HasPrefix addr "unix://".toList = false ∧
          2 ≤ (TrimPrefix addr "tcp://".toList).count ':')) := by
      rintro (⟨h5, _, _⟩ | ⟨h5, _⟩) <;> (rw [h1] at h5; exact Bool.noConfusion h5)
    rw [hv]
    exact ⟨⟨fun ⟨_, he⟩ => Except.noConfusion he, fun h => absurd h hno⟩,
      ⟨fun _ => hno, fun _ => ⟨_, rfl⟩⟩⟩
  · have hyes : HasPrefix addr "unix://".toList = false ∧
        2 ≤ (TrimPrefix addr "tcp://".toList).count ':' := ⟨h1, by rw [ht]; exact h2⟩
    rw [hv]
    exact ⟨⟨fun _ => Or.inr hyes, fun _ => ⟨_, rfl⟩⟩,
      ⟨fun ⟨_, he⟩ => Except.noConfusion he, fun h => absurd (Or.inr hyes) h⟩⟩
  · have hno : ¬((HasPrefix addr "unix://".toList = false ∧
        HasPrefix addr "tcp://".toList = false ∧ Contains addr "://".toList = true) ∨
        (HasPrefix addr "unix://".toList = false ∧
          2 ≤ (TrimPrefix addr "tcp://".toList).count ':')) := by
      rintro (⟨_, h5, h6⟩ | ⟨_, h7⟩)
      · rcases hpre with hpre | hpre
        · subst hpre
          rw [e, (HasPrefix_iff _ _).mpr (List.prefix_append _ rest)] at h5
          exact Bool.noConfusion h5
        · rw [hc hpre] at h6
          exact Bool.noConfusion h6
      · rw [ht] at h7; omega
    rw [hv]
    exact ⟨⟨fun ⟨_, he⟩ => Except.noConfusion he, fun h => absurd h hno⟩,
      ⟨fun _ => hno, fun _ => ⟨_, rfl⟩⟩⟩
  · have hyes : HasPrefix addr "unix://".toList = false ∧
        HasPrefix addr "tcp://".toList = false ∧ Contains addr "://".toList = true :=
      ⟨h1, h2, h3⟩
    rw [hv]
    exact ⟨⟨fun _ => Or.inl hyes, fun _ => ⟨_, rfl⟩⟩,
      ⟨fun ⟨_, he⟩ => Except.noConfusion he, fun h => absurd (Or.inl hyes) h⟩⟩

theorem hexDigit_lower (n : Nat) (h : n < 16) : isLowerHex (hexDigit n) = true := by
  interval_cases n <;> decide

theorem version_nibble (x : Nat) : ((x &&& 0x0f) ||| 0x40) / 16 = 4 := by
  have h1 : x &&& 0x0f < 16 := Nat.lt_succ_of_le Nat.and_le_right
  generalize x &&& 0x0f = y at h1
  interval_cases y <;> rfl

theorem variant_nibble (x : Nat) :
    ((x &&& 0x3f) ||| 0x80) / 16 = 8 ∨ ((x &&& 0x3f) ||| 0x80) / 16 = 9 ∨
    ((x &&& 0x3f) ||| 0x80) / 16 = 10 ∨ ((x &&& 0x3f) ||| 0x80) / 16 = 11 := by
  have h1 : x &&& 0x3f < 64 := Nat.lt_succ_of_le Nat.and_le_right
  generalize x &&& 0x3f = y at h1
  interval_cases y <;> decide

theorem Uuid_eq (b : Fin 16 → Fin 256) :
    Uuid b =
      [hexDigit ((b 0).val / 16), hexDigit ((b 0).val % 16),
       hexDigit ((b 1).val / 16), hexDigit ((b 1).val % 16),
       hexDigit ((b 2).val / 16), hexDigit ((b 2).val % 16),
       hexDigit ((b 3).val / 16), hexDigit ((b 3).val % 16), '-',
       hexDigit ((b 4).val / 16), hexDigit ((b 4).val % 16),
       hexDigit ((b 5).val / 16), hexDigit ((b 5).val % 16), '-',
       hexDigit ((((b 6).val &&& 0x0f) ||| 0x40) / 16),
       hexDigit ((((b 6).val &&& 0x0f) ||| 0x40) % 16),
       hexDigit ((b 7).val / 16), hexDigit ((b 7).val % 16), '-',
       hexDigit ((((b 8).val &&& 0x3f) ||| 0x80) / 16),
       hexDigit ((((b 8).val &&& 0x3f) ||| 0x80) % 16),
       hexDigit ((b 9).val / 16), hexDigit ((b 9).val % 16), '-',
       hexDigit ((b 10).val / 16), hexDigit ((b 10).val % 16),
       hexDigit ((b 11).val / 16), hexDigit ((b 11).val % 16),
       hexDigit ((b 12).val / 16), hexDigit ((b 12).val % 16),
       hexDigit ((b 13).val / 16), hexDigit ((b 13).val % 16),
       hexDigit ((b 14).val / 16), hexDigit ((b 14).val % 16),
       hexDigit ((b 15).val / 16), hexDigit ((b 15).val % 16)] := by
  rfl


theorem hexDigit_hi (x : Fin 256) : isLowerHex (hexDigit (x.val / 16)) = true :=
  hexDigit_lower _ (by have := x.isLt; omega)

theorem hexDigit_lo (x : Nat) : isLowerHex (hexDigit (x % 16)) = true :=
  hexDigit_lower _ (Nat.mod_lt _ (by decide))

theorem hexDigit_version (x : Nat) : hexDigit (((x &&& 0x0f) ||| 0x40) / 16) = '4' := by
  rw [version_nibble]; rfl

theorem hexDigit_variant (x : Nat) :
    hexDigit (((x &&& 0x3f) ||| 0x80) / 16) = '8' ∨ hexDigit (((x &&& 0x3f) ||| 0x80) / 16) = '9' ∨
    hexDigit (((x &&& 0x3f) ||| 0x80) / 16) = 'a' ∨ hexDigit (((x &&& 0x3f) ||| 0x80) / 16) = 'b' := by
  rcases variant_nibble x with h | h | h | h <;> rw [h] <;> decide

theorem hexDigit_variant_lower (x : Nat) :
    isLowerHex (hexDigit (((x &&& 0x3f) ||| 0x80) / 16)) = true := by
  rcases hexDigit_variant x with h | h | h | h <;> rw [h] <;> decide

/-- C6. For every 16 random bytes, `Uuid` returns a string of 36 characters,
lowercase hexadecimal digits in groups of 8-4-4-4-12 separated by `-` at the
positions 8, 13, 18 and 23, whose version digit (position 14) is `4` and whose
variant digit (position 19) is one of `8`, `9`, `a`, `b`. -/
theorem Uuid_format (b : Fin 16 → Fin 256) :
    (Uuid b).length = 36 ∧
    (∀ i, i < 36 → ∃ c, (Uuid b)[i]? = some c ∧
      ((i = 8 ∨ i = 13 ∨ i = 18 ∨ i = 23) → c = '-') ∧
      (¬(i = 8 ∨ i = 13 ∨ i = 18 ∨ i = 23) → isLowerHex c = true)) ∧
    (Uuid b)[14]? = some '4' ∧
    ((Uuid b)[19]? = some '8' ∨ (Uuid b)[19]? = some '9' ∨ (Uuid b)[19]? = some 'a' ∨
      (Uuid b)[19]? = some 'b') := by
  rw [Uuid_eq]
  refine ⟨rfl, ?_, ?_, ?_⟩
  · intro i hi
    interval_cases i
    · exact ⟨_, rfl, fun h => absurd h (by omega), fun _ => hexDigit_hi _⟩
    · exact ⟨_, rfl, fun h => absurd h (by omega), fun _ => hexDigit_lo _⟩
    · exact ⟨_, rfl, fun h => absurd h (by omega), fun _ => hexDigit_hi _⟩
    · exact ⟨_, rfl, fun h => absurd h (by omega), fun _ => hexDigit_lo _⟩
    · exact ⟨_, rfl, fun h => absurd h (by omega), fun _ => hexDigit_hi _⟩
    · exact ⟨_, rfl, fun h => absurd h (by omega), fun _ => hexDigit_lo _⟩
    · exact ⟨_, rfl, fun h => absurd h (by omega), fun _ => hexDigit_hi _⟩
    · exact ⟨_, rfl, fun h => absurd h (by omega), fun _ => hexDigit_lo _⟩
    · exact ⟨_, rfl, fun _ => rfl, fun h => absurd h (by omega)⟩
    · exact ⟨_, rfl, fun h => absurd h (by omega), fun _ => hexDigit_hi _⟩
    · exact ⟨_, rfl, fun h => absurd h (by omega), fun _ => hexDigit_lo _⟩
    · exact ⟨_, rfl, fun h => absurd h (by omega), fun _ => hexDigit_hi _⟩
    · exact ⟨_, rfl, fun h => absurd h (by omega), fun _ => hexDigit_lo _⟩
    · exact ⟨_, rfl, fun _ => rfl, fun h => absurd h (by omega)⟩
    · exact ⟨_, rfl, fun h => absurd h (by omega), fun _ => by rw [hexDigit_version]; rfl⟩
    · exact ⟨_, rfl, fun h => absurd h (by omega), fun _ => hexDigit_lo _⟩
    · exact ⟨_, rfl, fun h => absurd h (by omega), fun _ => hexDigit_hi _⟩
    · exact ⟨_, rfl, fun h => absurd h (by omega), fun _ => hexDigit_lo _⟩
    · exact ⟨_, rfl, fun _ => rfl, fun h => absurd h (by omega)⟩
    · exact ⟨_, rfl, fun h => absurd h (by omega), fun _ => hexDigit_variant_lower _⟩
    · exact ⟨_, rfl, fun h => absurd h (by omega), fun _ => hexDigit_lo _⟩
    · exact ⟨_, rfl, fun h => absurd h (by omega), fun _ => hexDigit_hi _⟩
    · exact ⟨_, rfl, fun h => absurd h (by omega), fun _ => hexDigit_lo _⟩
    · exact ⟨_, rfl, fun _ => rfl, fun h => absurd h (by omega)⟩
    · exact ⟨_, rfl, fun h => absurd h (by omega), fun _ => hexDigit_hi _⟩
    · exact ⟨_, rfl, fun h => absurd h (by omega), fun _ => hexDigit_lo _⟩
    · exact ⟨_, rfl, fun h => absurd h (by omega), fun _ => hexDigit_hi _⟩
    · exact ⟨_, rfl, fun h => absurd h (by omega), fun _ => hexDigit_lo _⟩
    · exact ⟨_, rfl, fun h => absurd h (by omega), fun _ => hexDigit_hi _⟩
    · exact ⟨_, rfl, fun h => absurd h (by omega), fun _ => hexDigit_lo _⟩
    · exact ⟨_, rfl, fun h => absurd h (by omega), fun _ => hexDigit_hi _⟩
    · exact ⟨_, rfl, fun h => absurd h (by omega), fun _ => hexDigit_lo _⟩
    · exact ⟨_, rfl, fun h => absurd h (by omega), fun _ => hexDigit_hi _⟩
    · exact ⟨_, rfl, fun h => absurd h (by omega), fun _ => hexDigit_lo _⟩
    · exact ⟨_, rfl, fun h => absurd h (by omega), fun _ => hexDigit_hi _⟩
    · exact ⟨_, rfl, fun h => absurd h (by omega), fun _ => hexDigit_lo _⟩
  · exact congrArg some (hexDigit_version _)
  · rcases hexDigit_variant (b 8).val with h | h | h | h
    · exact Or.inl (congrArg some h)
    · exact Or.inr (Or.inl (congrArg some h))
    · exact Or.inr (Or.inr (Or.inl (congrArg some h)))
    · exact Or.inr (Or.inr (Or.inr (congrArg some h)))


theorem modifyLast_cons_ne {α : Type} (f : α → α) (a : α) (l : List α) (h : l ≠ []) :
    modifyLast f (a :: l) = a :: modifyLast f l := by
  cases l with
  | nil => exact absurd rfl h
  | cons b l => rfl

theorem modifyLast_eq_nil {α : Type} (f : α → α) (l : List α) :
    modifyLast f l = [] ↔ l = [] := by
  cases l with
  | nil => simp [modifyLast]
  | cons a l =>
    cases l with
    | nil => simp [modifyLast]
    | cons b l => simp [modifyLast]

theorem modifyLast_modifyLast {α : Type} (f g : α → α) (l : List α) :
    modifyLast f (modifyLast g l) = modifyLast (f ∘ g) l := by
  induction l with
  | nil => rfl
  | cons a l ih =>
    by_cases h : l = []
    · subst h; rfl
    · rw [modifyLast_cons_ne g a l h,
        modifyLast_cons_ne f a _ (by rwa [Ne, modifyLast_eq_nil]), ih,
        modifyLast_cons_ne (f ∘ g) a l h]

theorem modifyLast_concat {α : Type} (f : α → α) (l : List α) (a : α) :
    modifyLast f (l ++ [a]) = l ++ [f a] := by
  induction l with
  | nil => rfl
  | cons b l ih =>
    rw [List.cons_append, modifyLast_cons_ne f b _ (by simp), ih, List.cons_append]

theorem update_update (f g : SegmentCommand → SegmentCommand) (p : List Branch) :
    ∀ s, SegmentCommand.update f p (SegmentCommand.update g p s) =
      SegmentCommand.update (f ∘ g) p s := by
  induction p with
  | nil => intro s; rfl
  | cons b p ih =>
    intro s
    obtain ⟨t, l, a, ci, ct⟩ := s
    have e : SegmentCommand.update f p ∘ SegmentCommand.update g p =
        SegmentCommand.update (f ∘ g) p := funext ih
    cases b <;> simp only [SegmentCommand.update, modifyLast_modifyLast, e]

theorem update_append (f : SegmentCommand → SegmentCommand) (p q : List Branch) :
    ∀ s, SegmentCommand.update f (p ++ q) s =
      SegmentCommand.update (SegmentCommand.update f q) p s := by
  induction p with
  | nil => intro s; rfl
  | cons b p ih =>
    intro s
    obtain ⟨t, l, a, ci, ct⟩ := s
    have e : SegmentCommand.update f (p ++ q) =
        SegmentCommand.update (SegmentCommand.update f q) p := funext ih
    cases b <;> simp only [List.cons_append, SegmentCommand.update, e, List.append_eq]

theorem update_graft (g : SegmentCommand → SegmentCommand)
    (hg : ∀ c n, g (graft c n) = graft c (g n)) (q : List Branch) (c n : SegmentCommand) :
    SegmentCommand.update g q (graft c n) = graft c (SegmentCommand.update g q n) := by
  cases q with
  | nil => exact hg c n
  | cons b q =>
    obtain ⟨t, l, a, ci, ct⟩ := n
    cases b <;> rfl

theorem AddInit_graft (a c n : SegmentCommand) :
    (graft c n).AddInit a = graft c (n.AddInit a) := by
  obtain ⟨t, l, x, ci, ct⟩ := n
  rfl

theorem AddTrig_graft (a c n : SegmentCommand) :
    (graft c n).AddTrig a = graft c (n.AddTrig a) := by
  obtain ⟨t, l, x, ci, ct⟩ := n
  rfl

theorem embed_update (p : List Branch) (s : SegmentCommand) (st : ParseState)
    (g : SegmentCommand → SegmentCommand) (hg : ∀ c n, g (graft c n) = graft c (g n)) :
    (embed p s st).s.update g (embed p s st).cur =
      s.update (fun c => graft c (st.s.update g st.cur)) p := by
  simp only [embed]
  rw [update_append, update_update]
  congr 1
  funext c
  exact update_graft g hg st.cur c st.s

theorem embed_add (p : List Branch) (s : SegmentCommand) (st : ParseState)
    (a : SegmentCommand) : (embed p s st).add a = embed p s (st.add a) := by
  have h1 := embed_update p s st (fun c => c.AddTrig a) (fun c n => AddTrig_graft a c n)
  have h2 := embed_update p s st (fun c => c.AddInit a) (fun c n => AddInit_graft a c n)
  unfold ParseState.add
  have e1 : (embed p s st).trigger = st.trigger := rfl
  have e2 : (embed p s st).chain = st.chain := rfl
  rw [e1, e2]
  cases ht : st.trigger <;> cases hc : st.chain <;>
    simp only [Bool.false_eq_true, if_false, if_true, h1, h2] <;>
    simp [embed, List.append_assoc]

theorem parseSegmentLoop_cons (command : Str) (args : List Str) (st : ParseState) :
    parseSegmentLoop (command :: args) st =
      match decode command with
      | none => none
      | some w =>
        match w.step args st with
        | none => none
        | some r => parseSegmentLoop r.1 r.2 := by
  conv_lhs => unfold parseSegmentLoop
  unfold decode
  by_cases h0 : command = "id".toList
  · subst h0
    cases args <;> rfl
  · rw [if_neg h0, if_neg h0]
    by_cases h1 : command = "url".toList
    · subst h1
      cases args <;> rfl
    · rw [if_neg h1, if_neg h1]
      by_cases h2 : command = "docker-ns".toList
      · subst h2
        cases args <;> rfl
      · rw [if_neg h2, if_neg h2]
        by_cases h3 : command = "docker-run".toList
        · subst h3
          cases args <;> rfl
        · rw [if_neg h3, if_neg h3]
          by_cases h4 : command = "child".toList
          · subst h4
            cases args <;> rfl
          · rw [if_neg h4, if_neg h4]
            by_cases h5 : command = "chain".toList
            · subst h5
              cases args <;> rfl
            · rw [if_neg h5, if_neg h5]
              by_cases h6 : command = "remote".toList
              · subst h6
                cases args <;> rfl
              · rw [if_neg h6, if_neg h6]
                by_cases h7 : command = "tunnel".toList
                · subst h7
                  cases args <;> rfl
                · rw [if_neg h7, if_neg h7]
                  by_cases h8 : command = "udptunnel".toList
                  · subst h8
                    cases args <;> rfl
                  · rw [if_neg h8, if_neg h8]
                    by_cases h9 : command = "tail".toList
                    · subst h9
                      cases args <;> rfl
                    · rw [if_neg h9, if_neg h9]
                      by_cases h10 : command = "trigger".toList
                      · subst h10
                        cases args <;> rfl
                      · rw [if_neg h10, if_neg h10]

theorem Word.step_length (w : Word) (args : List Str) (st : ParseState)
    (r : List Str × ParseState) (h : w.step args st = some r) : r.1.length ≤ args.length := by
  unfold Word.step at h
  split at h
  · cases args with
    | nil => simp at h
    | cons a rest =>
      simp only [Option.some.injEq] at h
      subst h
      simp
  · simp only [Option.some.injEq] at h
    subst h
    exact Nat.le_refl _

theorem Word.apply_embed (p : List Branch) (s : SegmentCommand) (w : Word) (a : Str)
    (st : ParseState) : w.apply a (embed p s st) = embed p s (w.apply a st) := by
  have ht : (embed p s st).tail = st.tail := rfl
  cases w <;> simp only [Word.apply, ht, ← embed_add] <;> rfl

theorem Word.step_embed (p : List Branch) (s : SegmentCommand) (w : Word) (args : List Str)
    (st : ParseState) :
    w.step args (embed p s st) = (w.step args st).map (fun r => (r.1, embed p s r.2)) := by
  unfold Word.step
  split
  · cases args with
    | nil => rfl
    | cons a rest => simp only [Option.map, Word.apply_embed]
  · simp only [Option.map, Word.apply_embed]

/-- The loop of `parseSegment` works at a path of a command as it works at the
root. -/
theorem parseSegmentLoop_embed (p : List Branch) (s : SegmentCommand) :
    ∀ (n : Nat) (args : List Str) (st : ParseState), args.length ≤ n →
      parseSegmentLoop args (embed p s st) = (parseSegmentLoop args st).map (embed p s) := by
  intro n
  induction n with
  | zero =>
    intro args st h
    cases args with
    | nil => rfl
    | cons a l => simp at h
  | succ n ih =>
    intro args st h
    cases args with
    | nil => rfl
    | cons command args =>
      rw [parseSegmentLoop_cons, parseSegmentLoop_cons]
      cases decode command with
      | none => rfl
      | some w =>
        simp only
        rw [Word.step_embed]
        cases hs : w.step args st with
        | none => rfl
        | some r =>
          have hl := Word.step_length w args st r hs
          simp only [Option.map]
          exact ih r.1 r.2 (by simp at h; omega)

theorem lastId_append (id : Str) (a b : List Simple) :
    lastId id (a ++ b) = lastId (lastId id a) b := by
  induction a generalizing id with
  | nil => rfl
  | cons t l ih => cases t <;> exact ih _

theorem parseSegmentLoop_tail (args : List Str) (st : ParseState) :
    parseSegmentLoop ("tail".toList :: args) st = parseSegmentLoop args { st with tail := true } := by
  rw [parseSegmentLoop_cons]; rfl

theorem parseSegmentLoop_trigger (args : List Str) (st : ParseState) :
    parseSegmentLoop ("trigger".toList :: args) st =
      parseSegmentLoop args { st with trigger := true, tail := true } := by
  rw [parseSegmentLoop_cons]; rfl

/-- The simple subcommands before any `trigger`, at the top level: their
commands are appended to the init list. -/
theorem parseSegmentLoop_simple (pre : List Simple) (rest : List Str) :
    ∀ (id : Str) (init trig : List SegmentCommand) (tail : Bool), Simple.trigger ∉ pre →
      ∃ tail', parseSegmentLoop (argsOf pre ++ rest) (ParseState.top id init trig tail false) =
        parseSegmentLoop rest
          (ParseState.top (lastId id pre) (init ++ commands tail pre) trig tail' false) := by
  induction pre with
  | nil => intro id init trig tail _; exact ⟨tail, by simp [argsOf, lastId, commands]⟩
  | cons t l ih =>
    intro id init trig tail h
    have hl : Simple.trigger ∉ l := fun hm => h (List.mem_cons_of_mem _ hm)
    cases t with
    | id x =>
      obtain ⟨tail', e⟩ := ih x init trig tail hl
      exact ⟨tail', e⟩
    | url x =>
      obtain ⟨tail', e⟩ := ih id (init ++ [.mk URL tail x [] []]) trig tail hl
      refine ⟨tail', ?_⟩
      rw [List.append_assoc] at e
      exact e
    | dockerNs x =>
      obtain ⟨tail', e⟩ := ih id (init ++ [.mk DOCKER_NS tail x [] []]) trig tail hl
      refine ⟨tail', ?_⟩
      rw [List.append_assoc] at e
      exact e
    | dockerRun x =>
      obtain ⟨tail', e⟩ := ih id (init ++ [.mk DOCKER_RUN tail x [] []]) trig tail hl
      refine ⟨tail', ?_⟩
      rw [List.append_assoc] at e
      exact e
    | tail =>
      obtain ⟨tail', e⟩ := ih id init trig true hl
      exact ⟨tail', (parseSegmentLoop_tail _ _).trans e⟩
    | trigger => exact absurd (List.mem_cons_self _ _) h

/-- The simple subcommands after a `trigger`, at the top level: their commands
are appended to the trig list, with `Tail` set. -/
theorem parseSegmentLoop_triggered (mid : List Simple) (rest : List Str) :
    ∀ (id : Str) (init trig : List SegmentCommand),
      parseSegmentLoop (argsOf mid ++ rest) (ParseState.top id init trig true true) =
        parseSegmentLoop rest
          (ParseState.top (lastId id mid) init (trig ++ commands true mid) true true) := by
  induction mid with
  | nil => intro id init trig; simp [argsOf, lastId, commands]
  | cons t l ih =>
    intro id init trig
    cases t with
    | id x => exact ih x init trig
    | url x =>
      have e := ih id init (trig ++ [.mk URL true x [] []])
      rw [List.append_assoc] at e
      exact e
    | dockerNs x =>
      have e := ih id init (trig ++ [.mk DOCKER_NS true x [] []])
      rw [List.append_assoc] at e
      exact e
    | dockerRun x =>
      have e := ih id init (trig ++ [.mk DOCKER_RUN true x [] []])
      rw [List.append_assoc] at e
      exact e
    | tail => exact (parseSegmentLoop_tail _ _).trans (ih id init trig)
    | trigger => exact (parseSegmentLoop_trigger _ _).trans (ih id init trig)

theorem commands_Tail (mid : List Simple) : ∀ c ∈ commands true mid, c.Tail = true := by
  induction mid with
  | nil => intro c h; simp [commands] at h
  | cons t l ih =>
    intro c h
    cases t <;> simp only [commands, List.mem_cons] at h
    · exact ih c h
    · rcases h with h | h
      · subst h; rfl
      · exact ih c h
    · rcases h with h | h
      · subst h; rfl
      · exact ih c h
    · rcases h with h | h
      · subst h; rfl
      · exact ih c h
    · exact ih c h
    · exact ih c h

theorem graft_command (ch : Chaining) (n : SegmentCommand) :
    graft (ch.command [] []) n = ch.command n.ChildInit n.ChildTrig := by
  cases ch <;> rfl

theorem parseSegmentLoop_chaining (ch : Chaining) (post : List Str) (st : ParseState) :
    parseSegmentLoop (ch.args ++ post) st =
      parseSegmentLoop post ({ st with chain := true }.add (ch.command [] [])) := by
  cases ch <;> (rw [Chaining.args, List.cons_append, parseSegmentLoop_cons]; rfl)

/-- A chaining subcommand at the top level: its command is appended to the
init list, or to the trig list after a `trigger`, and what follows works on
this command as `parseSegment` works on its root. -/
theorem parseSegmentLoop_chain (ch : Chaining) (post : List Str) (id : Str)
    (init trig : List SegmentCommand) (tail trigger : Bool) :
    parseSegmentLoop (ch.args ++ post) (ParseState.top id init trig tail trigger) =
      (parseSegmentLoop post (ParseState.fresh id)).map
        (embed [if trigger then Branch.trig else Branch.init]
          (if trigger then .mk 0 false [] init (trig ++ [ch.command [] []])
           else .mk 0 false [] (init ++ [ch.command [] []]) trig)) := by
  rw [parseSegmentLoop_chaining, ← parseSegmentLoop_embed _ _ post.length post _ (Nat.le_refl _)]
  congr 1
  cases trigger
  · simp only [ParseState.top, ParseState.add, ParseState.fresh, embed, Bool.false_eq_true,
      if_false, if_true, SegmentCommand.update, SegmentCommand.AddInit, modifyLast_concat,
      graft_command, List.nil_append, List.append_nil]
    rfl
  · simp only [ParseState.top, ParseState.add, ParseState.fresh, embed, Bool.false_eq_true,
      if_false, if_true, SegmentCommand.update, SegmentCommand.AddTrig, modifyLast_concat,
      graft_command, List.nil_append, List.append_nil]
    rfl

theorem parseSegment_eq (uuid : Str) (args : List Str) :
    parseSegment uuid args =
      (parseSegmentLoop args (ParseState.fresh uuid)).map
        (fun st => (st.id, st.s.ChildInit, st.s.ChildTrig)) := by
  unfold parseSegment ParseState.fresh
  cases parseSegmentLoop args _ <;> rfl

/-- The subcommands that follow a chaining subcommand are parsed into its
child lists: without `trigger` before it, the command is the last of the init
list and carries the init and trig lists of what follows. -/
theorem parseSegment_nest (uuid : Str) (pre : List Simple) (ch : Chaining) (post : List Str)
    (hpre : Simple.trigger ∉ pre) :
    parseSegment uuid (argsOf pre ++ (ch.args ++ post)) =
      (parseSegment (lastId uuid pre) post).map
        (fun r => (r.1, commands false pre ++ [ch.command r.2.1 r.2.2], [])) := by
  obtain ⟨tail', e⟩ := parseSegmentLoop_simple pre (ch.args ++ post) uuid [] [] false hpre
  rw [parseSegment_eq, parseSegment_eq]
  have e0 : ParseState.fresh uuid = ParseState.top uuid [] [] false false := rfl
  rw [e0, e, parseSegmentLoop_chain]
  cases parseSegmentLoop post (ParseState.fresh (lastId uuid pre)) with
  | none => rfl
  | some stp =>
    simp only [Option.map, embed, Bool.false_eq_true, if_false, SegmentCommand.update,
      modifyLast_concat, graft_command, List.nil_append]
    rfl

/-- The subcommands after `trigger`: the simple ones are appended to the trig
list, and so is the next chaining one, which carries what follows it. -/
theorem parseSegment_trigger_nest (uuid : Str) (pre mid : List Simple) (ch : Chaining)
    (post : List Str) (hpre : Simple.trigger ∉ pre) :
    parseSegment uuid (argsOf pre ++ "trigger".toList :: (argsOf mid ++ (ch.args ++ post))) =
      (parseSegment (lastId uuid (pre ++ mid)) post).map
        (fun r => (r.1, commands false pre, commands true mid ++ [ch.command r.2.1 r.2.2])) := by
  obtain ⟨tail', e⟩ := parseSegmentLoop_simple pre
    ("trigger".toList :: (argsOf mid ++ (ch.args ++ post))) uuid [] [] false hpre
  rw [parseSegment_eq, parseSegment_eq]
  have e0 : ParseState.fresh uuid = ParseState.top uuid [] [] false false := rfl
  rw [e0, e, parseSegmentLoop_trigger]
  have e1 := parseSegmentLoop_triggered mid (ch.args ++ post) (lastId uuid pre)
    ([] ++ commands false pre) []
  rw [show ({ ParseState.top (lastId uuid pre) ([] ++ commands false pre) [] tail' false with
      trigger := true, tail := true } : ParseState) =
      ParseState.top (lastId uuid pre) ([] ++ commands false pre) [] true true from rfl, e1,
    parseSegmentLoop_chain, lastId_append]
  cases parseSegmentLoop post (ParseState.fresh (lastId (lastId uuid pre) mid)) with
  | none => rfl
  | some stp =>
    simp only [Option.map, embed, if_true, SegmentCommand.update,
      modifyLast_concat, graft_command, List.nil_append]
    rfl

/-- The subcommands after `trigger`, without a chaining subcommand: the
subcommands before it stay in init, those after it go to trig. -/
theorem parseSegment_trigger_simple (uuid : Str) (pre mid : List Simple)
    (hpre : Simple.trigger ∉ pre) :
    parseSegment uuid (argsOf pre ++ "trigger".toList :: argsOf mid) =
      some (lastId uuid (pre ++ mid), commands false pre, commands true mid) := by
  obtain ⟨tail', e⟩ := parseSegmentLoop_simple pre
    ("trigger".toList :: argsOf mid) uuid [] [] false hpre
  rw [parseSegment_eq]
  have e0 : ParseState.fresh uuid = ParseState.top uuid [] [] false false := rfl
  rw [e0, e, parseSegmentLoop_trigger]
  have e1 := parseSegmentLoop_triggered mid [] (lastId uuid pre) ([] ++ commands false pre) []
  rw [List.append_nil] at e1
  rw [show ({ ParseState.top (lastId uuid pre) ([] ++ commands false pre) [] tail' false with
      trigger := true, tail := true } : ParseState) =
      ParseState.top (lastId uuid pre) ([] ++ commands false pre) [] true true from rfl, e1,
    lastId_append]
  simp [parseSegmentLoop, ParseState.top, SegmentCommand.ChildInit, SegmentCommand.ChildTrig]

/-- C7, as stated, fails: the `docker-run` that follows the chaining
subcommand `remote` after a `trigger` is not in the `ChildInit` of the REMOTE
command, which is empty, but in its `ChildTrig`. -/
theorem parseSegment_trigger_after_chaining :
    parseSegment [] (["remote", "bar", "trigger", "docker-run", "baz"].map String.toList) =
      some ([], [.mk REMOTE false "tcp://bar:9999".toList []
        [.mk DOCKER_RUN true "baz".toList [] []]], []) := by
  decide

/-- C7, amended. `parseSegment` nests the subcommands that follow a chaining
subcommand into that command instead of the top-level list: the command
carries as `ChildInit` and `ChildTrig` the init and trig lists that
`parseSegment` yields for the arguments after it, so a subcommand goes to
`ChildInit`, or to `ChildTrig` when it is read after a later `trigger`. The
arguments id foo url :40 remote bar docker-run baz yield the id foo, the init
list URL(:40), REMOTE(tcp://bar:9999) with the child init list DOCKER_RUN(baz),
and an empty trig list; the argument of REMOTE is the address that
`ValidateAddr` returns for bar. -/
theorem parseSegment_nests :
    parseSegment [] (["id", "foo", "url", ":40", "remote", "bar", "docker-run", "baz"].map
        String.toList) =
      some ("foo".toList,
        [.mk URL false ":40".toList [] [],
         .mk REMOTE false "tcp://bar:9999".toList [.mk DOCKER_RUN false "baz".toList [] []] []],
        []) ∧
    ∀ (uuid : Str) (pre : List Simple) (ch : Chaining) (post : List Str),
      Simple.trigger ∉ pre →
      parseSegment uuid (argsOf pre ++ (ch.args ++ post)) =
        (parseSegment (lastId uuid pre) post).map
          (fun r => (r.1, commands false pre ++ [ch.command r.2.1 r.2.2], [])) :=
  ⟨by decide, parseSegment_nest⟩

/-- The general part of C7 at id foo url :40 remote bar docker-run baz. -/
theorem parseSegment_nests_witness :
    Simple.trigger ∉ [Simple.id "foo".toList, Simple.url ":40".toList] ∧
    parseSegment [] (["id", "foo", "url", ":40", "remote", "bar", "docker-run", "baz"].map
        String.toList) =
      (parseSegment "foo".toList (["docker-run", "baz"].map String.toList)).map
        (fun r => (r.1,
          [.mk URL false ":40".toList [] [], .mk REMOTE false "tcp://bar:9999".toList r.2.1 r.2.2],
          [])) :=
  ⟨by decide,
    parseSegment_nests.2 [] [Simple.id "foo".toList, Simple.url ":40".toList]
      (Chaining.remote "bar".toList) (["docker-run", "baz"].map String.toList) (by decide)⟩

/-- C8, as stated, fails: a chaining subcommand read after `trigger` is
appended to the trig list with `Tail` unset; and after a chaining subcommand,
the subcommands read after `trigger` go to the `ChildTrig` of that command,
not to the trig list that `parseSegment` returns. -/
theorem parseSegment_trigger_Tail_unset :
    parseSegment [] (["url", ":40", "trigger", "docker-run", "baz", "child"].map String.toList) =
      some ([], [.mk URL false ":40".toList [] []],
        [.mk DOCKER_RUN true "baz".toList [] [], .mk CHILD false [] [] []]) ∧
    parseSegment [] (["child", "trigger", "docker-run", "baz"].map String.toList) =
      some ([], [.mk CHILD false [] [] [.mk DOCKER_RUN true "baz".toList [] []]], []) := by
  decide

/-- C8, amended. For every argument list that reads `trigger` at the top
level (no chaining subcommand before it), the subcommands read after
`trigger`, up to and including the next chaining subcommand, are appended to
the trig list and not to the init list: the url, docker-ns and docker-run
commands with `Tail` set, the chaining command with `Tail` unset and carrying
what follows it; the subcommands before `trigger` stay in init. The arguments
id foo url :40 trigger docker-run baz yield the init list URL and the trig
list DOCKER_RUN. -/
theorem parseSegment_trigger :
    parseSegment [] (["id", "foo", "url", ":40", "trigger", "docker-run", "baz"].map
        String.toList) =
      some ("foo".toList, [.mk URL false ":40".toList [] []],
        [.mk DOCKER_RUN true "baz".toList [] []]) ∧
    (∀ (uuid : Str) (pre mid : List Simple), Simple.trigger ∉ pre →
      parseSegment uuid (argsOf pre ++ "trigger".toList :: argsOf mid) =
        some (lastId uuid (pre ++ mid), commands false pre, commands true mid)) ∧
    (∀ (uuid : Str) (pre mid : List Simple) (ch : Chaining) (post : List Str),
      Simple.trigger ∉ pre →
      parseSegment uuid (argsOf pre ++ "trigger".toList :: (argsOf mid ++ (ch.args ++ post))) =
        (parseSegment (lastId uuid (pre ++ mid)) post).map
          (fun r => (r.1, commands false pre, commands true mid ++ [ch.command r.2.1 r.2.2]))) ∧
    (∀ (mid : List Simple), ∀ c ∈ commands true mid, c.Tail = true) ∧
    (∀ (ch : Chaining) (ci ct : List SegmentCommand), (ch.command ci ct).Tail = false) :=
  ⟨by decide, parseSegment_trigger_simple, parseSegment_trigger_nest, commands_Tail,
    fun ch _ _ => by cases ch <;> rfl⟩

/-- The general parts of C8 at id foo url :40 trigger docker-run baz, and with
child url x after it. -/
theorem parseSegment_trigger_witness :
    Simple.trigger ∉ [Simple.id "foo".toList, Simple.url ":40".toList] ∧
    parseSegment [] (["id", "foo", "url", ":40", "trigger", "docker-run", "baz"].map
        String.toList) =
      some ("foo".toList, [.mk URL false ":40".toList [] []],
        [.mk DOCKER_RUN true "baz".toList [] []]) ∧
    parseSegment []
        (["id", "foo", "url", ":40", "trigger", "docker-run", "baz", "child", "url", "x"].map
          String.toList) =
      (parseSegment "foo".toList (["url", "x"].map String.toList)).map
        (fun r => (r.1, [.mk URL false ":40".toList [] []],
          [.mk DOCKER_RUN true "baz".toList [] [], .mk CHILD false [] r.2.1 r.2.2])) :=
  ⟨by decide,
    parseSegment_trigger.2.1 [] [Simple.id "foo".toList, Simple.url ":40".toList]
      [Simple.dockerRun "baz".toList] (by decide),
    parseSegment_trigger.2.2.1 [] [Simple.id "foo".toList, Simple.url ":40".toList]
      [Simple.dockerRun "baz".toList] Chaining.child (["url", "x"].map String.toList)
      (by decide)⟩


theorem executeLoop_nil {W : Type} (E : Env W) (seg : Segment) (d : Daemon W) :
    executeLoop E [] seg d = ⟨.ok, [], seg, d⟩ := by
  rw [executeLoop]

theorem executeLoop_cons {W : Type} (E : Env W) (c : SegmentCommand) (cs : List SegmentCommand)
    (seg : Segment) (d : Daemon W) :
    executeLoop E (c :: cs) seg d =
      if (executeCommand E c seg d).res = .ok then
        ⟨(executeLoop E cs (executeCommand E c seg d).seg (executeCommand E c seg d).daemon).res,
          (executeCommand E c seg d).command ::
            (executeLoop E cs (executeCommand E c seg d).seg (executeCommand E c seg d).daemon).array,
          (executeLoop E cs (executeCommand E c seg d).seg (executeCommand E c seg d).daemon).seg,
          (executeLoop E cs (executeCommand E c seg d).seg (executeCommand E c seg d).daemon).daemon⟩
      else
        ⟨(executeCommand E c seg d).res, (executeCommand E c seg d).command :: cs,
          (executeCommand E c seg d).seg, (executeCommand E c seg d).daemon⟩ := by
  rw [executeLoop]
  cases h : executeCommand E c seg d with
  | mk res c' seg' d' =>
    cases res <;> simp

theorem executeDockerNs_head {W : Type} (E : Env W) (c : SegmentCommand) (seg : Segment)
    (d : Daemon W) : headFields (executeDockerNs E c seg d).seg = headFields seg := by
  unfold executeDockerNs
  cases h : c.Tail <;> simp [Segment.setCi, Segment.ci, headFields]

theorem executeDockerRun_head {W : Type} (E : Env W) (c : SegmentCommand) (seg : Segment)
    (d : Daemon W) : headFields (executeDockerRun E c seg d).seg = headFields seg := by
  unfold executeDockerRun
  simp only
  split
  · rfl
  · cases h : c.Tail <;> simp [Segment.setCi, Segment.ci, headFields]

theorem createRemoteSegment_head {W : Type} (E : Env W) (k : Conn) (c : SegmentCommand)
    (seg : Segment) (d : Daemon W) :
    headFields (createRemoteSegment E k c seg d).seg = headFields seg := by
  unfold createRemoteSegment
  simp only
  split
  · rfl
  · split <;> rfl

theorem executeRemote_head {W : Type} (E : Env W) (c : SegmentCommand) (seg : Segment)
    (d : Daemon W) : headFields (executeRemote E c seg d).seg = headFields seg := by
  unfold executeRemote
  split
  · rfl
  · rfl
  · split
    · rfl
    · exact createRemoteSegment_head _ _ _ _ _

theorem executeTunnel_head {W : Type} (E : Env W) (c : SegmentCommand) (seg : Segment)
    (udp : Bool) (d : Daemon W) :
    headFields (executeTunnel E c seg udp d).seg = headFields seg := by
  unfold executeTunnel
  split
  · rfl
  · rfl
  · simp only
    split
    · rfl
    · rfl
    · exact createRemoteSegment_head _ _ _ _ _

theorem finishChild_head {W : Type} (c : SegmentCommand) (seg : Segment) (chain : Bool)
    (id : Str) (array : List SegmentCommand) (r : Outcome × Option ConnectionInfo × Daemon W) :
    headFields (finishChild c seg chain id array r).seg = headFields seg := by
  unfold finishChild
  split
  · cases chain <;> rfl
  · rfl

theorem setCi_head (seg : Segment) (tail : Bool) (ci : ConnectionInfo) :
    headFields (seg.setCi tail ci) =
      if tail = false then (ci.Proto, ci.Hostname, ci.Port) else headFields seg := by
  cases tail <;> rfl

theorem executeUrl_head {W : Type} (E : Env W) (c : SegmentCommand) (seg : Segment)
    (d : Daemon W) (h : (executeUrl E c seg d).res = .ok) :
    headFields (executeUrl E c seg d).seg =
      if c.Tail = false then (ParseUrl c.Arg).over (headFields seg) else headFields seg := by
  cases herr : (ParseUrl c.Arg).err with
  | some e => simp [executeUrl, herr] at h
  | none =>
    by_cases hns : (ParseUrl c.Arg).ns = []
    · simp only [executeUrl, herr, hns, ne_eq, not_true_eq_false, if_false]
      rw [setCi_head]
      cases ht : c.Tail
      · simp only [if_true, UrlParts.over, UrlParts.setsProto, UrlParts.setsHostname,
          UrlParts.setsPort, headFields, Segment.ci, Bool.false_eq_true, if_false]
        refine Prod.ext ?_ (Prod.ext ?_ ?_) <;> simp only <;> split_ifs <;> first | rfl | contradiction
      · simp
    · cases hg : E.GetFromName (ParseUrl c.Arg).ns d.world with
      | mk hv w =>
        obtain ⟨hd, err⟩ := hv
        cases err with
        | some e => simp [executeUrl, herr, hns, hg] at h
        | none =>
          simp only [executeUrl, herr, hns, hg, ne_eq, not_false_eq_true, if_true]
          rw [setCi_head]
          cases ht : c.Tail
          · simp only [if_true, UrlParts.over, UrlParts.setsProto, UrlParts.setsHostname,
              UrlParts.setsPort, headFields, Segment.ci, Bool.false_eq_true, if_false]
            refine Prod.ext ?_ (Prod.ext ?_ ?_) <;> simp only <;> split_ifs <;> first | rfl | contradiction
          · simp

theorem executeCommand_head {W : Type} (E : Env W) (c : SegmentCommand) (seg : Segment)
    (d : Daemon W) (h : (executeCommand E c seg d).res = .ok) :
    headFields (executeCommand E c seg d).seg =
      if c.Typ = URL ∧ c.Tail = false then (ParseUrl c.Arg).over (headFields seg)
      else headFields seg := by
  obtain ⟨t, l, a, ci, ct⟩ := c
  have hne : t ≠ URL → (if (SegmentCommand.mk t l a ci ct).Typ = URL ∧
      (SegmentCommand.mk t l a ci ct).Tail = false then
        (ParseUrl (SegmentCommand.mk t l a ci ct).Arg).over (headFields seg)
      else headFields seg) = headFields seg := by
    intro hn
    rw [if_neg (fun hc => hn hc.1)]
  rw [executeCommand] at h ⊢
  by_cases h0 : t = NONE
  · rw [if_pos h0, hne (by rw [h0]; decide)]
  · rw [if_neg h0] at h ⊢
    by_cases h1 : t = DOCKER_NS
    · rw [if_pos h1, hne (by rw [h1]; decide)]
      exact executeDockerNs_head _ _ _ _
    · rw [if_neg h1] at h ⊢
      by_cases h2 : t = DOCKER_RUN
      · rw [if_pos h2, hne (by rw [h2]; decide)]
        exact executeDockerRun_head _ _ _ _
      · rw [if_neg h2] at h ⊢
        by_cases h3 : t = CHILD ∨ t = CHAIN
        · rw [if_pos h3, hne (by rcases h3 with h3 | h3 <;> (rw [h3]; decide))]
          simp only
          split
          · exact finishChild_head _ _ _ _ _ _
          · exact finishChild_head _ _ _ _ _ _
        · rw [if_neg h3] at h ⊢
          by_cases h4 : t = REMOTE
          · rw [if_pos h4, hne (by rw [h4]; decide)]
            exact executeRemote_head _ _ _ _
          · rw [if_neg h4] at h ⊢
            by_cases h5 : t = TUNNEL
            · rw [if_pos h5, hne (by rw [h5]; decide)]
              exact executeTunnel_head _ _ _ _ _
            · rw [if_neg h5] at h ⊢
              by_cases h6 : t = UDPTUNNEL
              · rw [if_pos h6, hne (by rw [h6]; decide)]
                exact executeTunnel_head _ _ _ _ _
              · rw [if_neg h6] at h ⊢
                by_cases h7 : t = URL
                · rw [if_pos h7] at h ⊢
                  rw [executeUrl_head E _ seg d h]
                  simp [SegmentCommand.Typ, h7]
                · rw [if_neg h7] at h
                  simp at h

theorem over_foldl_port (us : List UrlParts) (f : Str × Str × Int) :
    (us.foldl (fun f u => u.over f) f).2.2 = (lastGiven UrlParts.setsPort us).getD f.2.2 := by
  induction us generalizing f with
  | nil => rfl
  | cons u us ih =>
    rw [List.foldl_cons, ih]
    simp only [lastGiven, List.reverse_cons, List.filterMap_append, List.head?_append,
      UrlParts.over]
    cases (List.filterMap UrlParts.setsPort us.reverse).head? with
    | some v => rfl
    | none => cases h : u.setsPort <;> simp [List.filterMap, h]

theorem over_foldl_proto (us : List UrlParts) (f : Str × Str × Int) :
    (us.foldl (fun f u => u.over f) f).1 = (lastGiven UrlParts.setsProto us).getD f.1 := by
  induction us generalizing f with
  | nil => rfl
  | cons u us ih =>
    rw [List.foldl_cons, ih]
    simp only [lastGiven, List.reverse_cons, List.filterMap_append, List.head?_append,
      UrlParts.over]
    cases (List.filterMap UrlParts.setsProto us.reverse).head? with
    | some v => rfl
    | none => cases h : u.setsProto <;> simp [List.filterMap, h]

theorem over_foldl_hostname (us : List UrlParts) (f : Str × Str × Int) :
    (us.foldl (fun f u => u.over f) f).2.1 = (lastGiven UrlParts.setsHostname us).getD f.2.1 := by
  induction us generalizing f with
  | nil => rfl
  | cons u us ih =>
    rw [List.foldl_cons, ih]
    simp only [lastGiven, List.reverse_cons, List.filterMap_append, List.head?_append,
      UrlParts.over]
    cases (List.filterMap UrlParts.setsHostname us.reverse).head? with
    | some v => rfl
    | none => cases h : u.setsHostname <;> simp [List.filterMap, h]

/-- A run without error leaves in the head the fields of the URL commands for
the head, applied in the order of the list. -/
theorem executeLoop_head {W : Type} (E : Env W) (cs : List SegmentCommand) :
    ∀ (seg : Segment) (d : Daemon W), (executeLoop E cs seg d).res = .ok →
      headFields (executeLoop E cs seg d).seg =
        (headUrls cs).foldl (fun f u => u.over f) (headFields seg) := by
  induction cs with
  | nil => intro seg d _; rw [executeLoop_nil]; rfl
  | cons c cs ih =>
    intro seg d h
    rw [executeLoop_cons] at h ⊢
    by_cases hc : (executeCommand E c seg d).res = .ok
    · rw [if_pos hc] at h ⊢
      simp only at h ⊢
      rw [ih _ _ h, executeCommand_head E c seg d hc]
      unfold headUrls
      by_cases hu : c.Typ = URL ∧ c.Tail = false
      · rw [if_pos hu, List.filter_cons_of_pos (by simpa using hu)]
        rfl
      · rw [if_neg hu, List.filter_cons_of_neg (by simpa using hu)]
    · rw [if_neg hc] at h
      exact absurd h hc

theorem executeLoop_length {W : Type} (E : Env W) (cs : List SegmentCommand) :
    ∀ (seg : Segment) (d : Daemon W), (executeLoop E cs seg d).array.length = cs.length := by
  induction cs with
  | nil => intro seg d; rw [executeLoop_nil]
  | cons c cs ih =>
    intro seg d
    rw [executeLoop_cons]
    split
    · simp only [List.length_cons, ih]
    · rfl

theorem Initialize_ok {W : Type} (E : Env W) (s : Segment) (d : Daemon W)
    (h : (Initialize E s d).1 = .ok) :
    (executeLoop E s.Init s d).res = .ok ∧ (Initialize E s d).2.1.Init = [] ∧
      headFields (Initialize E s d).2.1 =
        ((if (executeLoop E s.Init s d).seg.Head.Proto = [] then "tcp".toList
          else (executeLoop E s.Init s d).seg.Head.Proto),
         (if (executeLoop E s.Init s d).seg.Head.Hostname = [] then "127.0.0.1".toList
          else (executeLoop E s.Init s d).seg.Head.Hostname),
         (executeLoop E s.Init s d).seg.Head.Port) := by
  unfold Initialize finishInitialize at h ⊢
  cases hr : (executeLoop E s.Init s d).res with
  | ok =>
    simp only [hr]
    refine ⟨trivial, ?_, ?_⟩
    · split <;> split <;> rfl
    · simp only [headFields]
      split <;> split <;> simp_all
  | fail e => simp [hr] at h
  | panic => simp [hr] at h

theorem Initialize_not_ok {W : Type} (E : Env W) (s : Segment) (d : Daemon W)
    (h : (Initialize E s d).1 ≠ .ok) :
    (Initialize E s d).2.1.Init = (executeLoop E s.Init s d).array := by
  unfold Initialize finishInitialize at h ⊢
  cases hr : (executeLoop E s.Init s d).res with
  | ok => simp [hr] at h
  | fail e => simp [hr]
  | panic => simp [hr]

/-- C9, as stated, fails: a command that fails makes `Initialize` return its
error with `Init` as it is. After URL(":1") and the URL("a:b:c") that does not
parse, the head has port 1 and `Init` still holds both commands. -/
theorem Initialize_failure_keeps_Init :
    (Initialize Env.offline
      (Segment.zero [.mk URL false ":1".toList [] [], .mk URL false "a:b:c".toList [] []])
      ⟨[], ()⟩).1 = .fail (.url .multiplePorts) ∧
    (Initialize Env.offline
      (Segment.zero [.mk URL false ":1".toList [] [], .mk URL false "a:b:c".toList [] []])
      ⟨[], ()⟩).2.1.Init =
        [.mk URL false ":1".toList [] [], .mk URL false "a:b:c".toList [] []] ∧
    (Initialize Env.offline
      (Segment.zero [.mk URL false ":1".toList [] [], .mk URL false "a:b:c".toList [] []])
      ⟨[], ()⟩).2.1.Head.Port = 1 := by
  decide

/-- C9, amended. After a `Segment.Initialize` that returns no error, the `Init`
list of the segment is empty: every command of `Init` has been executed
without error and the list has been consumed. When a command fails,
`Initialize` returns the error and `Init` keeps its commands. -/
theorem Initialize_empties {W : Type} (E : Env W) (s : Segment) (d : Daemon W) :
    ((Initialize E s d).1 = .ok →
      (executeLoop E s.Init s d).res = .ok ∧ (Initialize E s d).2.1.Init = []) ∧
    ((Initialize E s d).1 ≠ .ok →
      (Initialize E s d).2.1.Init.length = s.Init.length ∧ s.Init ≠ []) := by
  refine ⟨fun h => ⟨(Initialize_ok E s d h).1, (Initialize_ok E s d h).2.1⟩, fun h => ?_⟩
  refine ⟨by rw [Initialize_not_ok E s d h, executeLoop_length], ?_⟩
  intro e
  apply h
  unfold Initialize finishInitialize
  rw [e, executeLoop_nil]

/-- C9 at the segment of `TestInitializeEmpties`. -/
theorem Initialize_empties_witness :
    (Initialize Env.offline (Segment.zero [.mk URL false ":1".toList [] []]) ⟨[], ()⟩).1 = .ok ∧
    (Initialize Env.offline (Segment.zero [.mk URL false ":1".toList [] []])
      ⟨[], ()⟩).2.1.Init = [] :=
  ⟨by decide,
    ((Initialize_empties Env.offline (Segment.zero [.mk URL false ":1".toList [] []])
      ⟨[], ()⟩).1 (by decide)).2⟩

/-- C10. `Initialize` applies the URL commands of `Init` in the order of the
list: when it returns no error, each of proto, host name and port of the head
is the one given by the last URL command for the head that sets it, and
without such a command the value the head had, with the defaults tcp and
127.0.0.1 for an empty proto and host name. With `Init` = URL(":1"), URL(":2")
the port of the head is 2. -/
theorem Initialize_last_url_wins :
    (∀ (W : Type) (E : Env W) (d : Daemon W),
      (Initialize E
        (Segment.zero [.mk URL false ":1".toList [] [], .mk URL false ":2".toList [] []])
        d).2.1.Head.Port = 2) ∧
    ∀ (W : Type) (E : Env W) (s : Segment) (d : Daemon W), (Initialize E s d).1 = .ok →
      (Initialize E s d).2.1.Head.Port =
        (lastGiven UrlParts.setsPort (headUrls s.Init)).getD s.Head.Port ∧
      (Initialize E s d).2.1.Head.Proto =
        (if (lastGiven UrlParts.setsProto (headUrls s.Init)).getD s.Head.Proto = [] then
          "tcp".toList
        else (lastGiven UrlParts.setsProto (headUrls s.Init)).getD s.Head.Proto) ∧
      (Initialize E s d).2.1.Head.Hostname =
        (if (lastGiven UrlParts.setsHostname (headUrls s.Init)).getD s.Head.Hostname = [] then
          "127.0.0.1".toList
        else (lastGiven UrlParts.setsHostname (headUrls s.Init)).getD s.Head.Hostname) := by
  refine ⟨fun W E d => rfl, ?_⟩
  intro W E s d h
  obtain ⟨hok, _, hf⟩ := Initialize_ok E s d h
  have hl := executeLoop_head E s.Init s d hok
  have h1 := over_foldl_proto (headUrls s.Init) (headFields s)
  have h2 := over_foldl_hostname (headUrls s.Init) (headFields s)
  have h3 := over_foldl_port (headUrls s.Init) (headFields s)
  rw [← hl] at h1 h2 h3
  simp only [headFields] at h1 h2 h3 hf
  simp only [Prod.mk.injEq] at hf
  obtain ⟨f1, f2, f3⟩ := hf
  rw [f1, f2, f3, h1, h2, h3]
  exact ⟨rfl, rfl, rfl⟩

/-- C10 at the segment of `TestInitializeDouble`, and at a head that two URL
commands fill field by field. -/
theorem Initialize_last_url_wins_witness :
    (Initialize Env.offline
      (Segment.zero [.mk URL false ":1".toList [] [], .mk URL false ":2".toList [] []])
      ⟨[], ()⟩).2.1.Head.Port = 2 ∧
    (Initialize Env.offline
      (Segment.zero [.mk URL false "udp://a:1".toList [] [], .mk URL false "b".toList [] []])
      ⟨[], ()⟩).2.1.Head = ⟨"udp".toList, 0, "b".toList, 1⟩ := by
  have h1 := Initialize_last_url_wins.2 Unit Env.offline
    (Segment.zero [.mk URL false ":1".toList [] [], .mk URL false ":2".toList [] []])
    ⟨[], ()⟩ (by decide)
  have h2 := Initialize_last_url_wins.2 Unit Env.offline
    (Segment.zero [.mk URL false "udp://a:1".toList [] [], .mk URL false "b".toList [] []])
    ⟨[], ()⟩ (by decide)
  refine ⟨h1.1.trans (by decide), ?_⟩
  decide

theorem executeCommand_URL {W : Type} (E : Env W) (c : SegmentCommand) (seg : Segment)
    (d : Daemon W) (h : c.Typ = URL) : executeCommand E c seg d = executeUrl E c seg d := by
  obtain ⟨t, l, a, ci, ct⟩ := c
  have ht : t = URL := h
  subst ht
  rw [executeCommand]
  rw [if_neg (by decide), if_neg (by decide), if_neg (by decide), if_neg (by decide),
    if_neg (by decide), if_neg (by decide), if_neg (by decide), if_pos rfl]

theorem setCi_ci (seg : Segment) (tail : Bool) : seg.setCi tail (seg.ci tail) = seg := by
  cases tail <;> rfl

theorem setCi_setCi (seg : Segment) (tail : Bool) (a b : ConnectionInfo) :
    (seg.setCi tail a).setCi tail b = seg.setCi tail b := by
  cases tail <;> rfl

theorem ci_setCi (seg : Segment) (tail : Bool) (a : ConnectionInfo) :
    (seg.setCi tail a).ci tail = a := by
  cases tail <;> rfl

/-- What `executeUrl` leaves: the segment with the selected end replaced by
some `ci`, whose fields are those of the URL where it gives them. -/
theorem executeUrl_spec {W : Type} (E : Env W) (c : SegmentCommand) (seg : Segment)
    (d : Daemon W) :
    (executeUrl E c seg d).command = c ∧
    (executeUrl E c seg d).daemon.segments = d.segments ∧
    ∃ ci : ConnectionInfo, (executeUrl E c seg d).seg = seg.setCi c.Tail ci ∧
      ((ParseUrl c.Arg).proto = [] → ci.Proto = (seg.ci c.Tail).Proto) ∧
      ((ParseUrl c.Arg).ns = [] → ci.Ns = (seg.ci c.Tail).Ns) ∧
      ((ParseUrl c.Arg).hostname = [] → ci.Hostname = (seg.ci c.Tail).Hostname) ∧
      ((ParseUrl c.Arg).port = 0 → ci.Port = (seg.ci c.Tail).Port) ∧
      ((executeUrl E c seg d).res = .ok →
        ((ParseUrl c.Arg).proto ≠ [] → ci.Proto = (ParseUrl c.Arg).proto) ∧
        ((ParseUrl c.Arg).hostname ≠ [] → ci.Hostname = (ParseUrl c.Arg).hostname) ∧
        ((ParseUrl c.Arg).port ≠ 0 → ci.Port = (ParseUrl c.Arg).port)) := by
  cases herr : (ParseUrl c.Arg).err with
  | some e =>
    refine ⟨by simp [executeUrl, herr], by simp [executeUrl, herr], seg.ci c.Tail, ?_⟩
    refine ⟨by simp [executeUrl, herr, setCi_ci], fun _ => rfl, fun _ => rfl, fun _ => rfl,
      fun _ => rfl, ?_⟩
    intro h
    simp [executeUrl, herr] at h
  | none =>
    by_cases hns : (ParseUrl c.Arg).ns = []
    · simp only [executeUrl, herr, hns, ne_eq, not_true_eq_false, if_false]
      refine ⟨trivial, trivial, _, rfl, ?_, ?_, ?_, ?_, ?_⟩
      all_goals (intros; (try refine ⟨?_, ?_, ?_⟩) <;> intros <;> split_ifs <;> simp_all)
    · cases hg : E.GetFromName (ParseUrl c.Arg).ns d.world with
      | mk hv w =>
        obtain ⟨hd, err⟩ := hv
        cases err with
        | some e =>
          simp only [executeUrl, herr, hns, hg, ne_eq, not_false_eq_true, if_true]
          refine ⟨trivial, trivial, _, rfl, ?_, ?_, ?_, ?_, ?_⟩
          all_goals (intros; (try split_ifs) <;> simp_all)
        | none =>
          simp only [executeUrl, herr, hns, hg, ne_eq, not_false_eq_true, if_true]
          refine ⟨trivial, trivial, _, rfl, ?_, ?_, ?_, ?_, ?_⟩
          all_goals (intros; (try refine ⟨?_, ?_, ?_⟩) <;> intros <;> (try split_ifs) <;> simp_all)

/-- C11. A URL command changes only the end of the segment selected by its
`Tail` flag, the tail when it is set and the head otherwise: the other end, the
rest of the segment and the registry are as before. On the selected end a field
that the URL does not give (an empty proto, namespace or host name, the port 0;
an absent scheme, namespace, host or port of a URL of the grammar) keeps its
value, and when the command returns no error the proto, host name and port
that the URL gives are stored. In `TestInitializeModifyTail` the command
URL(":1") with `Tail` set leaves the port 1 in the tail. -/
theorem URL_command_frame {W : Type} (E : Env W) (c : SegmentCommand) (seg : Segment)
    (d : Daemon W) (h : c.Typ = URL) :
    (executeCommand E c seg d).seg.ci (!c.Tail) = seg.ci (!c.Tail) ∧
    (executeCommand E c seg d).seg.setCi c.Tail (seg.ci c.Tail) = seg ∧
    (executeCommand E c seg d).daemon.segments = d.segments ∧
    ((ParseUrl c.Arg).proto = [] →
      ((executeCommand E c seg d).seg.ci c.Tail).Proto = (seg.ci c.Tail).Proto) ∧
    ((ParseUrl c.Arg).ns = [] →
      ((executeCommand E c seg d).seg.ci c.Tail).Ns = (seg.ci c.Tail).Ns) ∧
    ((ParseUrl c.Arg).hostname = [] →
      ((executeCommand E c seg d).seg.ci c.Tail).Hostname = (seg.ci c.Tail).Hostname) ∧
    ((ParseUrl c.Arg).port = 0 →
      ((executeCommand E c seg d).seg.ci c.Tail).Port = (seg.ci c.Tail).Port) ∧
    (∀ t : UrlText, t.wf = true → c.Arg = t.render →
      (t.scheme = none →
        ((executeCommand E c seg d).seg.ci c.Tail).Proto = (seg.ci c.Tail).Proto) ∧
      (t.ns = none → ((executeCommand E c seg d).seg.ci c.Tail).Ns = (seg.ci c.Tail).Ns) ∧
      (t.host = [] →
        ((executeCommand E c seg d).seg.ci c.Tail).Hostname = (seg.ci c.Tail).Hostname) ∧
      (t.port = none →
        ((executeCommand E c seg d).seg.ci c.Tail).Port = (seg.ci c.Tail).Port)) ∧
    ((executeCommand E c seg d).res = .ok →
      ((ParseUrl c.Arg).proto ≠ [] →
        ((executeCommand E c seg d).seg.ci c.Tail).Proto = (ParseUrl c.Arg).proto) ∧
      ((ParseUrl c.Arg).hostname ≠ [] →
        ((executeCommand E c seg d).seg.ci c.Tail).Hostname = (ParseUrl c.Arg).hostname) ∧
      ((ParseUrl c.Arg).port ≠ 0 →
        ((executeCommand E c seg d).seg.ci c.Tail).Port = (ParseUrl c.Arg).port)) ∧
    (Initialize E (Segment.zero [.mk URL true ":1".toList [] []]) d).2.1.Tail.Port = 1 := by
  rw [executeCommand_URL E c seg d h]
  obtain ⟨_, hd, ci, hseg, h1, h2, h3, h4, h5⟩ := executeUrl_spec E c seg d
  rw [hseg, ci_setCi, setCi_setCi, setCi_ci]
  refine ⟨by cases c.Tail <;> rfl, rfl, hd, h1, h2, h3, h4, ?_, h5, rfl⟩
  intro t hwf harg
  have hp := ParseUrl_render t hwf
  rw [← harg] at hp
  refine ⟨fun e => h1 ?_, fun e => h2 ?_, fun e => h3 ?_, fun e => h4 ?_⟩
  · rw [hp, UrlText.parts, e]; rfl
  · rw [hp, UrlText.parts, e]; rfl
  · rw [hp, UrlText.parts, e]
  · rw [hp, UrlText.parts, e]; rfl

/-- C11 at the command of `TestInitializeModifyTail` on a segment with a head:
the head is as before. -/
theorem URL_command_frame_witness :
    (SegmentCommand.mk URL true ":1".toList [] []).Typ = URL ∧
    (executeCommand Env.offline (.mk URL true ":1".toList [] [])
      { Segment.zero [] with Head := ⟨"udp".toList, 3, "a".toList, 7⟩ } ⟨[], ()⟩).seg.Head =
        ⟨"udp".toList, 3, "a".toList, 7⟩ :=
  ⟨rfl, (URL_command_frame Env.offline (.mk URL true ":1".toList [] [])
    { Segment.zero [] with Head := ⟨"udp".toList, 3, "a".toList, 7⟩ } ⟨[], ()⟩ rfl).1⟩

theorem lastGiven_some {α β : Type} (f : α → Option β) (l : List α) (v : β)
    (h : lastGiven f l = some v) : ∃ a ∈ l, f a = some v := by
  unfold lastGiven at h
  have hm : v ∈ l.reverse.filterMap f := List.mem_of_mem_head? h
  rw [List.mem_filterMap] at hm
  obtain ⟨a, ha, hfa⟩ := hm
  exact ⟨a, List.mem_reverse.mp ha, hfa⟩

theorem setsProto_ne (u : UrlParts) (v : Str) (h : u.setsProto = some v) : v ≠ [] := by
  unfold UrlParts.setsProto at h
  split_ifs at h with hp
  cases h
  exact hp

theorem setsHostname_ne (u : UrlParts) (v : Str) (h : u.setsHostname = some v) : v ≠ [] := by
  unfold UrlParts.setsHostname at h
  split_ifs at h with hp
  cases h
  exact hp

/-- The head after an `Initialize` without error, by the URL commands for the
head: the last proto and host name given, else what the head had, else the
defaults. -/
theorem Initialize_head {W : Type} (E : Env W) (s : Segment) (d : Daemon W)
    (h : (Initialize E s d).1 = .ok) :
    (Initialize E s d).2.1.Head.Proto =
      (if (lastGiven UrlParts.setsProto (headUrls s.Init)).getD s.Head.Proto = [] then
        "tcp".toList
      else (lastGiven UrlParts.setsProto (headUrls s.Init)).getD s.Head.Proto) ∧
    (Initialize E s d).2.1.Head.Hostname =
      (if (lastGiven UrlParts.setsHostname (headUrls s.Init)).getD s.Head.Hostname = [] then
        "127.0.0.1".toList
      else (lastGiven UrlParts.setsHostname (headUrls s.Init)).getD s.Head.Hostname) := by
  obtain ⟨hok, _, hf⟩ := Initialize_ok E s d h
  have hl := executeLoop_head E s.Init s d hok
  have h1 := over_foldl_proto (headUrls s.Init) (headFields s)
  have h2 := over_foldl_hostname (headUrls s.Init) (headFields s)
  rw [← hl] at h1 h2
  simp only [headFields] at h1 h2 hf
  simp only [Prod.mk.injEq] at hf
  obtain ⟨f1, f2, _⟩ := hf
  rw [f1, f2, h1, h2]
  exact ⟨rfl, rfl⟩

/-- C12. Whenever `Segment.Initialize` returns no error, proto and host name of
the head are not empty. Where no URL command for the head gives the field and
the head had none before, it is the default, "tcp" and "127.0.0.1"; a value
given by a command (the last one that gives the field) or held by the head
before is kept, not replaced by the default. -/
theorem Initialize_head_defaults {W : Type} (E : Env W) (s : Segment) (d : Daemon W)
    (h : (Initialize E s d).1 = .ok) :
    (Initialize E s d).2.1.Head.Proto ≠ [] ∧
    (Initialize E s d).2.1.Head.Hostname ≠ [] ∧
    (lastGiven UrlParts.setsProto (headUrls s.Init) = none → s.Head.Proto = [] →
      (Initialize E s d).2.1.Head.Proto = "tcp".toList) ∧
    (lastGiven UrlParts.setsHostname (headUrls s.Init) = none → s.Head.Hostname = [] →
      (Initialize E s d).2.1.Head.Hostname = "127.0.0.1".toList) ∧
    (∀ v, lastGiven UrlParts.setsProto (headUrls s.Init) = some v →
      (Initialize E s d).2.1.Head.Proto = v) ∧
    (∀ v, lastGiven UrlParts.setsHostname (headUrls s.Init) = some v →
      (Initialize E s d).2.1.Head.Hostname = v) ∧
    (lastGiven UrlParts.setsProto (headUrls s.Init) = none → s.Head.Proto ≠ [] →
      (Initialize E s d).2.1.Head.Proto = s.Head.Proto) ∧
    (lastGiven UrlParts.setsHostname (headUrls s.Init) = none → s.Head.Hostname ≠ [] →
      (Initialize E s d).2.1.Head.Hostname = s.Head.Hostname) := by
  obtain ⟨hp, hh⟩ := Initialize_head E s d h
  refine ⟨?_, ?_, ?_, ?_, ?_, ?_, ?_, ?_⟩
  · rw [hp]; split_ifs with h0
    · decide
    · exact h0
  · rw [hh]; split_ifs with h0
    · decide
    · exact h0
  · intro hn he; rw [hp, hn, Option.getD_none, if_pos he]
  · intro hn he; rw [hh, hn, Option.getD_none, if_pos he]
  · intro v hv
    obtain ⟨u, _, hu⟩ := lastGiven_some _ _ _ hv
    rw [hp, hv, Option.getD_some, if_neg (setsProto_ne u v hu)]
  · intro v hv
    obtain ⟨u, _, hu⟩ := lastGiven_some _ _ _ hv
    rw [hh, hv, Option.getD_some, if_neg (setsHostname_ne u v hu)]
  · intro hn he; rw [hp, hn, Option.getD_none, if_neg he]
  · intro hn he; rw [hh, hn, Option.getD_none, if_neg he]

/-- C12 at a segment with the command URL(":1"), which gives neither proto nor
host name, and at one with URL("udp://a"), which gives both. -/
theorem Initialize_head_defaults_witness :
    (Initialize Env.offline (Segment.zero [.mk URL false ":1".toList [] []]) ⟨[], ()⟩).1 = .ok ∧
    (Initialize Env.offline (Segment.zero [.mk URL false ":1".toList [] []])
      ⟨[], ()⟩).2.1.Head.Proto = "tcp".toList ∧
    (Initialize Env.offline (Segment.zero [.mk URL false ":1".toList [] []])
      ⟨[], ()⟩).2.1.Head.Hostname = "127.0.0.1".toList ∧
    (Initialize Env.offline (Segment.zero [.mk URL false "udp://a".toList [] []])
      ⟨[], ()⟩).2.1.Head.Proto = "udp".toList ∧
    (Initialize Env.offline (Segment.zero [.mk URL false "udp://a".toList [] []])
      ⟨[], ()⟩).2.1.Head.Hostname = "a".toList :=
  ⟨by decide,
    (Initialize_head_defaults Env.offline (Segment.zero [.mk URL false ":1".toList [] []])
      ⟨[], ()⟩ (by decide)).2.2.1 (by decide) rfl,
    (Initialize_head_defaults Env.offline (Segment.zero [.mk URL false ":1".toList [] []])
      ⟨[], ()⟩ (by decide)).2.2.2.1 (by decide) rfl,
    (Initialize_head_defaults Env.offline (Segment.zero [.mk URL false "udp://a".toList [] []])
      ⟨[], ()⟩ (by decide)).2.2.2.2.1 _ (by decide),
    (Initialize_head_defaults Env.offline (Segment.zero [.mk URL false "udp://a".toList [] []])
      ⟨[], ()⟩ (by decide)).2.2.2.2.2.1 _ (by decide)⟩

theorem Trigger_seg {W : Type} (E : Env W) (s : Segment) (d : Daemon W)
    (h : (executeLoop E s.Trig s d).res = .ok) :
    (Trigger E s d).2.1 = tailDefaults { (executeLoop E s.Trig s d).seg with Trig := [] } ∧
    (Trigger E s d).2.2 = (executeLoop E s.Trig s d).daemon := by
  unfold Trigger finishTrigger
  simp only [h]
  split
  · exact ⟨rfl, rfl⟩
  · split <;> exact ⟨rfl, rfl⟩

theorem Trigger_not_ok {W : Type} (E : Env W) (s : Segment) (d : Daemon W)
    (h : (executeLoop E s.Trig s d).res ≠ .ok) :
    Trigger E s d = ((executeLoop E s.Trig s d).res,
      { (executeLoop E s.Trig s d).seg with Trig := (executeLoop E s.Trig s d).array },
      (executeLoop E s.Trig s d).daemon) := by
  unfold Trigger finishTrigger
  cases hr : (executeLoop E s.Trig s d).res with
  | ok => exact absurd hr h
  | fail e => rfl
  | panic => rfl

theorem tailDefaults_spec (s : Segment) :
    (tailDefaults s).Head = s.Head ∧ (tailDefaults s).Tail.Ns = s.Tail.Ns ∧
    (tailDefaults s).Init = s.Init ∧ (tailDefaults s).Trig = s.Trig ∧
    (tailDefaults s).ChildHost = s.ChildHost ∧ (tailDefaults s).ChildId = s.ChildId ∧
    (tailDefaults s).Proxy = s.Proxy ∧ (tailDefaults s).DockerIds = s.DockerIds ∧
    (tailDefaults s).Tail.Proto = (if s.Tail.Proto = [] then s.Head.Proto else s.Tail.Proto) ∧
    (tailDefaults s).Tail.Hostname =
      (if s.Tail.Hostname = [] then "127.0.0.1".toList else s.Tail.Hostname) ∧
    (tailDefaults s).Tail.Port = (if s.Tail.Port = 0 then s.Head.Port else s.Tail.Port) := by
  unfold tailDefaults
  simp only
  split_ifs <;> simp_all

/-- C13, as stated, fails in two ways. A tail without host name gets the host
name 127.0.0.1, not the one of the head: from the head tcp://10.0.0.1:9000
`Trigger` leaves the tail tcp://127.0.0.1:9000. And when a command of `Trig`
fails, `Trigger` returns before the defaults: after the URL("a:b:c") that does
not parse, the tail has neither the proto nor the port of the head. -/
theorem Trigger_tail_hostname_not_from_head :
    ((Trigger Env.offline
      { Segment.zero [] with Head := ⟨"tcp".toList, 0, "10.0.0.1".toList, 9000⟩ }
      ⟨[], ()⟩).1 = .ok ∧
    (Trigger Env.offline
      { Segment.zero [] with Head := ⟨"tcp".toList, 0, "10.0.0.1".toList, 9000⟩ }
      ⟨[], ()⟩).2.1.Head = ⟨"tcp".toList, 0, "10.0.0.1".toList, 9000⟩ ∧
    (Trigger Env.offline
      { Segment.zero [] with Head := ⟨"tcp".toList, 0, "10.0.0.1".toList, 9000⟩ }
      ⟨[], ()⟩).2.1.Tail = ⟨"tcp".toList, 0, "127.0.0.1".toList, 9000⟩) ∧
    ((Trigger Env.offline
      { Segment.zero [] with Head := ⟨"tcp".toList, 0, "10.0.0.1".toList, 9000⟩,
                             Trig := [.mk URL true "a:b:c".toList [] []] }
      ⟨[], ()⟩).1 = .fail (.url .multiplePorts) ∧
    (Trigger Env.offline
      { Segment.zero [] with Head := ⟨"tcp".toList, 0, "10.0.0.1".toList, 9000⟩,
                             Trig := [.mk URL true "a:b:c".toList [] []] }
      ⟨[], ()⟩).2.1.Tail = ⟨[], 0, [], 0⟩) := by
  decide

/-- C13, amended. After a `Segment.Trigger` whose commands have all run without
error, a proto of the tail that no command set (an empty one) is the proto of
the head, a port of the tail that no command set (the port 0) is the port of
the head, and a host name of the tail that no command set is 127.0.0.1. A
field of the tail that the commands set is kept, and the head is as the
commands left it. -/
theorem Trigger_tail_defaults {W : Type} (E : Env W) (s : Segment) (d : Daemon W)
    (h : (executeLoop E s.Trig s d).res = .ok) :
    ((executeLoop E s.Trig s d).seg.Tail.Proto = [] →
      (Trigger E s d).2.1.Tail.Proto = (Trigger E s d).2.1.Head.Proto) ∧
    ((executeLoop E s.Trig s d).seg.Tail.Port = 0 →
      (Trigger E s d).2.1.Tail.Port = (Trigger E s d).2.1.Head.Port) ∧
    ((executeLoop E s.Trig s d).seg.Tail.Hostname = [] →
      (Trigger E s d).2.1.Tail.Hostname = "127.0.0.1".toList) ∧
    ((executeLoop E s.Trig s d).seg.Tail.Proto ≠ [] →
      (Trigger E s d).2.1.Tail.Proto = (executeLoop E s.Trig s d).seg.Tail.Proto) ∧
    ((executeLoop E s.Trig s d).seg.Tail.Port ≠ 0 →
      (Trigger E s d).2.1.Tail.Port = (executeLoop E s.Trig s d).seg.Tail.Port) ∧
    ((executeLoop E s.Trig s d).seg.Tail.Hostname ≠ [] →
      (Trigger E s d).2.1.Tail.Hostname = (executeLoop E s.Trig s d).seg.Tail.Hostname) ∧
    (Trigger E s d).2.1.Head = (executeLoop E s.Trig s d).seg.Head := by
  rw [(Trigger_seg E s d h).1]
  obtain ⟨hH, _, _, _, _, _, _, _, hp, hh, hport⟩ :=
    tailDefaults_spec { (executeLoop E s.Trig s d).seg with Trig := [] }
  rw [hH, hp, hh, hport]
  refine ⟨fun e => if_pos e, fun e => if_pos e, fun e => if_pos e, fun e => if_neg e,
    fun e => if_neg e, fun e => if_neg e, rfl⟩

/-- C13 at a segment with the head udp://10.0.0.1:9000 and the command
URL("b") for the tail: the tail is udp://b:9000. -/
theorem Trigger_tail_defaults_witness :
    (executeLoop Env.offline [.mk URL true "b".toList [] []]
      { Segment.zero [] with Head := ⟨"udp".toList, 0, "10.0.0.1".toList, 9000⟩,
                             Trig := [.mk URL true "b".toList [] []] } ⟨[], ()⟩).res = .ok ∧
    (Trigger Env.offline
      { Segment.zero [] with Head := ⟨"udp".toList, 0, "10.0.0.1".toList, 9000⟩,
                             Trig := [.mk URL true "b".toList [] []] } ⟨[], ()⟩).2.1.Tail.Proto
      = "udp".toList ∧
    (Trigger Env.offline
      { Segment.zero [] with Head := ⟨"udp".toList, 0, "10.0.0.1".toList, 9000⟩,
                             Trig := [.mk URL true "b".toList [] []] } ⟨[], ()⟩).2.1.Tail.Port
      = 9000 ∧
    (Trigger Env.offline
      { Segment.zero [] with Head := ⟨"udp".toList, 0, "10.0.0.1".toList, 9000⟩,
                             Trig := [.mk URL true "b".toList [] []] } ⟨[], ()⟩).2.1.Tail.Hostname
      = "b".toList :=
  ⟨by decide,
    ((Trigger_tail_defaults Env.offline
      { Segment.zero [] with Head := ⟨"udp".toList, 0, "10.0.0.1".toList, 9000⟩,
                             Trig := [.mk URL true "b".toList [] []] } ⟨[], ()⟩
      (by decide)).1 (by decide)).trans (by decide),
    ((Trigger_tail_defaults Env.offline
      { Segment.zero [] with Head := ⟨"udp".toList, 0, "10.0.0.1".toList, 9000⟩,
                             Trig := [.mk URL true "b".toList [] []] } ⟨[], ()⟩
      (by decide)).2.1 (by decide)).trans (by decide),
    ((Trigger_tail_defaults Env.offline
      { Segment.zero [] with Head := ⟨"udp".toList, 0, "10.0.0.1".toList, 9000⟩,
                             Trig := [.mk URL true "b".toList [] []] } ⟨[], ()⟩
      (by decide)).2.2.2.2.2.1 (by decide)).trans (by decide)⟩

theorem hostEqual_same {W : Type} (E : Env W) (proto h : Str) (w : W) :
    hostEqual E proto h h w = some true := by
  unfold hostEqual
  rw [if_pos rfl]

theorem NsHandle.Equal_same {W : Type} (E : Env W) (ns : NsHandle) (w : W) :
    NsHandle.Equal E ns ns w = true := by
  unfold NsHandle.Equal
  rw [if_pos rfl]

/-- The result of `Trigger` after commands without error, by its last test. -/
theorem Trigger_res {W : Type} (E : Env W) (s : Segment) (d : Daemon W)
    (h : (executeLoop E s.Trig s d).res = .ok) :
    (Trigger E s d).1 =
      match hostEqual E (Trigger E s d).2.1.Head.Proto
        (JoinHostPort (Trigger E s d).2.1.Head.Hostname (fmtInt (Trigger E s d).2.1.Head.Port))
        (JoinHostPort (Trigger E s d).2.1.Tail.Hostname (fmtInt (Trigger E s d).2.1.Tail.Port))
        (Trigger E s d).2.2.world with
      | none => .panic
      | some eq =>
        if (eq && NsHandle.Equal E (Trigger E s d).2.1.Head.Ns (Trigger E s d).2.1.Tail.Ns
          (Trigger E s d).2.2.world) = true then .fail .selfProxy
        else .ok := by
  rw [(Trigger_seg E s d h).1, (Trigger_seg E s d h).2]
  unfold Trigger finishTrigger
  simp only [h]
  split
  · rfl
  · split <;> rfl

/-- C14, as stated, fails: a segment with a head URL and no tail command need
not fail at trigger time. With the head URL "10.0.0.1:9000" the tail gets the
host name 127.0.0.1, head and tail differ, and `Trigger` returns no error. -/
theorem Trigger_head_url_with_host_succeeds :
    (Initialize Env.offline (newSegmentFor [.mk URL false "10.0.0.1:9000".toList [] []] [] none)
      ⟨[], ()⟩).1 = .ok ∧
    (Trigger Env.offline
      (Initialize Env.offline
        (newSegmentFor [.mk URL false "10.0.0.1:9000".toList [] []] [] none) ⟨[], ()⟩).2.1
      ⟨[], ()⟩).1 = .ok ∧
    (Trigger Env.offline
      (Initialize Env.offline
        (newSegmentFor [.mk URL false "10.0.0.1:9000".toList [] []] [] none) ⟨[], ()⟩).2.1
      ⟨[], ()⟩).2.1.Head = ⟨"tcp".toList, NsNone, "10.0.0.1".toList, 9000⟩ ∧
    (Trigger Env.offline
      (Initialize Env.offline
        (newSegmentFor [.mk URL false "10.0.0.1:9000".toList [] []] [] none) ⟨[], ()⟩).2.1
      ⟨[], ()⟩).2.1.Tail = ⟨"tcp".toList, NsNone, "127.0.0.1".toList, 9000⟩ := by
  decide

/-- C14, amended. For every segment whose head and tail, after the commands of
`Trig` have run without error and the defaults of the tail are applied, have
the same namespace, host name and port, `Segment.Trigger` fails with "Cannot
proxy to self". In particular a segment without tail command and without a
tail of its own whose head has the host name 127.0.0.1, as after a head URL
that names no host, fails at trigger time: so does the segment created with
the head URL ":9000". -/
theorem Trigger_self_proxy :
    (∀ (W : Type) (E : Env W) (s : Segment) (d : Daemon W),
      (executeLoop E s.Trig s d).res = .ok →
      (Trigger E s d).2.1.Head.Ns = (Trigger E s d).2.1.Tail.Ns →
      (Trigger E s d).2.1.Head.Hostname = (Trigger E s d).2.1.Tail.Hostname →
      (Trigger E s d).2.1.Head.Port = (Trigger E s d).2.1.Tail.Port →
      (Trigger E s d).1 = .fail .selfProxy) ∧
    (∀ (W : Type) (E : Env W) (s : Segment) (d : Daemon W),
      s.Trig = [] → s.Tail = ⟨[], s.Head.Ns, [], 0⟩ → s.Head.Hostname = "127.0.0.1".toList →
      (Trigger E s d).1 = .fail .selfProxy) ∧
    (∀ (W : Type) (E : Env W) (d : Daemon W),
      (Initialize E (newSegmentFor [.mk URL false ":9000".toList [] []] [] none) d).1 = .ok ∧
      (Trigger E
        (Initialize E (newSegmentFor [.mk URL false ":9000".toList [] []] [] none) d).2.1
        d).1 = .fail .selfProxy) := by
  have main : ∀ (W : Type) (E : Env W) (s : Segment) (d : Daemon W),
      (executeLoop E s.Trig s d).res = .ok →
      (Trigger E s d).2.1.Head.Ns = (Trigger E s d).2.1.Tail.Ns →
      (Trigger E s d).2.1.Head.Hostname = (Trigger E s d).2.1.Tail.Hostname →
      (Trigger E s d).2.1.Head.Port = (Trigger E s d).2.1.Tail.Port →
      (Trigger E s d).1 = .fail .selfProxy := by
    intro W E s d h hn hh hp
    rw [Trigger_res E s d h, hn, hh, hp, hostEqual_same, NsHandle.Equal_same]
    rfl
  have second : ∀ (W : Type) (E : Env W) (s : Segment) (d : Daemon W),
      s.Trig = [] → s.Tail = ⟨[], s.Head.Ns, [], 0⟩ → s.Head.Hostname = "127.0.0.1".toList →
      (Trigger E s d).1 = .fail .selfProxy := by
    intro W E s d ht htail hhost
    have hok : (executeLoop E s.Trig s d).res = .ok := by rw [ht, executeLoop_nil]
    have hs : (Trigger E s d).2.1 = tailDefaults { s with Trig := [] } := by
      rw [(Trigger_seg E s d hok).1, ht, executeLoop_nil]
    obtain ⟨hH, hN, _, _, _, _, _, _, _, hh, hport⟩ := tailDefaults_spec { s with Trig := [] }
    apply main W E s d hok
    · rw [hs, hH, hN]; simp only; rw [htail]
    · rw [hs, hH, hh]; simp only; rw [htail]; simp only [if_true]; exact hhost
    · rw [hs, hH, hport]; simp only; rw [htail]; simp only [if_true]
  refine ⟨main, second, ?_⟩
  intro W E d
  exact ⟨rfl, second W E _ d rfl rfl rfl⟩

/-- C14 at the segment with the head tcp://127.0.0.1:9000 in the namespace 5
and an empty tail in the same namespace. -/
theorem Trigger_self_proxy_witness :
    (Trigger Env.offline
      { Segment.zero [] with Head := ⟨"tcp".toList, 5, "127.0.0.1".toList, 9000⟩,
                             Tail := ⟨[], 5, [], 0⟩ } ⟨[], ()⟩).1 = .fail .selfProxy ∧
    (Trigger Env.offline
      { Segment.zero [] with Head := ⟨"tcp".toList, 5, "h".toList, 9000⟩,
                             Tail := ⟨"udp".toList, 5, "h".toList, 9000⟩ } ⟨[], ()⟩).1 =
        .fail .selfProxy :=
  ⟨Trigger_self_proxy.2.1 Unit Env.offline
      { Segment.zero [] with Head := ⟨"tcp".toList, 5, "127.0.0.1".toList, 9000⟩,
                             Tail := ⟨[], 5, [], 0⟩ } ⟨[], ()⟩ rfl rfl rfl,
    Trigger_self_proxy.1 Unit Env.offline
      { Segment.zero [] with Head := ⟨"tcp".toList, 5, "h".toList, 9000⟩,
                             Tail := ⟨"udp".toList, 5, "h".toList, 9000⟩ } ⟨[], ()⟩
      (by decide) (by decide) (by decide) (by decide)⟩

theorem tailDefaults_idem (s : Segment) : tailDefaults (tailDefaults s) = tailDefaults s := by
  obtain ⟨⟨hp, hn, hh, hport⟩, ⟨tp, tn, th, tport⟩, i, t, ch, cid, px, dk⟩ := s
  unfold tailDefaults
  simp only
  by_cases h1 : tp = [] <;> by_cases h2 : th = [] <;> by_cases h3 : tport = 0 <;>
    by_cases h4 : hp = [] <;> by_cases h5 : hport = 0 <;> simp [h1, h2, h3, h4, h5]

theorem tailDefaults_Trig (s : Segment) :
    { tailDefaults s with Trig := [] } = tailDefaults { s with Trig := [] } := by
  unfold tailDefaults
  simp only
  split_ifs <;> rfl

/-- A `Trigger` after a `Trigger` whose commands ran without error executes
nothing and ends as the first. -/
theorem Trigger_fix {W : Type} (E : Env W) (s : Segment) (d : Daemon W)
    (h : (executeLoop E s.Trig s d).res = .ok) :
    Trigger E (Trigger E s d).2.1 (Trigger E s d).2.2 = Trigger E s d := by
  have ht : (Trigger E s d).2.1.Trig = [] := by
    rw [(Trigger_seg E s d h).1, (tailDefaults_spec _).2.2.2.1]
  have hok : (executeLoop E (Trigger E s d).2.1.Trig (Trigger E s d).2.1 (Trigger E s d).2.2).res
      = .ok := by rw [ht, executeLoop_nil]
  have h1 : (Trigger E (Trigger E s d).2.1 (Trigger E s d).2.2).2.1 = (Trigger E s d).2.1 := by
    rw [(Trigger_seg E _ _ hok).1, ht, executeLoop_nil]
    simp only
    rw [← tailDefaults_Trig, (Trigger_seg E s d h).1, tailDefaults_idem, tailDefaults_Trig]
  have h2 : (Trigger E (Trigger E s d).2.1 (Trigger E s d).2.2).2.2 = (Trigger E s d).2.2 := by
    rw [(Trigger_seg E _ _ hok).2, ht, executeLoop_nil]
  have h3 : (Trigger E (Trigger E s d).2.1 (Trigger E s d).2.2).1 = (Trigger E s d).1 := by
    rw [Trigger_res E _ _ hok, h1, h2, ← Trigger_res E s d h]
  exact Prod.ext h3 (Prod.ext h1 h2)

theorem NextEndpoint_state {W : Type} (E : Env W) (s : Segment) (d : Daemon W) :
    (NextEndpoint E s d).2 = (Trigger E s d).2 ∧
    (NextEndpoint E s d).1.err = (Trigger E s d).1 := by
  unfold NextEndpoint
  generalize Trigger E s d = T
  obtain ⟨res, s1, d1⟩ := T
  cases res <;> exact ⟨rfl, rfl⟩

/-- A `NextEndpoint` after a `NextEndpoint` whose commands ran without error
executes nothing and returns what the first returned. -/
theorem NextEndpoint_fix {W : Type} (E : Env W) (s : Segment) (d : Daemon W)
    (h : (executeLoop E s.Trig s d).res = .ok) :
    NextEndpoint E (NextEndpoint E s d).2.1 (NextEndpoint E s d).2.2 = NextEndpoint E s d := by
  have hs := (NextEndpoint_state E s d).1
  have h1 : (NextEndpoint E s d).2.1 = (Trigger E s d).2.1 := by rw [hs]
  have h2 : (NextEndpoint E s d).2.2 = (Trigger E s d).2.2 := by rw [hs]
  rw [h1, h2]
  unfold NextEndpoint
  rw [Trigger_fix E s d h]

theorem NextEndpoints_fix {W : Type} (E : Env W) (s : Segment) (d : Daemon W) (e : Endpoint)
    (h : NextEndpoint E s d = (e, s, d)) (n : Nat) :
    NextEndpoints E n s d = (List.replicate n e, s, d) := by
  induction n with
  | zero => rfl
  | succ n ih =>
    rw [NextEndpoints, h]
    simp only
    rw [ih]
    rfl

/-- C15, as stated, fails: when a command of `Trig` fails, the next call of
`NextEndpoint` executes the commands again from the first. With `Trig` =
DOCKER_NS("c"), URL("a:b:c"), where the URL does not parse, each of two calls
returns the error, keeps `Trig`, and looks the container up: the first command
has been executed twice. -/
theorem NextEndpoint_runs_failed_trigger_again :
    (NextEndpoints Env.counting 1
      { Segment.zero [] with Trig := [.mk DOCKER_NS true "c".toList [] [],
                                      .mk URL true "a:b:c".toList [] []] } ⟨[], 0⟩).2.2.world = 1 ∧
    (NextEndpoints Env.counting 2
      { Segment.zero [] with Trig := [.mk DOCKER_NS true "c".toList [] [],
                                      .mk URL true "a:b:c".toList [] []] } ⟨[], 0⟩).2.2.world = 2 ∧
    (NextEndpoints Env.counting 2
      { Segment.zero [] with Trig := [.mk DOCKER_NS true "c".toList [] [],
                                      .mk URL true "a:b:c".toList [] []] } ⟨[], 0⟩).1 =
        [⟨NsNone, [], .fail (.url .multiplePorts)⟩, ⟨NsNone, [], .fail (.url .multiplePorts)⟩] ∧
    (NextEndpoints Env.counting 2
      { Segment.zero [] with Trig := [.mk DOCKER_NS true "c".toList [] [],
                                      .mk URL true "a:b:c".toList [] []] } ⟨[], 0⟩).2.1.Trig =
        [.mk DOCKER_NS true "c".toList [] [], .mk URL true "a:b:c".toList [] []] := by
  decide

/-- C15, amended. Over any sequence of `NextEndpoint` calls on one segment: once
a call has executed the commands of `Trig` without error, `Trig` is empty and
every later call executes no command, leaves the segment and the daemon as they
are and returns what that call returned, the tail it resolved or its error.
When a command of `Trig` fails, the call returns the error and `Trig` keeps its
commands for the next call. -/
theorem NextEndpoint_once {W : Type} (E : Env W) (s : Segment) (d : Daemon W) :
    ((executeLoop E s.Trig s d).res = .ok →
      (NextEndpoint E s d).2.1.Trig = [] ∧
      ∀ n : Nat, NextEndpoints E (n + 1) s d =
        (List.replicate (n + 1) (NextEndpoint E s d).1,
          (NextEndpoint E s d).2.1, (NextEndpoint E s d).2.2)) ∧
    ((executeLoop E s.Trig s d).res ≠ .ok →
      (NextEndpoint E s d).1.err ≠ .ok ∧
      (NextEndpoint E s d).2.1.Trig.length = s.Trig.length ∧
      (NextEndpoint E s d).2.1.Trig ≠ []) := by
  constructor
  · intro h
    constructor
    · rw [(NextEndpoint_state E s d).1, (Trigger_seg E s d h).1, (tailDefaults_spec _).2.2.2.1]
    · intro n
      rw [NextEndpoints]
      have hf := NextEndpoints_fix E (NextEndpoint E s d).2.1 (NextEndpoint E s d).2.2
        (NextEndpoint E s d).1 (NextEndpoint_fix E s d h) n
      generalize NextEndpoint E s d = N at hf ⊢
      obtain ⟨e, s1, d1⟩ := N
      simp only at hf ⊢
      rw [hf]
      rfl
  · intro h
    have ht := Trigger_not_ok E s d h
    have hlen : (NextEndpoint E s d).2.1.Trig.length = s.Trig.length := by
      rw [(NextEndpoint_state E s d).1, ht]
      exact executeLoop_length E s.Trig s d
    refine ⟨?_, hlen, ?_⟩
    · rw [(NextEndpoint_state E s d).2, ht]
      exact h
    · intro e
      rw [e] at hlen
      have hnil : s.Trig = [] := List.length_eq_zero.mp hlen.symm
      apply h
      rw [hnil, executeLoop_nil]

/-- C15 at a segment whose `Trig` looks a container up: over three calls the
container is looked up once. -/
theorem NextEndpoint_once_witness :
    (executeLoop Env.counting [.mk DOCKER_NS true "c".toList [] []]
      { Segment.zero [] with Head := ⟨"tcp".toList, 0, "127.0.0.1".toList, 9000⟩,
                             Trig := [.mk DOCKER_NS true "c".toList [] []] } ⟨[], 0⟩).res = .ok ∧
    (NextEndpoints Env.counting 3
      { Segment.zero [] with Head := ⟨"tcp".toList, 0, "127.0.0.1".toList, 9000⟩,
                             Trig := [.mk DOCKER_NS true "c".toList [] []] } ⟨[], 0⟩).2.2.world = 1 ∧
    (NextEndpoints Env.counting 3
      { Segment.zero [] with Head := ⟨"tcp".toList, 0, "127.0.0.1".toList, 9000⟩,
                             Trig := [.mk DOCKER_NS true "c".toList [] []] } ⟨[], 0⟩).1 =
        List.replicate 3 ⟨7, "127.0.0.1:9000".toList, .ok⟩ :=
  ⟨by decide,
    (congrArg (fun r => r.2.2.world)
      (((NextEndpoint_once Env.counting
        { Segment.zero [] with Head := ⟨"tcp".toList, 0, "127.0.0.1".toList, 9000⟩,
                               Trig := [.mk DOCKER_NS true "c".toList [] []] } ⟨[], 0⟩).1
        (by decide)).2 2)).trans (by decide),
    (congrArg (fun r => r.1)
      (((NextEndpoint_once Env.counting
        { Segment.zero [] with Head := ⟨"tcp".toList, 0, "127.0.0.1".toList, 9000⟩,
                               Trig := [.mk DOCKER_NS true "c".toList [] []] } ⟨[], 0⟩).1
        (by decide)).2 2)).trans (by decide)⟩

theorem grows_of_eq {W : Type} (E : Env W) (d d' : Daemon W) (h : d'.segments = d.segments) :
    Daemon.grows E d d' := by
  intro key
  left
  unfold getSegment
  rw [h]

theorem grows_trans {W : Type} (E : Env W) (d d1 d2 : Daemon W) (h1 : Daemon.grows E d d1)
    (h2 : Daemon.grows E d1 d2) : Daemon.grows E d d2 := by
  intro key
  rcases h2 key with e2 | ⟨n2, u2⟩
  · rcases h1 key with e1 | ⟨n1, u1⟩
    · left; rw [e2, e1]
    · right; exact ⟨n1, u1⟩
  · rcases h1 key with e1 | ⟨n1, u1⟩
    · right; exact ⟨by rw [← e1, n2], u2⟩
    · right; exact ⟨n1, u1⟩

theorem getSegment_addSegment {W : Type} (d : Daemon W) (id key : Str) (s : Segment) :
    getSegment (addSegment d id s) key = if key = id then some s else getSegment d key := by
  unfold getSegment addSegment
  simp only [List.lookup_cons]
  by_cases h : key = id
  · simp [h]
  · have hb : (key == id) = false := by simpa using h
    rw [hb, if_neg h]
    simp only
    induction d.segments with
    | nil => rfl
    | cons e l ih =>
      by_cases he : e.1 = id
      · rw [List.filter_cons_of_neg (by simpa using he)]
        rw [ih]
        obtain ⟨k, v⟩ := e
        simp only at he
        rw [List.lookup_cons]
        have : (key == k) = false := by rw [he]; exact hb
        rw [this]
      · rw [List.filter_cons_of_pos (by simpa using he)]
        obtain ⟨k, v⟩ := e
        rw [List.lookup_cons, List.lookup_cons, ih]

theorem executeDockerNs_segments {W : Type} (E : Env W) (c : SegmentCommand) (seg : Segment)
    (d : Daemon W) : (executeDockerNs E c seg d).daemon.segments = d.segments := by
  unfold executeDockerNs
  rfl

theorem executeDockerRun_segments {W : Type} (E : Env W) (c : SegmentCommand) (seg : Segment)
    (d : Daemon W) : (executeDockerRun E c seg d).daemon.segments = d.segments := by
  unfold executeDockerRun
  simp only
  split <;> rfl

theorem createRemoteSegment_segments {W : Type} (E : Env W) (k : Conn) (c : SegmentCommand)
    (seg : Segment) (d : Daemon W) :
    (createRemoteSegment E k c seg d).daemon.segments = d.segments := by
  unfold createRemoteSegment
  simp only
  split
  · rfl
  · split <;> rfl

theorem executeRemote_segments {W : Type} (E : Env W) (c : SegmentCommand) (seg : Segment)
    (d : Daemon W) : (executeRemote E c seg d).daemon.segments = d.segments := by
  unfold executeRemote
  split
  · rfl
  · rfl
  · split
    · rfl
    · exact createRemoteSegment_segments _ _ _ _ _

theorem executeTunnel_segments {W : Type} (E : Env W) (c : SegmentCommand) (seg : Segment)
    (udp : Bool) (d : Daemon W) : (executeTunnel E c seg udp d).daemon.segments = d.segments := by
  unfold executeTunnel
  split
  · rfl
  · rfl
  · simp only
    split
    · rfl
    · rfl
    · exact createRemoteSegment_segments _ _ _ _ _

theorem finishChild_daemon {W : Type} (c : SegmentCommand) (seg : Segment) (chain : Bool)
    (id : Str) (array : List SegmentCommand) (r : Outcome × Option ConnectionInfo × Daemon W) :
    (finishChild c seg chain id array r).daemon = r.2.2 := by
  unfold finishChild
  split <;> rfl

theorem finishInitialize_daemon {W : Type} (r : Exec W) :
    (finishInitialize r).2.2 = r.daemon := by
  unfold finishInitialize
  split <;> rfl

/-- The registry after `finishCreateSegmentLocal`: with the new segment in it
when the result is `nil`, as it was otherwise. -/
theorem finishCreateSegmentLocal_daemon {W : Type} (E : Env W) (id : Str)
    (r : Outcome × Segment × Daemon W) :
    ((finishCreateSegmentLocal E id r).1 ≠ .ok ∧
      (finishCreateSegmentLocal E id r).2.2.segments = r.2.2.segments) ∨
    ((finishCreateSegmentLocal E id r).1 = .ok ∧
      ∃ s, (finishCreateSegmentLocal E id r).2.2.segments =
        (addSegment r.2.2 id s).segments) := by
  obtain ⟨res, s, d⟩ := r
  cases res with
  | ok =>
    unfold finishCreateSegmentLocal
    simp only
    split
    · left; exact ⟨by simp, rfl⟩
    · right; exact ⟨rfl, _, rfl⟩
  | fail e => left; exact ⟨by simp [finishCreateSegmentLocal], rfl⟩
  | panic => left; exact ⟨by simp [finishCreateSegmentLocal], rfl⟩

theorem grows_addSegment {W : Type} (E : Env W) (d : Daemon W) (w : W) (s : Segment)
    (h : getSegment d (Uuid (E.randRead w).1) = none) :
    Daemon.grows E d (addSegment d (Uuid (E.randRead w).1) s) := by
  intro key
  rw [getSegment_addSegment]
  by_cases hk : key = Uuid (E.randRead w).1
  · right
    rw [hk]
    exact ⟨h, w, rfl⟩
  · left
    rw [if_neg hk]

theorem grows_world {W : Type} (E : Env W) (d : Daemon W) (w : W) :
    Daemon.grows E d { d with world := w } :=
  grows_of_eq E _ _ rfl

mutual
/-- No command takes an entry out of the registry or changes one. -/
theorem executeCommand_grows {W : Type} (E : Env W) :
    ∀ (c : SegmentCommand) (seg : Segment) (d : Daemon W),
      Daemon.grows E d (executeCommand E c seg d).daemon
  | .mk t l a ci ct, seg, d => by
    rw [executeCommand]
    by_cases h0 : t = NONE
    · rw [if_pos h0]; exact grows_of_eq E _ _ rfl
    rw [if_neg h0]
    by_cases h1 : t = DOCKER_NS
    · rw [if_pos h1]; exact grows_of_eq E _ _ (executeDockerNs_segments _ _ _ _)
    rw [if_neg h1]
    by_cases h2 : t = DOCKER_RUN
    · rw [if_pos h2]; exact grows_of_eq E _ _ (executeDockerRun_segments _ _ _ _)
    rw [if_neg h2]
    by_cases h3 : t = CHILD ∨ t = CHAIN
    · rw [if_pos h3]
      simp only
      cases hg : getSegment { d with world := (E.randRead d.world).2 }
          (Uuid (E.randRead d.world).1) with
      | some s0 =>
        simp only
        rw [finishChild_daemon]
        exact grows_world E d _
      | none =>
        simp only
        rw [finishChild_daemon]
        have ih := executeLoop_grows E ci (newSegmentFor ci ct (some seg.Tail))
          { d with world := (E.randRead d.world).2 }
        have hfi := finishInitialize_daemon (executeLoop E ci (newSegmentFor ci ct (some seg.Tail))
          { d with world := (E.randRead d.world).2 })
        have hg' : getSegment d (Uuid (E.randRead d.world).1) = none := hg
        rcases finishCreateSegmentLocal_daemon E (Uuid (E.randRead d.world).1)
          (finishInitialize (executeLoop E ci (newSegmentFor ci ct (some seg.Tail))
            { d with world := (E.randRead d.world).2 })) with ⟨_, hs⟩ | ⟨_, s, hs⟩
        · rw [hfi] at hs
          exact grows_trans E d _ _
            (grows_trans E d _ _ (grows_world E d (E.randRead d.world).2) ih)
            (grows_of_eq E _ _ hs)
        · rw [hfi] at hs
          have step : Daemon.grows E { d with world := (E.randRead d.world).2 }
              (finishCreateSegmentLocal E (Uuid (E.randRead d.world).1)
                (finishInitialize (executeLoop E ci (newSegmentFor ci ct (some seg.Tail))
                  { d with world := (E.randRead d.world).2 }))).2.2 := by
            intro key
            have e1 : getSegment (finishCreateSegmentLocal E (Uuid (E.randRead d.world).1)
                (finishInitialize (executeLoop E ci (newSegmentFor ci ct (some seg.Tail))
                  { d with world := (E.randRead d.world).2 }))).2.2 key =
                getSegment (addSegment (executeLoop E ci (newSegmentFor ci ct (some seg.Tail))
                  { d with world := (E.randRead d.world).2 }).daemon
                  (Uuid (E.randRead d.world).1) s) key := by
              unfold getSegment
              rw [hs]
            rw [e1, getSegment_addSegment]
            by_cases hk : key = Uuid (E.randRead d.world).1
            · right
              rw [hk]
              exact ⟨hg, d.world, rfl⟩
            · rw [if_neg hk]
              exact ih key
          exact grows_trans E d _ _ (grows_world E d (E.randRead d.world).2) step
    rw [if_neg h3]
    by_cases h4 : t = REMOTE
    · rw [if_pos h4]; exact grows_of_eq E _ _ (executeRemote_segments _ _ _ _)
    rw [if_neg h4]
    by_cases h5 : t = TUNNEL
    · rw [if_pos h5]; exact grows_of_eq E _ _ (executeTunnel_segments _ _ _ _ _)
    rw [if_neg h5]
    by_cases h6 : t = UDPTUNNEL
    · rw [if_pos h6]; exact grows_of_eq E _ _ (executeTunnel_segments _ _ _ _ _)
    rw [if_neg h6]
    by_cases h7 : t = URL
    · rw [if_pos h7]; exact grows_of_eq E _ _ (executeUrl_spec E _ seg d).2.1
    rw [if_neg h7]
    exact grows_of_eq E _ _ rfl
/-- No run of commands takes an entry out of the registry or changes one. -/
theorem executeLoop_grows {W : Type} (E : Env W) :
    ∀ (cs : List SegmentCommand) (seg : Segment) (d : Daemon W),
      Daemon.grows E d (executeLoop E cs seg d).daemon
  | [], seg, d => by rw [executeLoop_nil]; exact grows_of_eq E _ _ rfl
  | c :: cs, seg, d => by
    rw [executeLoop_cons]
    have hc := executeCommand_grows E c seg d
    split
    · exact grows_trans E _ _ _ hc (executeLoop_grows E cs _ _)
    · exact hc
end

theorem executeCommand_segments {W : Type} (E : Env W) (c : SegmentCommand) (seg : Segment)
    (d : Daemon W) (h : c.Typ ≠ CHILD ∧ c.Typ ≠ CHAIN) :
    (executeCommand E c seg d).daemon.segments = d.segments := by
  obtain ⟨t, l, a, ci, ct⟩ := c
  have h3 : ¬(t = CHILD ∨ t = CHAIN) := fun hc => hc.elim h.1 h.2
  rw [executeCommand]
  by_cases h0 : t = NONE
  · rw [if_pos h0]
  rw [if_neg h0]
  by_cases h1 : t = DOCKER_NS
  · rw [if_pos h1]; exact executeDockerNs_segments _ _ _ _
  rw [if_neg h1]
  by_cases h2 : t = DOCKER_RUN
  · rw [if_pos h2]; exact executeDockerRun_segments _ _ _ _
  rw [if_neg h2, if_neg h3]
  by_cases h4 : t = REMOTE
  · rw [if_pos h4]; exact executeRemote_segments _ _ _ _
  rw [if_neg h4]
  by_cases h5 : t = TUNNEL
  · rw [if_pos h5]; exact executeTunnel_segments _ _ _ _ _
  rw [if_neg h5]
  by_cases h6 : t = UDPTUNNEL
  · rw [if_pos h6]; exact executeTunnel_segments _ _ _ _ _
  rw [if_neg h6]
  by_cases h7 : t = URL
  · rw [if_pos h7]; exact (executeUrl_spec E _ seg d).2.1
  rw [if_neg h7]

theorem executeLoop_segments {W : Type} (E : Env W) (cs : List SegmentCommand) :
    ∀ (seg : Segment) (d : Daemon W), (∀ c ∈ cs, c.Typ ≠ CHILD ∧ c.Typ ≠ CHAIN) →
      (executeLoop E cs seg d).daemon.segments = d.segments := by
  induction cs with
  | nil => intro seg d _; rw [executeLoop_nil]
  | cons c cs ih =>
    intro seg d h
    rw [executeLoop_cons]
    have hc := executeCommand_segments E c seg d (h c (List.mem_cons_self _ _))
    split
    · simp only
      rw [ih _ _ (fun c' hc' => h c' (List.mem_cons_of_mem _ hc')), hc]
    · exact hc

/-- The registry after a `createSegmentLocal` that returns an error is the one
the commands of `init` left. -/
theorem createSegmentLocal_failure {W : Type} (E : Env W) (id : Str)
    (init trig : List SegmentCommand) (cinfo : Option ConnectionInfo) (d : Daemon W)
    (h : (createSegmentLocal E id init trig cinfo d).1 ≠ .ok) :
    (createSegmentLocal E id init trig cinfo d).2.2.segments = d.segments ∨
    (createSegmentLocal E id init trig cinfo d).2.2.segments =
      (executeLoop E init (newSegmentFor init trig cinfo) d).daemon.segments := by
  unfold createSegmentLocal at h ⊢
  cases hg : getSegment d id with
  | some s0 => left; rfl
  | none =>
    right
    rw [hg] at h
    simp only at h ⊢
    rcases finishCreateSegmentLocal_daemon E id (Initialize E (newSegmentFor init trig cinfo) d)
      with ⟨_, hs⟩ | ⟨hok, _⟩
    · rw [hs]
      unfold Initialize
      rw [finishInitialize_daemon]
      rfl
    · exact absurd hok h

/-- C16. `createSegmentLocal`, and `createSegment` through it, fails with
"Segment %s already exists" whenever a segment is registered under the
identifier. It executes no command: the daemon, with the registry, the segment
registered and the world outside, is as before. -/
theorem createSegment_existing {W : Type} (E : Env W) (id : Str)
    (init trig : List SegmentCommand) (cinfo : Option ConnectionInfo) (d : Daemon W)
    (seg : Segment) (h : getSegment d id = some seg) :
    createSegmentLocal E id init trig cinfo d = (.fail (.segmentExists id), none, d) ∧
    createSegment E id init trig d = (.fail (.segmentExists id), [], d) ∧
    getSegment (createSegment E id init trig d).2.2 id = some seg := by
  have h1 : createSegmentLocal E id init trig cinfo d = (.fail (.segmentExists id), none, d) := by
    unfold createSegmentLocal
    rw [h]
  have h2 : createSegment E id init trig d = (.fail (.segmentExists id), [], d) := by
    unfold createSegment createSegmentLocal
    rw [h]
  refine ⟨h1, h2, ?_⟩
  rw [h2]
  exact h

/-- C16 at a registry that holds the segment "foo": creating "foo" again with
a command fails and leaves the registry. -/
theorem createSegment_existing_witness :
    getSegment (W := Unit) ⟨[("foo".toList, NewSegment)], ()⟩ "foo".toList = some NewSegment ∧
    (createSegment Env.offline "foo".toList [.mk URL false ":1".toList [] []] []
      ⟨[("foo".toList, NewSegment)], ()⟩).1 = .fail (.segmentExists "foo".toList) ∧
    (createSegment Env.offline "foo".toList [.mk URL false ":1".toList [] []] []
      ⟨[("foo".toList, NewSegment)], ()⟩).2.2.segments = [("foo".toList, NewSegment)] :=
  ⟨rfl,
    congrArg (fun r => r.1)
      (createSegment_existing Env.offline "foo".toList [.mk URL false ":1".toList [] []] [] none
        ⟨[("foo".toList, NewSegment)], ()⟩ NewSegment rfl).2.1,
    congrArg (fun r => r.2.2.segments)
      (createSegment_existing Env.offline "foo".toList [.mk URL false ":1".toList [] []] [] none
        ⟨[("foo".toList, NewSegment)], ()⟩ NewSegment rfl).2.1⟩

/-- C17, as stated, fails: a child segment created by a CHILD command stays
registered when a later command of the same program fails. With `init` =
CHILD, URL("a:b:c") on an empty registry, `createSegment` returns the error of
the URL and leaves one segment registered, the child. -/
theorem createSegment_failure_keeps_child :
    (createSegment Env.offline "foo".toList
      [.mk CHILD false [] [] [], .mk URL false "a:b:c".toList [] []] [] ⟨[], ()⟩).1 =
        .fail (.url .multiplePorts) ∧
    (createSegment Env.offline "foo".toList
      [.mk CHILD false [] [] [], .mk URL false "a:b:c".toList [] []] []
      ⟨[], ()⟩).2.2.segments.map (fun e => e.1) =
        ["00000000-0000-4000-8000-000000000000".toList] := by
  decide

/-- C17, amended. Whenever `createSegmentLocal` returns an error, as when a
command fails during `Initialize`, the segment is not registered: every segment
registered before is registered as before, an identifier registered otherwise
is one drawn by `utils.Uuid` (for a child segment that a CHILD or CHAIN command
created before the failure, which stays registered), the identifier of the
call is as before unless it is such a drawn one, and without CHILD and CHAIN
commands in `init` the registry is the same as before the call. -/
theorem createSegment_failure_registry {W : Type} (E : Env W) (id : Str)
    (init trig : List SegmentCommand) (cinfo : Option ConnectionInfo) (d : Daemon W)
    (h : (createSegmentLocal E id init trig cinfo d).1 ≠ .ok) :
    (∀ key seg, getSegment d key = some seg →
      getSegment (createSegmentLocal E id init trig cinfo d).2.2 key = some seg) ∧
    (∀ key, getSegment (createSegmentLocal E id init trig cinfo d).2.2 key ≠ getSegment d key →
      getSegment d key = none ∧ ∃ w : W, key = Uuid (E.randRead w).1) ∧
    ((∀ w : W, Uuid (E.randRead w).1 ≠ id) →
      getSegment (createSegmentLocal E id init trig cinfo d).2.2 id = getSegment d id) ∧
    ((∀ c ∈ init, c.Typ ≠ CHILD ∧ c.Typ ≠ CHAIN) →
      (createSegmentLocal E id init trig cinfo d).2.2.segments = d.segments) := by
  have hg : ∀ key, getSegment (createSegmentLocal E id init trig cinfo d).2.2 key =
      getSegment d key ∨ (getSegment d key = none ∧ ∃ w : W, key = Uuid (E.randRead w).1) := by
    intro key
    rcases createSegmentLocal_failure E id init trig cinfo d h with hs | hs
    · left; unfold getSegment; rw [hs]
    · have := executeLoop_grows E init (newSegmentFor init trig cinfo) d key
      unfold getSegment at this ⊢
      rw [hs]
      exact this
  refine ⟨?_, ?_, ?_, ?_⟩
  · intro key seg hk
    rcases hg key with e | ⟨n, _⟩
    · rw [e, hk]
    · rw [hk] at n; cases n
  · intro key hne
    rcases hg key with e | r
    · exact absurd e hne
    · exact r
  · intro hu
    rcases hg id with e | ⟨_, w, hw⟩
    · exact e
    · exact absurd hw.symm (hu w)
  · intro hc
    rcases createSegmentLocal_failure E id init trig cinfo d h with hs | hs
    · exact hs
    · rw [hs, executeLoop_segments E init _ _ hc]

/-- C17 at the program URL(":1"), URL("a:b:c") on a registry that holds a
segment "bar": the call fails and the registry is as before. -/
theorem createSegment_failure_registry_witness :
    (createSegmentLocal Env.offline "foo".toList
      [.mk URL false ":1".toList [] [], .mk URL false "a:b:c".toList [] []] [] none
      ⟨[("bar".toList, NewSegment)], ()⟩).1 ≠ .ok ∧
    (createSegmentLocal Env.offline "foo".toList
      [.mk URL false ":1".toList [] [], .mk URL false "a:b:c".toList [] []] [] none
      ⟨[("bar".toList, NewSegment)], ()⟩).2.2.segments = [("bar".toList, NewSegment)] :=
  ⟨by decide,
    (createSegment_failure_registry Env.offline "foo".toList
      [.mk URL false ":1".toList [] [], .mk URL false "a:b:c".toList [] []] [] none
      ⟨[("bar".toList, NewSegment)], ()⟩ (by decide)).2.2.2 (by decide)⟩

theorem lookup_filter_ne {β : Type} (m : List (Str × β)) (k key : Str) :
    (m.filter (fun e => e.1 ≠ k)).lookup key = if key = k then none else m.lookup key := by
  induction m with
  | nil => simp
  | cons e l ih =>
    obtain ⟨a, v⟩ := e
    by_cases he : a = k
    · rw [List.filter_cons_of_neg (by simpa using he), ih, List.lookup_cons]
      by_cases hk : key = k
      · rw [if_pos hk, if_pos hk]
      · rw [if_neg hk, if_neg hk]
        have : (key == a) = false := by rw [he]; simpa using hk
        rw [this]
    · rw [List.filter_cons_of_pos (by simpa using he), List.lookup_cons, List.lookup_cons, ih]
      by_cases hk : key = k
      · have : (key == a) = false := by rw [hk]; simpa using (Ne.symm he)
        rw [this, if_pos hk]
      · simp only [if_neg hk]

theorem usedIP_insert (m : List (Str × Bool)) (k key : Str) :
    usedIP ((k, true) :: m.filter (fun e => e.1 ≠ k)) key = (decide (key = k) || usedIP m key) := by
  unfold usedIP
  rw [List.lookup_cons, lookup_filter_ne]
  by_cases hk : key = k
  · simp [hk]
  · have : (key == k) = false := by simpa using hk
    rw [this, if_neg hk]
    simp [hk]

theorem usedIP_erase (m : List (Str × Bool)) (k key : Str) :
    usedIP (m.filter (fun e => e.1 ≠ k)) key = (decide (key ≠ k) && usedIP m key) := by
  unfold usedIP
  rw [lookup_filter_ne]
  by_cases hk : key = k
  · simp [hk]
  · rw [if_neg hk]
    simp [hk]

/-- C18. `reserveIP(ip)` fails, with the error `IPInUse`, exactly when the
address is in `usedIPs` (under its text `ip.String()`), and then leaves
`usedIPs` as it is; otherwise it returns no error and adds exactly this
address. `unreserveIP(ip)` removes exactly this address, so that
`reserveIP(ip)` succeeds again after it. -/
theorem reserveIP_spec (String : IP → Str) (ip : IP) (usedIPs : List (Str × Bool)) :
    ((reserveIP String ip usedIPs).1 ≠ none ↔ usedIP usedIPs (String ip) = true) ∧
    (usedIP usedIPs (String ip) = true →
      reserveIP String ip usedIPs = (some (.ipInUse (String ip)), usedIPs)) ∧
    (usedIP usedIPs (String ip) = false →
      (reserveIP String ip usedIPs).1 = none ∧
      ∀ key, usedIP (reserveIP String ip usedIPs).2 key =
        (decide (key = String ip) || usedIP usedIPs key)) ∧
    (∀ key, usedIP (unreserveIP String ip usedIPs) key =
      (decide (key ≠ String ip) && usedIP usedIPs key)) ∧
    (reserveIP String ip (unreserveIP String ip usedIPs)).1 = none ∧
    usedIP (reserveIP String ip (unreserveIP String ip usedIPs)).2 (String ip) = true := by
  have hyes : usedIP usedIPs (String ip) = true →
      reserveIP String ip usedIPs = (some (.ipInUse (String ip)), usedIPs) := by
    intro h
    unfold reserveIP
    simp only [h, if_true]
  have hno : ∀ m : List (Str × Bool), usedIP m (String ip) = false →
      reserveIP String ip m = (none, (String ip, true) :: m.filter (fun e => e.1 ≠ String ip)) := by
    intro m h
    unfold reserveIP
    simp only [h, Bool.false_eq_true, if_false]
  have hun : usedIP (unreserveIP String ip usedIPs) (String ip) = false := by
    unfold unreserveIP
    rw [usedIP_erase]
    simp
  refine ⟨?_, hyes, ?_, ?_, ?_, ?_⟩
  · constructor
    · intro h
      by_contra hc
      rw [hno usedIPs (by simpa using hc)] at h
      exact h rfl
    · intro h
      rw [hyes h]
      simp
  · intro h
    rw [hno usedIPs h]
    exact ⟨rfl, fun key => usedIP_insert _ _ _⟩
  · intro key
    unfold unreserveIP
    exact usedIP_erase _ _ _
  · rw [hno _ hun]
  · rw [hno _ hun, usedIP_insert]
    simp

/-- C18 at the address 10.0.0.1, reserved once: the second `reserveIP` fails
and leaves `usedIPs`, and after `unreserveIP` the address is free. -/
theorem reserveIP_spec_witness :
    usedIP (reserveIP dotted [10, 0, 0, 1] []).2 (dotted [10, 0, 0, 1]) = true ∧
    reserveIP dotted [10, 0, 0, 1] (reserveIP dotted [10, 0, 0, 1] []).2 =
      (some (.ipInUse (dotted [10, 0, 0, 1])), (reserveIP dotted [10, 0, 0, 1] []).2) ∧
    usedIP (unreserveIP dotted [10, 0, 0, 1] (reserveIP dotted [10, 0, 0, 1] []).2)
      "10.0.0.1".toList = false :=
  ⟨by decide,
    (reserveIP_spec dotted [10, 0, 0, 1] (reserveIP dotted [10, 0, 0, 1] []).2).2.1 (by decide),
    ((reserveIP_spec dotted [10, 0, 0, 1] (reserveIP dotted [10, 0, 0, 1] []).2).2.2.2.1
      "10.0.0.1".toList).trans (by decide)⟩

theorem appendPorts_eq (n : Nat) : ∀ (p : Int) (q : List Int),
    appendPorts n p q = q ++ (List.range n).map (fun (i : Nat) => p + (i : Int)) := by
  induction n with
  | zero => intro p q; simp [appendPorts]
  | succ n ih =>
    intro p q
    rw [appendPorts, ih, List.range_succ_eq_map, List.append_assoc]
    simp only [List.singleton_append, List.map_cons, List.map_map, Nat.cast_zero, add_zero]
    congr 2
    apply List.map_congr_left
    intro i _
    simp only [Function.comp, Nat.cast_succ]
    ring

theorem runPorts_fifo (ops : List PortOp) : ∀ q : List Int,
    (runPorts ops q).1 ++ (runPorts ops q).2 = q ++ releasedPorts ops := by
  induction ops with
  | nil => intro q; simp [runPorts, releasedPorts]
  | cons op ops ih =>
    intro q
    cases op with
    | allocate =>
      cases q with
      | nil => simpa [runPorts, allocatePort, releasedPorts] using ih []
      | cons p rest =>
        simp only [runPorts, allocatePort, releasedPorts, List.cons_append]
        rw [ih]
    | release port =>
      simp only [runPorts, releasePort, releasedPorts]
      rw [ih, List.append_assoc]
      rfl

/-- C19. The pool of encap ports is a queue. `initTunnels` fills the empty
slice with the ports `udpStartPort`, `udpStartPort + 1`, ... up to
`udpEndPort`, in this order. `allocatePort` fails with "No ports available"
exactly when the slice is empty and otherwise takes its first element off and
returns it; `releasePort` puts the port at the end. So over any sequence of
calls the ports handed out, followed by the ports still in the slice, are the
ports the slice held at first followed by the ports released, in their order:
ports leave in the order in which they came in. With the range 4500-4599 of
the daemon the first port handed out is 4500. -/
theorem unusedPorts_fifo :
    (∀ udpStartPort udpEndPort : Int, udpEndPort < 2 ^ 63 - 1 →
      initUnusedPorts udpStartPort udpEndPort [] =
        some ((List.range (udpEndPort + 1 - udpStartPort).toNat).map
          (fun (i : Nat) => udpStartPort + (i : Int)))) ∧
    (∀ unusedPorts : List Int,
      ((allocatePort unusedPorts).1.2 ≠ none ↔ unusedPorts = []) ∧
      ((allocatePort unusedPorts).1.2 ≠ none →
        allocatePort unusedPorts = ((0, some .noPortsAvailable), unusedPorts))) ∧
    (∀ (port : Int) (rest : List Int), allocatePort (port :: rest) = ((port, none), rest)) ∧
    (∀ (port : Int) (unusedPorts : List Int),
      releasePort port unusedPorts = unusedPorts ++ [port]) ∧
    (∀ (ops : List PortOp) (unusedPorts : List Int),
      (runPorts ops unusedPorts).1 ++ (runPorts ops unusedPorts).2 =
        unusedPorts ++ releasedPorts ops) ∧
    (∀ q, initUnusedPorts 4500 4599 [] = some q → (allocatePort q).1 = (4500, none)) := by
  refine ⟨?_, ?_, fun _ _ => rfl, fun _ _ => rfl, fun ops q => runPorts_fifo ops q, ?_⟩
  · intro s e he
    unfold initUnusedPorts
    rw [if_neg (fun hc => by rw [hc.2] at he; exact absurd he (by decide))]
    rw [appendPorts_eq, List.nil_append]
  · intro q
    cases q with
    | nil => exact ⟨by simp [allocatePort], fun _ => rfl⟩
    | cons p rest => exact ⟨by simp [allocatePort], fun h => by simp [allocatePort] at h⟩
  · intro q hq
    unfold initUnusedPorts at hq
    have hn : ((4599 : Int) + 1 - 4500).toNat = 99 + 1 := by decide
    rw [if_neg (by decide), hn, appendPorts, appendPorts_eq] at hq
    injection hq with hq
    rw [← hq]
    rfl

/-- C19 at the range 4500-4502: the slice after `initTunnels`, and the ports
handed out over a sequence of calls with a release in between. -/
theorem unusedPorts_fifo_witness :
    (4502 : Int) < 2 ^ 63 - 1 ∧
    initUnusedPorts 4500 4502 [] = some [4500, 4501, 4502] ∧
    runPorts [.allocate, .allocate, .release 4500, .allocate, .allocate, .allocate]
      [4500, 4501, 4502] = ([4500, 4501, 4502, 4500], []) :=
  ⟨by decide, (unusedPorts_fifo.1 4500 4502 (by decide)).trans (by decide), by decide⟩

/-- C20, the code at the last value that `rand.Int` can draw. For the overlay
range 100.64.0.0/14 of the daemon the draw is below 2^17; with the value
2^17 - 1 `randomIPPair` returns first = 100.67.255.255, the last address of the
range, and second = 100.68.0.0, which is outside of it. For a range /31 the only
draw is 0, and second = base + 2 is outside as well. -/
theorem randomIPPair_last_draw_leaves_block :
    IPMask.Size [255, 252, 0, 0] = (14, 32) ∧
    shiftOne (32 - 14 - 1) = 131072 ∧
    randomIPPair ⟨[100, 64, 0, 0], [255, 252, 0, 0]⟩ (fun _ => some 131071) =
      some ([100, 67, 255, 255], [100, 68, 0, 0], false) ∧
    IPNet.Contains ⟨[100, 64, 0, 0], [255, 252, 0, 0]⟩ [100, 67, 255, 255] = true ∧
    IPNet.Contains ⟨[100, 64, 0, 0], [255, 252, 0, 0]⟩ [100, 68, 0, 0] = false ∧
    randomIPPair ⟨[10, 0, 0, 0], [255, 255, 255, 254]⟩ (fun _ => some 0) =
      some ([10, 0, 0, 1], [10, 0, 0, 2], false) ∧
    IPNet.Contains ⟨[10, 0, 0, 0], [255, 255, 255, 254]⟩ [10, 0, 0, 2] = false :=
  ⟨by decide, by decide, by decide, by decide, by decide, by decide, by decide⟩

theorem shiftOne_ones (p : Nat) (hp : p < 32) :
    shiftOne (32 - (p : Int) - 1) = 2 ^ (31 - p) := by
  interval_cases p <;> decide

/-- For a mask of 32 bits with `p` < 32 leading ones and a draw below
2^(31 - p), `randomIPPair` returns the addresses 2·value + 1 and 2·value + 2
above the address of the network. -/
theorem randomIPPair_formula (cidr : IPNet) (p value : Nat) (randInt : Int → Option Nat)
    (hsize : IPMask.Size cidr.Mask = ((p : Int), 32)) (hp : p < 32)
    (hdraw : randInt (2 ^ (31 - p)) = some value) (hv : value < 2 ^ (31 - p)) :
    randomIPPair cidr randInt =
      some (IPAdd cidr.IP (2 * value + 1), IPAdd (IPAdd cidr.IP (2 * value + 1)) 1, false) := by
  have hpos : ¬ ((2 : Int) ^ (31 - p) ≤ 0) := not_le.mpr (by positivity)
  have hlt : value * 2 + 1 < 2 ^ 64 := by
    have : (2 : Nat) ^ (31 - p) ≤ 2 ^ 31 := Nat.pow_le_pow_right (by decide) (by omega)
    have h31 : (2 : Nat) ^ 31 = 2147483648 := by norm_num
    have h64 : (2 : Nat) ^ 64 = 18446744073709551616 := by norm_num
    omega
  unfold randomIPPair
  rw [hsize]
  simp only
  rw [shiftOne_ones p hp, if_neg hpos, hdraw]
  simp only
  rw [Nat.mod_eq_of_lt hlt, Nat.mul_comm]

theorem digitChar_digit (k : Nat) (h : k < 10) :
    isDigit (Nat.digitChar k) = true ∧ digitVal (Nat.digitChar k) = k := by
  interval_cases k <;> decide

theorem digitsVal_concat (l : Str) (d : Char) :
    digitsVal (l ++ [d]) = digitsVal l * 10 + digitVal d := by
  simp [digitsVal, List.foldl_append]

theorem toDigitsCore_spec (fuel : Nat) : ∀ (n : Nat) (ds : Str), n < fuel →
    ∃ l : Str, Nat.toDigitsCore 10 fuel n ds = l ++ ds ∧ l ≠ [] ∧ l.all isDigit = true ∧
      digitsVal l = n := by
  induction fuel with
  | zero => intro n ds h; omega
  | succ fuel ih =>
    intro n ds h
    have hd := digitChar_digit (n % 10) (Nat.mod_lt _ (by decide))
    rw [Nat.toDigitsCore]
    by_cases h0 : n / 10 = 0
    · rw [if_pos h0]
      refine ⟨[Nat.digitChar (n % 10)], rfl, by simp, by simp [hd.1], ?_⟩
      have := digitsVal_concat [] (Nat.digitChar (n % 10))
      simp only [List.nil_append] at this
      rw [this, hd.2]
      have : digitsVal [] = 0 := rfl
      rw [this]
      omega
    · rw [if_neg h0]
      have hlt : n / 10 < fuel := by omega
      obtain ⟨l, hl, hne, hall, hval⟩ := ih (n / 10) (Nat.digitChar (n % 10) :: ds) hlt
      refine ⟨l ++ [Nat.digitChar (n % 10)], ?_, by simp, ?_, ?_⟩
      · rw [hl]; simp
      · rw [List.all_append, hall]; simp [hd.1]
      · rw [digitsVal_concat, hval, hd.2]; omega

theorem toDigits_spec (n : Nat) :
    Nat.toDigits 10 n ≠ [] ∧ (Nat.toDigits 10 n).all isDigit = true ∧
      digitsVal (Nat.toDigits 10 n) = n := by
  obtain ⟨l, hl, hne, hall, hval⟩ := toDigitsCore_spec (n + 1) n [] (Nat.lt_succ_self n)
  rw [List.append_nil] at hl
  unfold Nat.toDigits
  rw [hl]
  exact ⟨hne, hall, hval⟩

/-- What `%d` writes, `strconv.Atoi` reads back, for every `int`. -/
theorem Atoi_fmtInt (p : Int) (hlo : -(2 : Int) ^ (intSize - 1) ≤ p)
    (hhi : p ≤ (2 : Int) ^ (intSize - 1) - 1) : Atoi (fmtInt p) = some p := by
  cases p with
  | ofNat m =>
    obtain ⟨hne, hall, hval⟩ := toDigits_spec m
    have hv : digitsVal (Nat.toDigits 10 m) < 2 ^ (intSize - 1) := by
      rw [hval]
      have : (m : Int) ≤ 2 ^ (intSize - 1) - 1 := hhi
      have h2 : ((2 ^ (intSize - 1) : Nat) : Int) = 2 ^ (intSize - 1) := by norm_cast
      omega
    have := Atoi_digits (Nat.toDigits 10 m) hne hall hv
    rw [hval] at this
    exact this
  | negSucc m =>
    obtain ⟨hne, hall, hval⟩ := toDigits_spec (m + 1)
    have hlo2 : -(2 : Int) ^ (intSize - 1) ≤ -((m + 1 : Nat) : Int) := by
      have : Int.negSucc m = -((m + 1 : Nat) : Int) := rfl
      rw [← this]; exact hlo
    have hhi2 : -((m + 1 : Nat) : Int) ≤ (2 : Int) ^ (intSize - 1) - 1 := by
      have : Int.negSucc m = -((m + 1 : Nat) : Int) := rfl
      rw [← this]; exact hhi
    show Atoi ('-' :: Nat.toDigits 10 (m + 1)) = some (Int.negSucc m)
    unfold Atoi
    simp only
    unfold atoiDigits
    have he : (Nat.toDigits 10 (m + 1)).isEmpty = false := by
      cases h : Nat.toDigits 10 (m + 1) with
      | nil => exact absurd h hne
      | cons c cs => rfl
    rw [he, hall, hval]
    simp only [Bool.false_eq_true, if_false, if_true]
    rw [if_pos ⟨hlo2, hhi2⟩]
    rfl

theorem atoiDigits_range (neg : Bool) (ds : Str) (p : Int) (h : atoiDigits neg ds = some p) :
    -(2 : Int) ^ (intSize - 1) ≤ p ∧ p ≤ (2 : Int) ^ (intSize - 1) - 1 := by
  unfold atoiDigits at h
  by_cases h1 : ds.isEmpty = true
  · rw [if_pos h1] at h; cases h
  · rw [if_neg h1] at h
    by_cases h2 : ds.all isDigit = true
    · rw [if_pos h2] at h
      simp only at h
      by_cases h3 : -(2 : Int) ^ (intSize - 1) ≤ (if neg = true then -(digitsVal ds : Int)
          else (digitsVal ds : Int)) ∧ (if neg = true then -(digitsVal ds : Int)
          else (digitsVal ds : Int)) ≤ (2 : Int) ^ (intSize - 1) - 1
      · rw [if_pos h3] at h
        cases h
        exact h3
      · rw [if_neg h3] at h; cases h
    · rw [if_neg h2] at h; cases h

theorem Atoi_range (s : Str) (p : Int) (h : Atoi s = some p) :
    -(2 : Int) ^ (intSize - 1) ≤ p ∧ p ≤ (2 : Int) ^ (intSize - 1) - 1 := by
  unfold Atoi at h
  split at h <;> exact atoiDigits_range _ _ _ h

theorem fmtInt_chars (p : Int) : ∀ c ∈ fmtInt p, c = '-' ∨ isDigit c = true := by
  intro c hc
  cases p with
  | ofNat m =>
    right
    have := (toDigits_spec m).2.1
    rw [List.all_eq_true] at this
    exact this c hc
  | negSucc m =>
    have hc' : c ∈ '-' :: Nat.toDigits 10 (m + 1) := hc
    rcases List.mem_cons.mp hc' with e | hm
    · left; exact e
    · right
      have := (toDigits_spec (m + 1)).2.1
      rw [List.all_eq_true] at this
      exact this c hm

theorem fmtInt_no_colon (p : Int) : ':' ∉ fmtInt p := by
  intro h
  rcases fmtInt_chars p ':' h with e | e
  · exact absurd e (by decide)
  · exact absurd e (by decide)

/-- The canonical port is never zero, fits an `int`, and is its own canonical
port when written in decimal. -/
theorem canonicalPort_fix (port : Option Str) :
    canonicalPort (some (fmtInt (canonicalPort port))) = canonicalPort port := by
  have key : ∀ q : Int, q ≠ 0 → -(2 : Int) ^ (intSize - 1) ≤ q →
      q ≤ (2 : Int) ^ (intSize - 1) - 1 → canonicalPort (some (fmtInt q)) = q := by
    intro q h0 hlo hhi
    simp only [canonicalPort, Atoi_fmtInt q hlo hhi, if_neg h0]
  have hdef : canonicalPort (some (fmtInt DEFAULT_PORT)) = DEFAULT_PORT :=
    key DEFAULT_PORT (by decide) (by decide) (by decide)
  cases port with
  | none => exact hdef
  | some t =>
    cases ha : Atoi t with
    | none => simp only [canonicalPort, ha]; exact hdef
    | some p =>
      by_cases h0 : p = 0
      · simp only [canonicalPort, ha, h0, if_true]; exact hdef
      · have hr := Atoi_range t p ha
        have : canonicalPort (some t) = p := by simp only [canonicalPort, ha, if_neg h0]
        rw [this]
        exact key p h0 hr.1 hr.2

theorem addrScheme_tcp (rest : Str) :
    addrScheme ("tcp://".toList ++ rest) = some ("tcp".toList, rest) := by
  have h1 : HasPrefix ("tcp://".toList ++ rest) "unix://".toList = false := rfl
  have h2 : HasPrefix ("tcp://".toList ++ rest) "tcp://".toList = true := by
    simp [HasPrefix]
  unfold addrScheme
  rw [if_neg (by rw [h1]; decide), if_pos h2, TrimPrefix_append]

theorem addrScheme_unix (path : Str) :
    addrScheme ("unix://".toList ++ path) =
      some ("unix".toList, if path = [] then DEFAULT_UNIX else path) := by
  have h1 : HasPrefix ("unix://".toList ++ path) "unix://".toList = true := by
    simp [HasPrefix]
  unfold addrScheme
  rw [if_pos h1, TrimPrefix_append]

theorem ValidateAddr_canonical_tcp (host : Str) (port : Option Str) (hh : ':' ∉ host) :
    ValidateAddr ("tcp://".toList ++ (host ++ ':' :: fmtInt (canonicalPort port))) =
      .ok ("tcp://".toList ++ (host ++ ':' :: fmtInt (canonicalPort port))) := by
  unfold ValidateAddr
  rw [addrScheme_tcp]
  simp only
  rw [addrHostPort_tcp_port host _ hh (fmtInt_no_colon _), canonicalPort_fix]

theorem ValidateAddr_canonical_unix (path : Str) (h : path ≠ []) :
    ValidateAddr ("unix://".toList ++ path) = .ok ("unix://".toList ++ path) := by
  unfold ValidateAddr
  rw [addrScheme_unix, if_neg h]
  simp only
  rw [addrHostPort_unix]

theorem Cut_scheme (proto rest : Str) (h : ':' ∉ proto) :
    Cut (proto ++ ("://".toList ++ rest)) "://".toList = some (proto, rest) := by
  induction proto with
  | nil => simp [Cut, HasPrefix]
  | cons c cs ih =>
    have hc : c ≠ ':' := fun e => h (by rw [e]; exact List.mem_cons_self _ _)
    have hcs : ':' ∉ cs := fun e => h (List.mem_cons_of_mem _ e)
    rw [List.cons_append, Cut]
    have hp : HasPrefix (c :: (cs ++ ("://".toList ++ rest))) "://".toList = false := by
      simp [HasPrefix, List.isPrefixOf, Ne.symm hc]
    rw [if_neg (by rw [hp]; decide), ih hcs]

/-- C30. `ValidateAddr` is idempotent: for every address `s` on which it
succeeds with the result `r`, `ValidateAddr(r)` succeeds and returns `r`.
Every such result contains "://", so that `ParseAddr` splits it into a
protocol, unix or tcp, and an address without indexing out of range. -/
theorem ValidateAddr_idempotent (s r : Str) (h : ValidateAddr s = .ok r) :
    ValidateAddr r = .ok r ∧ Contains r "://".toList = true ∧
    ∃ address, (ParseAddr r = some ("unix".toList, address) ∨
      ParseAddr r = some ("tcp".toList, address)) ∧
      (r = "unix://".toList ++ address ∨ r = "tcp://".toList ++ address) := by
  have hunix : ∀ path : Str, path ≠ [] → ValidateAddr ("unix://".toList ++ path) =
      .ok ("unix://".toList ++ path) ∧ Contains ("unix://".toList ++ path) "://".toList = true ∧
      ∃ address, (ParseAddr ("unix://".toList ++ path) = some ("unix".toList, address) ∨
        ParseAddr ("unix://".toList ++ path) = some ("tcp".toList, address)) ∧
        ("unix://".toList ++ path = "unix://".toList ++ address ∨
          "unix://".toList ++ path = "tcp://".toList ++ address) := by
    intro path hp
    refine ⟨ValidateAddr_canonical_unix path hp, ?_, path, Or.inl ?_, Or.inl rfl⟩
    · rw [Contains_iff]
      exact ⟨"unix".toList, path, by simp⟩
    · exact Cut_scheme "unix".toList path (by decide)
  rcases ValidateAddr_cases s with ⟨path, _, _, hv⟩ | ⟨pre, rest, _, _, _, _, _, hc⟩ | ⟨_, _, _, hv⟩
  · rw [hv] at h
    injection h with h
    rw [← h]
    by_cases hp : path = []
    · rw [if_pos hp]; exact hunix DEFAULT_UNIX (by decide)
    · rw [if_neg hp]; exact hunix path hp
  · rcases hc with ⟨_, hv⟩ | ⟨_, host, port, _, hh, _, hv⟩
    · rw [hv] at h; cases h
    · rw [hv] at h
      injection h with h
      rw [← h]
      refine ⟨ValidateAddr_canonical_tcp host port hh, ?_,
        host ++ ':' :: fmtInt (canonicalPort port), Or.inr ?_, Or.inr rfl⟩
      · rw [Contains_iff]
        exact ⟨"tcp".toList, host ++ ':' :: fmtInt (canonicalPort port), by simp⟩
      · exact Cut_scheme "tcp".toList _ (by decide)
  · rw [hv] at h; cases h

/-- C30 at the addresses "foo:80" and "unix://": the results are
"tcp://foo:80" and "unix:///var/run/wormhole", and both are their own
results. -/
theorem ValidateAddr_idempotent_witness :
    ValidateAddr "foo:80".toList = .ok "tcp://foo:80".toList ∧
    ValidateAddr "tcp://foo:80".toList = .ok "tcp://foo:80".toList ∧
    ValidateAddr "unix:///var/run/wormhole".toList = .ok "unix:///var/run/wormhole".toList :=
  ⟨by decide,
    (ValidateAddr_idempotent "foo:80".toList "tcp://foo:80".toList (by decide)).1,
    (ValidateAddr_idempotent "unix://".toList "unix:///var/run/wormhole".toList (by decide)).1⟩

theorem parseScheme_proto (u rest proto : Str) (h : parseScheme u = some (rest, proto)) :
    proto = [] ∨ knownProto proto = true := by
  unfold parseScheme at h
  split_ifs at h <;> (injection h with h; injection h with _ h; rw [← h]; decide)

theorem ParseUrl_proto (url : Str) :
    (ParseUrl url).proto = [] ∨ knownProto (ParseUrl url).proto = true := by
  unfold ParseUrl
  simp only
  split
  · left; rfl
  · cases hs : parseScheme (TrimSpace url) with
    | none => left; rfl
    | some rp =>
      obtain ⟨rest, proto⟩ := rp
      exact parseScheme_proto _ _ _ hs

theorem byteLen_known (proto : Str) (h : knownProto proto = true) : 3 ≤ byteLen proto := by
  unfold knownProto at h
  simp only [Bool.or_eq_true, beq_iff_eq] at h
  rcases h with (h | h) | h <;> (rw [h]; decide)

/-- After a run without error the proto of the head is one that a URL command
gave, or the one the head had. -/
theorem executeLoop_proto {W : Type} (E : Env W) (cs : List SegmentCommand) (seg : Segment)
    (d : Daemon W) (h : (executeLoop E cs seg d).res = .ok) :
    (executeLoop E cs seg d).seg.Head.Proto = seg.Head.Proto ∨
      knownProto (executeLoop E cs seg d).seg.Head.Proto = true := by
  have hl := executeLoop_head E cs seg d h
  have h1 := over_foldl_proto (headUrls cs) (headFields seg)
  rw [← hl] at h1
  simp only [headFields] at h1
  rw [h1]
  cases hg : lastGiven UrlParts.setsProto (headUrls cs) with
  | none => left; rfl
  | some v =>
    right
    obtain ⟨u, hu, hv⟩ := lastGiven_some _ _ _ hg
    unfold headUrls at hu
    rw [List.mem_map] at hu
    obtain ⟨c, _, hc⟩ := hu
    have hne := setsProto_ne u v hv
    unfold UrlParts.setsProto at hv
    split_ifs at hv
    injection hv with hv
    rw [Option.getD_some, ← hv, ← hc]
    rcases ParseUrl_proto c.Arg with e | e
    · rw [← hv, ← hc] at hne; exact absurd e hne
    · exact e

theorem getSegment_addSegment_self {W : Type} (d : Daemon W) (id : Str) (s : Segment) :
    getSegment (addSegment d id s) id = some s := by
  rw [getSegment_addSegment, if_pos rfl]

/-- The segment that a `finishCreateSegmentLocal` without error registers: the
one `Initialize` left, with its proxy and the port bound. -/
theorem finishCreateSegmentLocal_ok {W : Type} (E : Env W) (id : Str)
    (r : Outcome × Segment × Daemon W) (h : (finishCreateSegmentLocal E id r).1 = .ok) :
    r.1 = .ok ∧ ∃ s, getSegment (finishCreateSegmentLocal E id r).2.2 id = some s ∧
      s.Head.Proto = r.2.1.Head.Proto ∧ s.Head.Hostname = r.2.1.Head.Hostname := by
  obtain ⟨res, s, d⟩ := r
  cases res with
  | ok =>
    refine ⟨rfl, ?_⟩
    unfold finishCreateSegmentLocal at h ⊢
    simp only at h ⊢
    split at h
    · cases h
    · exact ⟨_, getSegment_addSegment_self _ _ _, rfl, rfl⟩
  | fail e => simp [finishCreateSegmentLocal] at h
  | panic => simp [finishCreateSegmentLocal] at h

/-- On a proto of three bytes or more `hostEqual` returns. -/
theorem hostEqual_returns {W : Type} (E : Env W) (proto h1 h2 : Str) (w : W)
    (h : 3 ≤ byteLen proto) : hostEqual E proto h1 h2 w ≠ none := by
  unfold hostEqual
  by_cases e1 : h1 = h2
  · rw [if_pos e1]; simp
  rw [if_neg e1, if_neg (by omega)]
  by_cases e2 : proto.take 3 = "udp".toList
  · rw [if_pos e2]
    cases E.ResolveUDPAddr proto h1 w with
    | none => simp
    | some a1 =>
      cases E.ResolveUDPAddr proto h2 w with
      | none => simp
      | some a2 => simp
  rw [if_neg e2]
  by_cases e3 : proto.take 3 = "tcp".toList
  · rw [if_pos e3]
    cases E.ResolveTCPAddr proto h1 w with
    | none => simp
    | some a1 =>
      cases E.ResolveTCPAddr proto h2 w with
      | none => simp
      | some a2 => simp
  rw [if_neg e3]
  simp

/-- C27. `hostEqual` reads `proto[:3]`, which panics for a proto of less than
three bytes, and its caller `Trigger` is guarded. A segment that
`createSegmentLocal` registers, from a head that is new or has an empty proto
or one of tcp, udp and unix, has a head proto that is one of tcp, udp and
unix. For such a segment, whenever the commands of `Trig` have run without
error, the head proto that `Trigger` passes to `hostEqual` is again one of the
three, it has three bytes or more, `hostEqual` returns, and `Trigger` does not
panic. -/
theorem Trigger_proto_in_bounds :
    (∀ (W : Type) (E : Env W) (id : Str) (init trig : List SegmentCommand)
      (cinfo : Option ConnectionInfo) (d : Daemon W),
      (∀ c, cinfo = some c → c.Proto = [] ∨ knownProto c.Proto = true) →
      (createSegmentLocal E id init trig cinfo d).1 = .ok →
      ∃ s, getSegment (createSegmentLocal E id init trig cinfo d).2.2 id = some s ∧
        knownProto s.Head.Proto = true) ∧
    (∀ (W : Type) (E : Env W) (s : Segment) (d : Daemon W),
      knownProto s.Head.Proto = true → (executeLoop E s.Trig s d).res = .ok →
      knownProto (Trigger E s d).2.1.Head.Proto = true ∧
      3 ≤ byteLen (Trigger E s d).2.1.Head.Proto ∧
      hostEqual E (Trigger E s d).2.1.Head.Proto
        (JoinHostPort (Trigger E s d).2.1.Head.Hostname (fmtInt (Trigger E s d).2.1.Head.Port))
        (JoinHostPort (Trigger E s d).2.1.Tail.Hostname (fmtInt (Trigger E s d).2.1.Tail.Port))
        (Trigger E s d).2.2.world ≠ none ∧
      (Trigger E s d).1 ≠ .panic) := by
  constructor
  · intro W E id init trig cinfo d hc hok
    unfold createSegmentLocal at hok ⊢
    cases hg : getSegment d id with
    | some s0 => rw [hg] at hok; simp at hok
    | none =>
      rw [hg] at hok
      simp only at hok ⊢
      obtain ⟨hI, s, hs, hp, _⟩ := finishCreateSegmentLocal_ok E id _ hok
      refine ⟨s, hs, ?_⟩
      rw [hp]
      obtain ⟨hloop, _, hf⟩ := Initialize_ok E _ d hI
      simp only [headFields, Prod.mk.injEq] at hf
      rw [hf.1]
      split_ifs with h0
      · decide
      · rcases executeLoop_proto E _ _ d hloop with e | e
        · rw [e] at h0 ⊢
          cases cinfo with
          | none => exact absurd rfl h0
          | some c =>
            rcases hc c rfl with e0 | e0
            · exact absurd e0 h0
            · exact e0
        · exact e
  · intro W E s d hk hok
    have hp : knownProto (Trigger E s d).2.1.Head.Proto = true := by
      rw [(Trigger_seg E s d hok).1, (tailDefaults_spec _).1]
      simp only
      rcases executeLoop_proto E s.Trig s d hok with e | e
      · rw [e]; exact hk
      · exact e
    have hb := byteLen_known _ hp
    have hh : hostEqual E (Trigger E s d).2.1.Head.Proto
        (JoinHostPort (Trigger E s d).2.1.Head.Hostname (fmtInt (Trigger E s d).2.1.Head.Port))
        (JoinHostPort (Trigger E s d).2.1.Tail.Hostname (fmtInt (Trigger E s d).2.1.Tail.Port))
        (Trigger E s d).2.2.world ≠ none := by
      exact hostEqual_returns E _ _ _ _ hb
    refine ⟨hp, hb, hh, ?_⟩
    rw [Trigger_res E s d hok]
    cases hq : hostEqual E (Trigger E s d).2.1.Head.Proto
        (JoinHostPort (Trigger E s d).2.1.Head.Hostname (fmtInt (Trigger E s d).2.1.Head.Port))
        (JoinHostPort (Trigger E s d).2.1.Tail.Hostname (fmtInt (Trigger E s d).2.1.Tail.Port))
        (Trigger E s d).2.2.world with
    | none => exact absurd hq hh
    | some b =>
      simp only
      split_ifs <;> simp

/-- C27 at the segment created with the head URL "udp://:53" and a command for
the tail: it is registered with the proto udp, and its `Trigger` returns. -/
theorem Trigger_proto_in_bounds_witness :
    (createSegmentLocal Env.offline "foo".toList [.mk URL false "udp://:53".toList [] []]
      [.mk URL true "10.0.0.1:53".toList [] []] none ⟨[], ()⟩).1 = .ok ∧
    (∃ s, getSegment (createSegmentLocal Env.offline "foo".toList
        [.mk URL false "udp://:53".toList [] []]
        [.mk URL true "10.0.0.1:53".toList [] []] none ⟨[], ()⟩).2.2 "foo".toList = some s ∧
      knownProto s.Head.Proto = true) ∧
    (Trigger Env.offline
      { NewSegment with Head := ⟨"udp".toList, NsNone, "127.0.0.1".toList, 53⟩,
                        Trig := [.mk URL true "10.0.0.1:53".toList [] []] }
      ⟨[], ()⟩).1 ≠ .panic :=
  ⟨by decide,
    Trigger_proto_in_bounds.1 Unit Env.offline "foo".toList
      [.mk URL false "udp://:53".toList [] []] [.mk URL true "10.0.0.1:53".toList [] []] none
      ⟨[], ()⟩ (fun c hc => by cases hc) (by decide),
    (Trigger_proto_in_bounds.2 Unit Env.offline
      { NewSegment with Head := ⟨"udp".toList, NsNone, "127.0.0.1".toList, 53⟩,
                        Trig := [.mk URL true "10.0.0.1:53".toList [] []] }
      ⟨[], ()⟩ (by decide) (by decide)).2.2.2⟩

/-- The URL that `createSegment` builds reads back through `ParseUrl` for a
proto tcp or udp, a host name of name characters and a port above zero. -/
theorem ParseUrl_head_url (proto host : Str) (port : Nat)
    (hp : proto = "tcp".toList ∨ proto = "udp".toList) (hh : host.all nameChar = true)
    (h0 : port ≠ 0) (hport : port < 2 ^ (intSize - 1)) :
    ParseUrl (proto ++ "://".toList ++ host ++ ":".toList ++ fmtInt (port : Int)) =
      ⟨proto, [], host, (port : Int), none⟩ := by
  obtain ⟨hne, hall, hval⟩ := toDigits_spec port
  have hwf : (UrlText.mk (some proto) none false host (some (Nat.toDigits 10 port))).wf
      = true := by
    have hne' : (Nat.toDigits 10 port).isEmpty = false := by
      cases h : Nat.toDigits 10 port with
      | nil => exact absurd h hne
      | cons c cs => rfl
    rcases hp with e | e <;> subst e <;>
      simp [UrlText.wf, hh, hall, hval, h0, hport, hne']
  have := ParseUrl_render _ hwf
  simp only [UrlText.render, UrlText.parts, schemeText, nsText, hostText, portText, portNumber,
    hval, Option.getD_some, Option.getD_none, List.nil_append, Bool.false_eq_true,
    if_false] at this
  rw [← this]
  congr 1
  show _ = proto ++ "://".toList ++ (host ++ ':' :: Nat.toDigits 10 port)
  simp [fmtInt]

/-- C28, the code at a head with an IPv6 host name. The URL "[::1]:40" leaves
the head tcp, ::1, 40; `createSegment` writes it as "tcp://::1:40", without
brackets, and `ParseUrl` of this text returns the error "Only one port is
allowed", on which `executeRemote` and `executeTunnel` fail. `Trigger` joins
host and port by `net.JoinHostPort`, which writes "[::1]:40". -/
theorem createSegment_ipv6_url_does_not_parse :
    (createSegment Env.offline "foo".toList [.mk URL false "[::1]:40".toList [] []] []
      ⟨[], ()⟩).1 = .ok ∧
    (createSegment Env.offline "foo".toList [.mk URL false "[::1]:40".toList [] []] []
      ⟨[], ()⟩).2.1 = "tcp://::1:40".toList ∧
    (getSegment (createSegment Env.offline "foo".toList
      [.mk URL false "[::1]:40".toList [] []] [] ⟨[], ()⟩).2.2 "foo".toList).map
        (fun s => s.Head) = some ⟨"tcp".toList, NsNone, "::1".toList, 40⟩ ∧
    ParseUrl "tcp://::1:40".toList =
      ⟨"tcp".toList, [], "::1".toList, 40, some .multiplePorts⟩ ∧
    JoinHostPort "::1".toList (fmtInt 40) = "[::1]:40".toList :=
  ⟨by decide, by decide, by decide, by decide, by decide⟩

theorem IP.Equal_refl (ip : IP) : IP.Equal ip ip = true := by
  unfold IP.Equal
  simp

theorem IP.Equal_symm (ip x : IP) : IP.Equal ip x = IP.Equal x ip := by
  have e1 : decide (ip = x) = decide (x = ip) := by
    simp only [decide_eq_decide]; exact eq_comm
  have e2 : decide (ip = x.drop 12) = decide (x.drop 12 = ip) := by
    simp only [decide_eq_decide]; exact eq_comm
  have e3 : decide (ip.drop 12 = x) = decide (x = ip.drop 12) := by
    simp only [decide_eq_decide]; exact eq_comm
  unfold IP.Equal
  split_ifs <;> first | omega | exact e1 | (rw [e2]) | (rw [e3]) | rfl

theorem IP.Equal_of_length (ip x : IP) (h : ip.length = x.length) :
    IP.Equal ip x = decide (ip = x) := by
  unfold IP.Equal
  rw [if_pos h]

theorem Tunnel.Equal_iff (t o : Tunnel) :
    Tunnel.Equal t o = true ↔
      t.Reqid = o.Reqid ∧ t.AuthKey = o.AuthKey ∧ t.EncKey = o.EncKey ∧
      IP.Equal t.Src o.Src = true ∧ IP.Equal t.Dst o.Dst = true ∧
      t.SrcPort = o.SrcPort ∧ t.DstPort = o.DstPort := by
  unfold Tunnel.Equal bytesEqual
  simp only [Bool.and_eq_true, decide_eq_true_eq]
  tauto

/-- C26, as stated, fails: `Tunnel.Equal` compares the addresses with
`IP.Equal`, for which an IPv4 address in 4 bytes equals the same address in 16
bytes. Two tunnels that differ in the bytes of `Src` are equal. -/
theorem Tunnel_Equal_not_bytewise :
    Tunnel.Equal ⟨1, [7], [8], [10, 0, 0, 1], [10, 0, 0, 2], 0, 0⟩
      ⟨1, [7], [8], [0, 0, 0, 0, 0, 0, 0, 0, 0, 0, 255, 255, 10, 0, 0, 1], [10, 0, 0, 2], 0, 0⟩
      = true ∧
    (⟨1, [7], [8], [10, 0, 0, 1], [10, 0, 0, 2], 0, 0⟩ : Tunnel) ≠
      ⟨1, [7], [8], [0, 0, 0, 0, 0, 0, 0, 0, 0, 0, 255, 255, 10, 0, 0, 1], [10, 0, 0, 2], 0, 0⟩ :=
  ⟨by decide, by decide⟩

/-- C26, amended. `Tunnel.Equal` returns true exactly when the two tunnels have
equal reqid, the same bytes of the auth key and of the encryption key, equal
`SrcPort` and `DstPort`, and addresses `Src` and `Dst` that are equal as IP
addresses: the same bytes, or an IPv4 address in 4 bytes and the same address
in 16 bytes. For addresses of the same length this is equality of all fields.
It is reflexive and symmetric. -/
theorem Tunnel_Equal_spec (t o : Tunnel) :
    (Tunnel.Equal t o = true ↔
      t.Reqid = o.Reqid ∧ t.AuthKey = o.AuthKey ∧ t.EncKey = o.EncKey ∧
      IP.Equal t.Src o.Src = true ∧ IP.Equal t.Dst o.Dst = true ∧
      t.SrcPort = o.SrcPort ∧ t.DstPort = o.DstPort) ∧
    (t.Src.length = o.Src.length → t.Dst.length = o.Dst.length →
      (Tunnel.Equal t o = true ↔ t = o)) ∧
    Tunnel.Equal t t = true ∧
    Tunnel.Equal t o = Tunnel.Equal o t := by
  refine ⟨Tunnel.Equal_iff t o, ?_, ?_, ?_⟩
  · intro hs hd
    rw [Tunnel.Equal_iff, IP.Equal_of_length _ _ hs, IP.Equal_of_length _ _ hd]
    simp only [decide_eq_true_eq]
    constructor
    · intro ⟨h1, h2, h3, h4, h5, h6, h7⟩
      obtain ⟨r, a, e, s, d, sp, dp⟩ := t
      obtain ⟨r', a', e', s', d', sp', dp'⟩ := o
      simp only at h1 h2 h3 h4 h5 h6 h7
      subst h1 h2 h3 h4 h5 h6 h7
      rfl
    · intro h
      subst h
      exact ⟨rfl, rfl, rfl, rfl, rfl, rfl, rfl⟩
  · rw [Tunnel.Equal_iff]
    exact ⟨rfl, rfl, rfl, IP.Equal_refl _, IP.Equal_refl _, rfl, rfl⟩
  · have key : ∀ x y : Tunnel, Tunnel.Equal x y = true → Tunnel.Equal y x = true := by
      intro x y h
      rw [Tunnel.Equal_iff] at h ⊢
      obtain ⟨h1, h2, h3, h4, h5, h6, h7⟩ := h
      exact ⟨h1.symm, h2.symm, h3.symm, by rw [IP.Equal_symm]; exact h4,
        by rw [IP.Equal_symm]; exact h5, h6.symm, h7.symm⟩
    cases h1 : Tunnel.Equal t o with
    | true => exact (key t o h1).symm
    | false =>
      cases h2 : Tunnel.Equal o t with
      | true => rw [key o t h2] at h1; cases h1
      | false => rfl

/-- C26 at two tunnels with addresses of 4 bytes that differ in `DstPort`: they
are not equal. -/
theorem Tunnel_Equal_spec_witness :
    Tunnel.Equal ⟨1, [7], [8], [10, 0, 0, 1], [10, 0, 0, 2], 4500, 4501⟩
      ⟨1, [7], [8], [10, 0, 0, 1], [10, 0, 0, 2], 4500, 4502⟩ = false ∧
    Tunnel.Equal ⟨1, [7], [8], [10, 0, 0, 1], [10, 0, 0, 2], 4500, 4501⟩
      ⟨1, [7], [8], [10, 0, 0, 1], [10, 0, 0, 2], 4500, 4501⟩ = true :=
  ⟨by
    have h := (Tunnel_Equal_spec ⟨1, [7], [8], [10, 0, 0, 1], [10, 0, 0, 2], 4500, 4501⟩
      ⟨1, [7], [8], [10, 0, 0, 1], [10, 0, 0, 2], 4500, 4502⟩).2.1 rfl rfl
    cases hq : Tunnel.Equal ⟨1, [7], [8], [10, 0, 0, 1], [10, 0, 0, 2], 4500, 4501⟩
      ⟨1, [7], [8], [10, 0, 0, 1], [10, 0, 0, 2], 4500, 4502⟩ with
    | false => rfl
    | true => exact absurd (h.mp hq) (by decide),
   (Tunnel_Equal_spec ⟨1, [7], [8], [10, 0, 0, 1], [10, 0, 0, 2], 4500, 4501⟩
      ⟨1, [7], [8], [10, 0, 0, 1], [10, 0, 0, 2], 4500, 4501⟩).2.2.1⟩

theorem getPolicies_eq (reqid : Int) (src dst : IP) (srcNet dstNet : IPNet) :
    getPolicies reqid src dst srcNet dstNet =
      [⟨dstNet, srcNet, .XFRM_DIR_OUT, [⟨dst, src, XFRM_PROTO_ESP, XFRM_MODE_TUNNEL, reqid⟩]⟩,
       ⟨srcNet, dstNet, .XFRM_DIR_IN, [⟨src, dst, XFRM_PROTO_ESP, XFRM_MODE_TUNNEL, reqid⟩]⟩] :=
  rfl

theorem getStates_eq (reqid : Int) (src dst : IP) (srcPort dstPort : Int)
    (authKey encKey : List Nat) :
    getStates reqid src dst srcPort dstPort authKey encKey =
      [⟨dst, src, XFRM_PROTO_ESP, XFRM_MODE_TUNNEL, reqid, reqid, 32,
          some ⟨"hmac(sha256)".toList, authKey⟩, some ⟨"cbc(aes)".toList, encKey⟩,
          if srcPort ≠ 0 ∧ dstPort ≠ 0 then some ⟨XFRM_ENCAP_ESPINUDP, srcPort, dstPort⟩
          else none⟩,
       ⟨src, dst, XFRM_PROTO_ESP, XFRM_MODE_TUNNEL, reqid, reqid, 32,
          some ⟨"hmac(sha256)".toList, authKey⟩, some ⟨"cbc(aes)".toList, encKey⟩,
          if srcPort ≠ 0 ∧ dstPort ≠ 0 then some ⟨XFRM_ENCAP_ESPINUDP, dstPort, srcPort⟩
          else none⟩] := by
  unfold getStates
  simp only
  split_ifs <;> rfl

theorem dedup_pair {α : Type} [DecidableEq α] (x y : α) (h : x ≠ y) :
    ([x, y] ++ [x, y].reverse).dedup = [y, x] := by
  show (x :: y :: y :: x :: []).dedup = _
  rw [List.dedup_cons_of_mem (by simp), List.dedup_cons_of_mem (by simp),
    List.dedup_cons_of_not_mem (by simp [h.symm]), List.dedup_cons_of_not_mem (by simp),
    List.dedup_nil]

/-- C24. A tunnel installed from both ends, by a daemon with the external
address `a` for the peer `b` and by the peer with the mirrored view, `a` other
than `b`: `getPolicies` returns one OUT and one IN policy for each end, and the
four are different; `getStates` for the mirrored view, with source and
destination swapped, the ports swapped and the same reqid and keys, returns
the two states of the local view in the other order, so that both ends
install the same two states, which differ; each state has an encap, of type
ESPINUDP, exactly when both ports are not zero. -/
theorem tunnel_policies_and_states (reqid : Int) (a b : IP) (srcNet dstNet : IPNet)
    (srcPort dstPort : Int) (authKey encKey : List Nat) (hab : a ≠ b) :
    (getPolicies reqid a b srcNet dstNet).map (fun p => p.Dir) =
      [.XFRM_DIR_OUT, .XFRM_DIR_IN] ∧
    (getPolicies reqid b a dstNet srcNet).map (fun p => p.Dir) =
      [.XFRM_DIR_OUT, .XFRM_DIR_IN] ∧
    (getPolicies reqid a b srcNet dstNet ++ getPolicies reqid b a dstNet srcNet).length = 4 ∧
    (getPolicies reqid a b srcNet dstNet ++ getPolicies reqid b a dstNet srcNet).Nodup ∧
    getStates reqid b a dstPort srcPort authKey encKey =
      (getStates reqid a b srcPort dstPort authKey encKey).reverse ∧
    (getStates reqid a b srcPort dstPort authKey encKey).length = 2 ∧
    (getStates reqid a b srcPort dstPort authKey encKey).Nodup ∧
    (getStates reqid a b srcPort dstPort authKey encKey ++
      getStates reqid b a dstPort srcPort authKey encKey).dedup.length = 2 ∧
    (∀ s ∈ getStates reqid a b srcPort dstPort authKey encKey,
      (s.Encap.isSome = true ↔ srcPort ≠ 0 ∧ dstPort ≠ 0) ∧
      ∀ e, s.Encap = some e → e.Typ = XFRM_ENCAP_ESPINUDP) := by
  have hba : b ≠ a := fun e => hab e.symm
  have hrev : getStates reqid b a dstPort srcPort authKey encKey =
      (getStates reqid a b srcPort dstPort authKey encKey).reverse := by
    rw [getStates_eq, getStates_eq]
    simp only [List.reverse_cons, List.reverse_nil, List.nil_append, List.singleton_append]
    have hc : (dstPort ≠ 0 ∧ srcPort ≠ 0) ↔ (srcPort ≠ 0 ∧ dstPort ≠ 0) := And.comm
    simp only [hc]
  have hnd : (getStates reqid a b srcPort dstPort authKey encKey).Nodup := by
    rw [getStates_eq]
    simp only [List.nodup_cons, List.mem_singleton, List.not_mem_nil, not_false_eq_true,
      List.nodup_nil, and_true]
    intro h
    injection h with h1 h2
    exact hba h1
  refine ⟨rfl, rfl, rfl, ?_, hrev, rfl, hnd, ?_, ?_⟩
  · rw [getPolicies_eq, getPolicies_eq]
    simp only [List.cons_append, List.nil_append, List.nodup_cons, List.mem_cons,
      List.mem_singleton, List.not_mem_nil, not_false_eq_true, List.nodup_nil, and_true,
      XfrmPolicy.mk.injEq, XfrmPolicyTmpl.mk.injEq, List.cons.injEq, not_or, or_false]
    refine ⟨⟨fun h => hab h.2.2.2.2, fun h => hab h.2.2.2.2, fun h => ?_⟩,
      ⟨fun h => ?_, fun h => hab h.2.2.2.1⟩, fun h => hab h.2.2.2.1⟩
    · exact absurd h.2.2 (by decide)
    · exact absurd h.2.2 (by decide)
  · rw [hrev]
    rw [getStates_eq] at hnd ⊢
    have hne := (List.nodup_cons.mp hnd).1
    simp only [List.mem_singleton] at hne
    exact congrArg List.length (dedup_pair _ _ hne)
  · intro s hs
    rw [getStates_eq] at hs
    simp only [List.mem_cons, List.mem_singleton, List.not_mem_nil, or_false] at hs
    rcases hs with e | e <;> subst e <;> simp only <;> split_ifs with hp <;> simp [hp]

/-- C24 at the tunnel of the functional test, between 127.0.0.1 and 127.0.0.2
with udp encap. -/
theorem tunnel_policies_and_states_witness :
    ([127, 0, 0, 1] : IP) ≠ [127, 0, 0, 2] ∧
    (getPolicies 9 [127, 0, 0, 1] [127, 0, 0, 2] (NewIPNet [100, 64, 0, 1])
        (NewIPNet [100, 64, 0, 2]) ++
      getPolicies 9 [127, 0, 0, 2] [127, 0, 0, 1] (NewIPNet [100, 64, 0, 2])
        (NewIPNet [100, 64, 0, 1])).Nodup ∧
    getStates 9 [127, 0, 0, 2] [127, 0, 0, 1] 4501 4500 [1] [2] =
      (getStates 9 [127, 0, 0, 1] [127, 0, 0, 2] 4500 4501 [1] [2]).reverse :=
  ⟨by decide,
    (tunnel_policies_and_states 9 [127, 0, 0, 1] [127, 0, 0, 2] (NewIPNet [100, 64, 0, 1])
      (NewIPNet [100, 64, 0, 2]) 4500 4501 [1] [2] (by decide)).2.2.2.1,
    (tunnel_policies_and_states 9 [127, 0, 0, 1] [127, 0, 0, 2] (NewIPNet [100, 64, 0, 1])
      (NewIPNet [100, 64, 0, 2]) 4500 4501 [1] [2] (by decide)).2.2.2.2.1⟩

/-! ## The tunnel manager -/

/-- One round of the loop of `createTunnel` in which the peer returns an error,
whatever the error is: the pair is released, `tunnel.Src` is set to `nil`, and
the loop goes on. Without an existing tunnel nothing else happens. -/
theorem tunnelLoop_error_retries {W : Type} (E : Sys W) (opts : Options) (c : Conn)
    (fuel : Nat) (tunnel : Tunnel) (dst d : IP) (o : Option Tunnel) (err : Error) (w : W)
    (ts : Tunnels W) (hsrc : tunnel.Src ≠ [])
    (h : E.BuildTunnel c opts.external tunnel ts.world = ((d, o, some err), w)) :
    tunnelLoop E opts c (fuel + 1) tunnel none dst ts =
      tunnelLoop E opts c fuel { tunnel with Src := [] } none d
        { ts with
          world := w
          usedIPs := unreserveIP E.String tunnel.Src (unreserveIP E.String tunnel.Dst ts.usedIPs) } := by
  rw [tunnelLoop]
  simp only [hsrc, if_false, h, isIPInUse, if_true]

/-- C21, the code at a daemon that has a tunnel to its peer with the encap
ports 4500 and 4501. The record that `createTunnel` makes of an existing one
has the ends exchanged, but `SrcPort` is the existing `SrcPort` and `DstPort`
is 0, for every existing record: both assignments of lines 279 and 280 go to
`tunnel.SrcPort`. At this daemon the peer receives the record with the ports
4500 and 0, which is not the mirror, with the ports 4501 and 4500. -/
theorem createTunnel_existing_ports_not_mirrored :
    (∀ e : Tunnel, (mirrorExisting e).Reqid = e.Reqid ∧ (mirrorExisting e).AuthKey = e.AuthKey ∧
      (mirrorExisting e).EncKey = e.EncKey ∧ (mirrorExisting e).Src = e.Dst ∧
      (mirrorExisting e).Dst = e.Src ∧ (mirrorExisting e).SrcPort = e.SrcPort ∧
      (mirrorExisting e).DstPort = 0) ∧
    (createTunnelRun Sys.lab Options.lab 5 labPeerUrl false
      (Tunnels.having (labTunnel 4500 4501) (Machine.init [] []))).map
      (fun r => r.2.2.2.world.sent)
        = some [⟨9, [1], [2], [100, 64, 0, 1], [100, 64, 0, 2], 4500, 0⟩] ∧
    mirrorExisting (labTunnel 4500 4501)
      ≠ ⟨9, [1], [2], [100, 64, 0, 1], [100, 64, 0, 2], 4501, 4500⟩ :=
  ⟨fun _ => ⟨rfl, rfl, rfl, rfl, rfl, rfl, rfl⟩, by decide, by decide⟩

/-- C22, the code at a peer whose `BuildTunnel` returns "no ports available",
an error that is not `IPInUse`. With one such reply `createTunnel` asks the
peer a second time and returns without error, and `DestroyTunnel` is never
called at the peer; with three such replies the loop has not ended after three
rounds. The error of the peer is never returned. -/
theorem createTunnel_retries_on_every_error :
    (createTunnelRun Sys.lab Options.lab 5 labPeerUrl true
      (Tunnels.fresh (Machine.init [0, 0, 5, 0, 1] [some .noPortsAvailable, none]))).map
      (fun r => (r.1, r.2.2.2.world.sent.length, r.2.2.2.world.destroyed))
        = some (.ok, 2, 0) ∧
    createTunnelRun Sys.lab Options.lab 3 labPeerUrl true
      (Tunnels.fresh (Machine.init [0, 0, 5, 0, 1, 2]
        [some .noPortsAvailable, some .noPortsAvailable, some .noPortsAvailable])) = none ∧
    (∀ err : Error, isIPInUse err = true) :=
  ⟨by decide, rfl, fun _ => rfl⟩

/-- C23: when a tunnel is registered under the external address of the peer,
`buildTunnel` returns `opts.external`, the registered record and no error,
whatever record the caller proposed, and the package variables (the registry
of tunnels and listeners, `usedIPs`, `unusedPorts`) and the outside are as
before. -/
theorem buildTunnel_existing {W : Type} (E : Sys W) (opts : Options) (dst : IP)
    (tunnel t : Tunnel) (ts : Tunnels W) (h : getTunnel ts (E.String dst) = some t) :
    buildTunnel E opts dst tunnel ts = ((opts.external, some t, none), ts) := by
  rw [buildTunnel, h]

/-- C23 at a daemon that has a tunnel to 192.168.0.2 and is asked for another
record with an encap port. -/
theorem buildTunnel_existing_witness :
    getTunnel (Tunnels.having (labTunnel 0 0) (Machine.init [] []))
      (Sys.lab.String [192, 168, 0, 2]) = some (labTunnel 0 0) ∧
    buildTunnel Sys.lab Options.lab [192, 168, 0, 2]
      ⟨7, [3], [4], [100, 64, 0, 6], [100, 64, 0, 5], 0, 4500⟩
      (Tunnels.having (labTunnel 0 0) (Machine.init [] []))
        = ((Options.lab.external, some (labTunnel 0 0), none),
          Tunnels.having (labTunnel 0 0) (Machine.init [] [])) :=
  ⟨by decide, buildTunnel_existing _ _ _ _ _ _ (by decide)⟩

/-- C25, the code at a tunnel with the encap ports 4500 and 4501. The local
half is installed by `buildTunnelLocal` on a machine with empty tables, and
`discoverTunnels` runs on these tables with the package variables of a daemon
that has just started. The record it registers under the address of the peer
has `SrcPort` 4501 and `DstPort` 0: both assignments of lines 186 and 187 go to
`tunnel.SrcPort`. Without encap the record found is the one installed. -/
theorem discoverTunnels_encap_ports_differ :
    (buildTunnelLocal Sys.lab Options.lab [192, 168, 0, 2] (labTunnel 4500 4501)
      (Tunnels.fresh (Machine.init [] []))).1
        = ([192, 168, 0, 1], some (labTunnel 4500 4501), none) ∧
    (discoverTunnels Sys.lab Options.lab (Tunnels.fresh
      (buildTunnelLocal Sys.lab Options.lab [192, 168, 0, 2] (labTunnel 4500 4501)
        (Tunnels.fresh (Machine.init [] []))).2.world)).map
      (fun ts => getTunnel ts (dotted [192, 168, 0, 2])) = some (some (labTunnel 4501 0)) ∧
    labTunnel 4501 0 ≠ labTunnel 4500 4501 ∧
    (discoverTunnels Sys.lab Options.lab (Tunnels.fresh
      (buildTunnelLocal Sys.lab Options.lab [192, 168, 0, 2] (labTunnel 0 0)
        (Tunnels.fresh (Machine.init [] []))).2.world)).map
      (fun ts => getTunnel ts (dotted [192, 168, 0, 2])) = some (some (labTunnel 0 0)) :=
  ⟨by decide, by decide, by decide, by decide⟩

/-- C29, the code at a request with an encap port whose `Dst`, or whose `Src`,
is reserved already. `buildTunnel` returns the error `IPInUse` and `usedIPs`
is as before, but the port 4600 that `allocatePort` handed out is not in
`unusedPorts` any more: nothing calls `releasePort` on this path. -/
theorem buildTunnel_ip_in_use_loses_port :
    (buildTunnel Sys.lab Options.lab [192, 168, 0, 2] (labTunnel 0 4500)
      (Tunnels.reserved [100, 64, 0, 1] (Machine.init [] []))).1
        = ([], none, some (.ipInUse (dotted [100, 64, 0, 1]))) ∧
    (buildTunnel Sys.lab Options.lab [192, 168, 0, 2] (labTunnel 0 4500)
      (Tunnels.reserved [100, 64, 0, 1] (Machine.init [] []))).2.usedIPs
        = (Tunnels.reserved [100, 64, 0, 1] (Machine.init [] [])).usedIPs ∧
    (buildTunnel Sys.lab Options.lab [192, 168, 0, 2] (labTunnel 0 4500)
      (Tunnels.reserved [100, 64, 0, 1] (Machine.init [] []))).2.unusedPorts = [4601] ∧
    (buildTunnel Sys.lab Options.lab [192, 168, 0, 2] (labTunnel 0 4500)
      (Tunnels.reserved [100, 64, 0, 2] (Machine.init [] []))).1
        = ([], none, some (.ipInUse (dotted [100, 64, 0, 2]))) ∧
    (buildTunnel Sys.lab Options.lab [192, 168, 0, 2] (labTunnel 0 4500)
      (Tunnels.reserved [100, 64, 0, 2] (Machine.init [] []))).2.usedIPs
        = (Tunnels.reserved [100, 64, 0, 2] (Machine.init [] [])).usedIPs ∧
    (buildTunnel Sys.lab Options.lab [192, 168, 0, 2] (labTunnel 0 4500)
      (Tunnels.reserved [100, 64, 0, 2] (Machine.init [] []))).2.unusedPorts = [4601] ∧
    (Tunnels.reserved [100, 64, 0, 2] (Machine.init [] [])).unusedPorts = [4600, 4601] :=
  ⟨by decide, by decide, by decide, by decide, by decide, by decide, by decide⟩

/-! ## The canonical address is the result of `ValidateAddr` -/

/-- An address that starts with a scheme contains "://". -/
theorem Contains_of_scheme (proto rest : Str) :
    Contains (proto ++ ("://".toList ++ rest)) "://".toList = true :=
  (Contains_iff _ _).mpr ⟨proto, rest, by simp⟩

/-- The function `addrScheme` on an address without "://": a tcp address, as it
is. -/
theorem addrScheme_bare (addr : Str) (h : Contains addr "://".toList = false) :
    addrScheme addr = some ("tcp".toList, addr) := by
  rcases addrScheme_cases addr with ⟨path, e, _, _⟩ | ⟨rest, e, _, _, _⟩ | ⟨_, _, h3, _⟩ |
    ⟨_, _, _, _, hs⟩
  · have := Contains_of_scheme "unix".toList path
    rw [show "unix".toList ++ ("://".toList ++ path) = "unix://".toList ++ path from rfl,
      ← e, h] at this
    cases this
  · have := Contains_of_scheme "tcp".toList rest
    rw [show "tcp".toList ++ ("://".toList ++ rest) = "tcp://".toList ++ rest from rfl,
      ← e, h] at this
    cases this
  · rw [h] at h3; cases h3
  · exact hs

/-- The function `ValidateAddr` returns the canonical address of its input. -/
theorem Canonical_sound (addr r : Str) (h : Canonical addr r) : ValidateAddr addr = .ok r := by
  cases h with
  | unixDefault => decide
  | unix path hp => exact ValidateAddr_canonical_unix path hp
  | tcp host port hh hp =>
    unfold ValidateAddr
    rw [addrScheme_tcp]
    cases port with
    | none =>
      show addrHostPort "tcp".toList (host ++ []) = _
      rw [List.append_nil]
      exact addrHostPort_tcp_plain host hh
    | some t => exact addrHostPort_tcp_port host t hh (hp t rfl)
  | bare host port hh hp hs =>
    unfold ValidateAddr
    rw [addrScheme_bare _ hs]
    cases port with
    | none =>
      show addrHostPort "tcp".toList (host ++ []) = _
      rw [List.append_nil]
      exact addrHostPort_tcp_plain host hh
    | some t => exact addrHostPort_tcp_port host t hh (hp t rfl)

/-- Every result of `ValidateAddr` is the canonical address of its input. -/
theorem Canonical_complete (addr r : Str) (h : ValidateAddr addr = .ok r) : Canonical addr r := by
  rcases ValidateAddr_cases addr with ⟨path, e, _, hv⟩ |
    ⟨pre, rest, e, hpre, _, _, hbare, ⟨_, hv⟩ | ⟨_, host, port, er, hh, hp, hv⟩⟩ | ⟨_, _, _, hv⟩
  · rw [hv] at h
    cases h
    by_cases hp : path = []
    · subst hp
      rw [e, if_pos rfl]
      exact Canonical.unixDefault
    · rw [e, if_neg hp]
      exact Canonical.unix path hp
  · rw [hv] at h; cases h
  · rw [hv] at h
    cases h
    rcases hpre with hpre | hpre
    · rw [e, er, hpre]
      exact Canonical.tcp host port hh hp
    · have hs := hbare hpre
      rw [e, er, hpre, List.nil_append] at hs
      rw [e, er, hpre, List.nil_append]
      exact Canonical.bare host port hh hp hs
  · rw [hv] at h; cases h

/-- C4. For every input on which `ValidateAddr` succeeds, the result is the
canonical address "unix://path" or "tcp://host:port" with the defaults
applied: an empty unix path becomes /var/run/wormhole, a missing, zero or
unparsable port becomes 9999, and an empty host stays empty; in particular
`ValidateAddr("")` is "tcp://:9999", `ValidateAddr("unix://")` is
"unix:///var/run/wormhole", and `ValidateAddr("h:0")` and `ValidateAddr("h")`
are "tcp://h:9999". The results of `ValidateAddr` are exactly the canonical
addresses of the inputs, and an input has at most one canonical address. -/
theorem ValidateAddr_canonical :
    ValidateAddr "".toList = .ok "tcp://:9999".toList ∧
    ValidateAddr "unix://".toList = .ok "unix:///var/run/wormhole".toList ∧
    ValidateAddr "h:0".toList = .ok "tcp://h:9999".toList ∧
    ValidateAddr "h".toList = .ok "tcp://h:9999".toList ∧
    (∀ addr r : Str, ValidateAddr addr = .ok r ↔ Canonical addr r) ∧
    (∀ addr r r2 : Str, Canonical addr r → Canonical addr r2 → r = r2) := by
  refine ⟨by decide, by decide, by decide, by decide,
    fun addr r => ⟨Canonical_complete addr r, Canonical_sound addr r⟩, ?_⟩
  intro addr r r2 h h2
  have e := (Canonical_sound addr r h).symm.trans (Canonical_sound addr r2 h2)
  cases e
  rfl

/-- C4 at "h:0", at "unix://", at "tcp://h:abc" and at "unix://foo": the
canonical address of the last is itself, and not a tcp address with the host
unix. -/
theorem ValidateAddr_canonical_witness :
    Canonical "h:0".toList "tcp://h:9999".toList ∧
    Canonical "unix://".toList "unix:///var/run/wormhole".toList ∧
    Canonical "tcp://h:abc".toList "tcp://h:9999".toList ∧
    Canonical "unix://foo".toList "unix://foo".toList ∧
    ¬ Canonical "unix://foo".toList "tcp://unix:9999".toList ∧
    ¬ Canonical "unix://".toList "tcp://unix:9999".toList ∧
    ¬ Canonical "tcp://h".toList "tcp://tcp:9999".toList :=
  ⟨(ValidateAddr_canonical.2.2.2.2.1 _ _).mp (by decide),
    (ValidateAddr_canonical.2.2.2.2.1 _ _).mp (by decide),
    (ValidateAddr_canonical.2.2.2.2.1 _ _).mp (by decide),
    (ValidateAddr_canonical.2.2.2.2.1 _ _).mp (by decide),
    fun h => absurd ((ValidateAddr_canonical.2.2.2.2.1 _ _).mpr h) (by decide),
    fun h => absurd ((ValidateAddr_canonical.2.2.2.2.1 _ _).mpr h) (by decide),
    fun h => absurd ((ValidateAddr_canonical.2.2.2.2.1 _ _).mpr h) (by decide)⟩

end Wormhole
